import Mathlib

/-!
# stackplz: record decoder and maps resolver

A shallow embedding of `user/util/helper.go` and `user/event/event_context.go`.

Conventions of the embedding.

* A Go `string` is modelled by the sequence of runes a rune reader decodes from
  it (`List Char`).  Splitting on the one-byte separators `"\n"` and `"/"` and
  the scanner of package `fmt` both commute with that decoding.
* Machine integers are natural numbers; every place where the Go code can wrap
  carries an explicit `% 2 ^ w`.
* A byte is a natural number below 256; a `[]byte` is a `List Nat`.
* Library routines the source calls (`fmt.Fscanf`, `strings.Split`,
  `binary.Read`, `bytes.Buffer`, `strconv.ParseUint`, `strings.SplitN`,
  `json.Marshal`, `bytes.Trim`, `bytes.TrimSpace`, `bytes.Index`) are embedded next to their
  callers, the scanner specialised to the one format string `ParseReg` passes.
* The string `B2STrim` returns is kept as its bytes, since its content need not
  be valid UTF-8.
-/

set_option autoImplicit false

/-! ## Package `fmt`: the scanner behind `Fscanf` -/

namespace fmt

/-- Errors the scanner can report (the text of each is irrelevant to callers,
which only test `err == nil`). -/
inductive ScanError where
  | unexpectedEOF
  | inputDoesNotMatchFormat
  | expectedSpace
  | unexpectedNewline
  | expectedInteger
  | syntaxError
  | rangeError
  deriving DecidableEq, Repr

/-- The limit `hugeWid = 1 << 30` on the number of runes one scan reads. -/
def hugeWid : Nat := 1 <<< 30

/-- The scanner's table of space runes (`isSpace` of `fmt/scan.go`). -/
def isSpace (r : Char) : Bool :=
  let n := r.toNat
  (0x0009 ≤ n && n ≤ 0x000d) || n == 0x0020 || n == 0x0085 || n == 0x00a0 ||
  n == 0x1680 || (0x2000 ≤ n && n ≤ 0x200a) || (0x2028 ≤ n && n ≤ 0x2029) ||
  n == 0x202f || n == 0x205f || n == 0x3000

/-- Scanner state `ss`: the runes not yet read and the number read so far. -/
structure ss where
  rs : List Char
  count : Nat
  deriving DecidableEq, Repr

/-- A fresh scanner over a reader (`newScanState`). -/
def newScanState (r : List Char) : ss := ⟨r, 0⟩

/-- The method `getRune`: the next rune, or `none` for `eof` (the reader is exhausted
or `count` reached the limit). -/
def ss.getRune (s : ss) : Option (Char × ss) :=
  if hugeWid ≤ s.count then none
  else match s.rs with
    | [] => none
    | r :: rest => some (r, ⟨rest, s.count + 1⟩)

/-- The method `peek(ok)`: is the next rune one of `ok`; nothing is consumed. -/
def ss.peek (s : ss) (ok : List Char) : Bool :=
  match s.getRune with
  | none => false
  | some (r, _) => ok.contains r

/-- The loop of `SkipSpace` with `nlIsSpace = false`, on the unread runes and the count. -/
def skipSpaceLoop : List Char → Nat → Except ScanError ss
  | [], n => .ok ⟨[], n⟩
  | r :: rest, n =>
    if hugeWid ≤ n then .ok ⟨r :: rest, n⟩
    else if r = '\r' ∧ ss.peek ⟨rest, n + 1⟩ ['\n'] = true then skipSpaceLoop rest (n + 1)
    else if r = '\n' then .error .unexpectedNewline
    else if isSpace r = false then .ok ⟨r :: rest, n⟩
    else skipSpaceLoop rest (n + 1)

/-- The method `SkipSpace`. -/
def ss.SkipSpace (s : ss) : Except ScanError ss := skipSpaceLoop s.rs s.count

/-- The method `notEOF`: fails with `io.ErrUnexpectedEOF` when no rune can be read. -/
def ss.notEOF (s : ss) : Except ScanError ss :=
  match s.getRune with
  | none => .error .unexpectedEOF
  | some _ => .ok s

/-- The method `accept(digits)` repeated until it fails: the accepted runes and the state. -/
def acceptLoop (digits : List Char) : List Char → Nat → List Char × ss
  | [], n => ([], ⟨[], n⟩)
  | r :: rest, n =>
    if hugeWid ≤ n then ([], ⟨r :: rest, n⟩)
    else if r ∈ digits then
      let p := acceptLoop digits rest (n + 1)
      (r :: p.1, p.2)
    else ([], ⟨r :: rest, n⟩)

/-- The method `scanNumber(digits, false)`: at least one digit, then as many as follow. -/
def ss.scanNumber (s : ss) (digits : List Char) : Except ScanError (List Char × ss) :=
  match s.notEOF with
  | .error e => .error e
  | .ok s =>
    match s.getRune with
    | none => .error .expectedInteger
    | some (r, s1) =>
      if r ∈ digits then
        let p := acceptLoop digits s1.rs s1.count
        .ok (r :: p.1, p.2)
      else .error .expectedInteger

def decimalDigits : List Char := "0123456789".toList

def hexadecimalDigits : List Char := "0123456789aAbBcCdDeEfF".toList

/-- The loop of `token(_, notSpace)`: runes up to the next space or `eof`. -/
def tokenLoop : List Char → Nat → List Char × ss
  | [], n => ([], ⟨[], n⟩)
  | r :: rest, n =>
    if hugeWid ≤ n then ([], ⟨r :: rest, n⟩)
    else if isSpace r = true then ([], ⟨r :: rest, n⟩)
    else
      let p := tokenLoop rest (n + 1)
      (r :: p.1, p.2)

/-- The method `token(true, notSpace)`: skip spaces, then read one word. -/
def ss.token (s : ss) : Except ScanError (List Char × ss) :=
  match s.SkipSpace with
  | .error e => .error e
  | .ok s => .ok (tokenLoop s.rs s.count)

/-- The method `convertString('s')`: the next space-delimited word, which must exist. -/
def ss.convertString (s : ss) : Except ScanError (List Char × ss) :=
  match s.SkipSpace with
  | .error e => .error e
  | .ok s =>
    match s.notEOF with
    | .error e => .error e
    | .ok s => s.token

/-- The run of spaces other than newline that `advance` skips for a space of the format. -/
def advanceSpaceLoop : List Char → Nat → ss
  | [], n => ⟨[], n⟩
  | r :: rest, n =>
    if hugeWid ≤ n then ⟨r :: rest, n⟩
    else if isSpace r = true ∧ r ≠ '\n' then advanceSpaceLoop rest (n + 1)
    else ⟨r :: rest, n⟩

/-- The function `advance` on a single space of the format that follows no newline: the
input must be at `eof` or continue with a space that is not a newline. -/
def ss.advanceSpace (s : ss) : Except ScanError ss :=
  match s.getRune with
  | none => .ok s
  | some (r, s1) =>
    if isSpace r = false then .error .expectedSpace
    else if r = '\n' then .error .unexpectedNewline
    else .ok (advanceSpaceLoop s1.rs s1.count)

/-- The function `advance` on a literal rune of the format: `mustReadRune`, then compare. -/
def ss.advanceLiteral (s : ss) (fmtc : Char) : Except ScanError ss :=
  match s.getRune with
  | none => .error .unexpectedEOF
  | some (r, s1) => if fmtc = r then .ok s1 else .error .inputDoesNotMatchFormat

end fmt

/-! ## Package `strconv` -/

namespace strconv

/-- The value of one digit as `ParseUint` reads it (letters in either case). -/
def digitVal (c : Char) : Option Nat :=
  let n := c.toNat
  if 48 ≤ n ∧ n ≤ 57 then some (n - 48)
  else if 97 ≤ n ∧ n ≤ 122 then some (n - 97 + 10)
  else if 65 ≤ n ∧ n ≤ 90 then some (n - 65 + 10)
  else none

/-- Accumulate the digits of a token, most significant first. -/
def parseDigits (base : Nat) : List Char → Nat → Option Nat
  | [], acc => some acc
  | c :: cs, acc =>
    match digitVal c with
    | none => none
    | some d => if d < base then parseDigits base cs (acc * base + d) else none

/-- The call `ParseUint(tok, base, 64)` with a base of 10 or 16 (no prefix, no underscore). -/
def ParseUint (tok : List Char) (base : Nat) : Except fmt.ScanError Nat :=
  match tok with
  | [] => .error .syntaxError
  | _ =>
    match parseDigits base tok 0 with
    | none => .error .syntaxError
    | some v => if v < 2 ^ 64 then .ok v else .error .rangeError

end strconv

namespace fmt

/-- The method `scanUint(verb, 64)` for the verbs `x` (base 16) and `d` (base 10). -/
def ss.scanUint (s : ss) (base : Nat) (digits : List Char) : Except ScanError (Nat × ss) :=
  match s.SkipSpace with
  | .error e => .error e
  | .ok s =>
    match s.notEOF with
    | .error e => .error e
    | .ok s =>
      match s.scanNumber digits with
      | .error e => .error e
      | .ok (tok, s) =>
        match strconv.ParseUint tok base with
        | .error e => .error e
        | .ok i => .ok (i % 2 ^ 64, s)

/-- One verb `%x` or `%d` of `doScanf` with a `*uint64` operand: `SkipSpace`, then `scanOne`. -/
def ss.verbUint (s : ss) (base : Nat) (digits : List Char) : Except ScanError (Nat × ss) :=
  match s.SkipSpace with
  | .error e => .error e
  | .ok s => s.scanUint base digits

/-- One verb `%s` of `doScanf` with a `*string` operand: `SkipSpace`, then `scanOne`. -/
def ss.verbString (s : ss) : Except ScanError (List Char × ss) :=
  match s.SkipSpace with
  | .error e => .error e
  | .ok s => s.convertString

end fmt

/-! ## Package `util` (`user/util/helper.go`): the maps resolver -/

namespace util

open fmt

/-- The seven variables `ParseReg` declares before its loop and hands to `Fscanf`. -/
structure SegVars where
  seg_start : Nat
  seg_end : Nat
  permission : List Char
  seg_offset : Nat
  device : List Char
  inode : Nat
  seg_path : List Char
  deriving DecidableEq, Repr

/-- The zero values the variables hold before the first line is scanned. -/
def SegVars.zero : SegVars := ⟨0, 0, [], 0, [], 0, []⟩

/-- What one call of `fmt.Fscanf` leaves behind: the number of operands stored, the
error, and the operands (those not reached keep their previous value). -/
structure ScanResult where
  n : Nat
  err : Option fmt.ScanError
  vars : SegVars
  deriving DecidableEq, Repr

/-- The steps of `doScanf` over the format `"%x-%x %s %x %s %d %s"` up to and including
the sixth operand (`%d`, the inode): the operands stored so far and the scanner state,
or the result `Fscanf` returns when one of these steps fails. -/
def scanHead (line : List Char) (v : SegVars) : Except ScanResult (SegVars × ss) :=
  let s := newScanState line
  match s.verbUint 16 hexadecimalDigits with
  | .error e => .error ⟨0, some e, v⟩
  | .ok (x, s) =>
  let v := { v with seg_start := x }
  match s.advanceLiteral '-' with
  | .error e => .error ⟨1, some e, v⟩
  | .ok s =>
  match s.verbUint 16 hexadecimalDigits with
  | .error e => .error ⟨1, some e, v⟩
  | .ok (x, s) =>
  let v := { v with seg_end := x }
  match s.advanceSpace with
  | .error e => .error ⟨2, some e, v⟩
  | .ok s =>
  match s.verbString with
  | .error e => .error ⟨2, some e, v⟩
  | .ok (w, s) =>
  let v := { v with permission := w }
  match s.advanceSpace with
  | .error e => .error ⟨3, some e, v⟩
  | .ok s =>
  match s.verbUint 16 hexadecimalDigits with
  | .error e => .error ⟨3, some e, v⟩
  | .ok (x, s) =>
  let v := { v with seg_offset := x }
  match s.advanceSpace with
  | .error e => .error ⟨4, some e, v⟩
  | .ok s =>
  match s.verbString with
  | .error e => .error ⟨4, some e, v⟩
  | .ok (w, s) =>
  let v := { v with device := w }
  match s.advanceSpace with
  | .error e => .error ⟨5, some e, v⟩
  | .ok s =>
  match s.verbUint 10 decimalDigits with
  | .error e => .error ⟨5, some e, v⟩
  | .ok (x, s) => .ok ({ v with inode := x }, s)

/-- The call `fmt.Fscanf(reader, "%x-%x %s %x %s %d %s", &seg_start, &seg_end, &permission,
&seg_offset, &device, &inode, &seg_path)` on the runes of one line: `doScanf` unrolled
over this format, one step per verb, literal or space of the format. Input left after
the seventh operand is not looked at. -/
def Fscanf (line : List Char) (v : SegVars) : ScanResult :=
  match scanHead line v with
  | .error r => r
  | .ok (v, s) =>
  match s.advanceSpace with
  | .error e => ⟨6, some e, v⟩
  | .ok s =>
  match s.verbString with
  | .error e => ⟨6, some e, v⟩
  | .ok (w, _) => ⟨7, none, { v with seg_path := w }⟩

/-- The call `strings.Split(s, sep)` for a separator of one ASCII rune. -/
def Split (sep : Char) : List Char → List (List Char)
  | [] => [[]]
  | c :: cs =>
    if c = sep then [] :: Split sep cs
    else
      match Split sep cs with
      | [] => [[c]]
      | p :: ps => (c :: p) :: ps

/-- The call `strings.Join(parts, sep)` for a separator of one rune. -/
def Join (sep : Char) : List (List Char) → List Char
  | [] => []
  | [p] => p
  | p :: q :: ps => p ++ sep :: Join sep (q :: ps)

/-- The verb `%x` of `Sprintf` on an unsigned integer: lowercase hexadecimal, no padding. -/
def hex (n : Nat) : List Char := Nat.toDigits 16 n

/-- The call `fmt.Sprintf("%s + 0x%x", seg_name, offset)`. -/
def symbolString (seg_name : List Char) (offset : Nat) : List Char :=
  seg_name ++ " + 0x".toList ++ hex offset

/-- The literal `"UNKNOWN"`. -/
def UNKNOWN : List Char := "UNKNOWN".toList

/-- The symbol `ParseReg` computes once a line has matched: `parts[len(parts)-1]` of the
path split at `/`, and `seg_offset + (value - seg_start)` in `uint64`. -/
def segSymbol (v : SegVars) (value : Nat) : List Char :=
  let offset := (v.seg_offset + (value - v.seg_start)) % 2 ^ 64
  let parts := Split '/' v.seg_path
  let seg_name := parts.getLastD []
  symbolString seg_name offset

/-- The loop `for _, line := range strings.Split(content, "\n")` of `ParseReg`, on the
lines still to visit and the current values of the seven variables. -/
def ParseRegLoop (value : Nat) : List (List Char) → SegVars → List Char
  | [], _ => UNKNOWN
  | line :: rest, v =>
    let r := Fscanf line v
    if r.err = none ∧ r.n = 7 then
      if value ≥ r.vars.seg_start ∧ value < r.vars.seg_end then segSymbol r.vars value
      else ParseRegLoop value rest r.vars
    else ParseRegLoop value rest r.vars

/-- The part of `ParseReg` after the maps file has been read: the text in, the symbol
out. -/
def resolve (content : List Char) (value : Nat) : List Char :=
  ParseRegLoop value (Split '\n' content) SegVars.zero

/-- The function `ParseReg(pid, value)`, given what `ReadMapsByPid(pid)` returned: the
text of `/proc/<pid>/maps` or the error of the read. The second component is the
returned `err`, the one of `ReadMapsByPid` (the loop's `err` is a variable of its own). -/
def ParseReg (ReadMapsByPid : Except String (List Char)) (value : Nat) :
    List Char × Option String :=
  match ReadMapsByPid with
  | .error e => (UNKNOWN, some ("Error when opening file:" ++ e))
  | .ok content => (resolve content value, none)

/-- The segment a line describes, when `Fscanf` stores all seven operands without error. -/
def parseLine (line : List Char) : Option SegVars :=
  let r := Fscanf line SegVars.zero
  if r.err = none ∧ r.n = 7 then some r.vars else none

/-- The first `n` operands taken from `x`, the others from `v`. -/
def overlay (n : Nat) (x v : SegVars) : SegVars :=
  { seg_start := if 0 < n then x.seg_start else v.seg_start
    seg_end := if 1 < n then x.seg_end else v.seg_end
    permission := if 2 < n then x.permission else v.permission
    seg_offset := if 3 < n then x.seg_offset else v.seg_offset
    device := if 4 < n then x.device else v.device
    inode := if 5 < n then x.inode else v.inode
    seg_path := if 6 < n then x.seg_path else v.seg_path }

/-- The outcome of `scanHead` from zero variables, retargeted to the variables `v`. -/
def retarget (v : SegVars) : Except ScanResult (SegVars × fmt.ss) →
    Except ScanResult (SegVars × fmt.ss)
  | .error r => .error ⟨r.n, r.err, overlay r.n r.vars v⟩
  | .ok (x, s) => .ok (overlay 6 x v, s)

/-- A failing `scanHead` reports an error and fewer than six operands. -/
def headFailsEarly : Except ScanResult (SegVars × fmt.ss) → Prop
  | .error r => r.err ≠ none ∧ r.n < 6
  | .ok _ => True

/-- The address lies in the half-open range of the segment. -/
def SegVars.covers (seg : SegVars) (value : Nat) : Prop :=
  seg.seg_start ≤ value ∧ value < seg.seg_end

instance (seg : SegVars) (value : Nat) : Decidable (seg.covers value) := by
  unfold SegVars.covers
  infer_instance

/-- The loop of `ParseReg` without the variables it carries along: the symbol of the
first accepted line that covers the address. -/
def scanLines (value : Nat) : List (List Char) → List Char
  | [] => UNKNOWN
  | line :: rest =>
    match parseLine line with
    | some seg => if seg.covers value then segSymbol seg value else scanLines value rest
    | none => scanLines value rest

end util

/-! ## Packages `bytes` and `encoding/binary`: reading from a buffer

A slice is kept as its bytes and, where the source looks at it, the capacity it has beyond
its length. The two calls `make([]byte, n)` of the source have a length read from the
wire: they return for `n` up to `Env.MakeLimit` and do not return beyond it. -/

namespace event

/-- The two errors `io.ReadFull` returns on a short read. -/
inductive IoError where
  | EOF
  | ErrUnexpectedEOF
  deriving DecidableEq, Repr

/-- A `bytes.Buffer`: the bytes of its slice `buf`, the read offset `off`, and `spare`, the
capacity the slice has beyond its length (`cap(buf) - len(buf)`). -/
structure Buffer where
  buf : List Nat
  off : Nat
  spare : Nat
  deriving DecidableEq, Repr

/-- The call `bytes.NewBuffer(raw)` on a slice `raw` with `spare` bytes of capacity beyond
its length: the buffer takes the slice as it is. -/
def NewBuffer (raw : List Nat) (spare : Nat) : Buffer := ⟨raw, 0, spare⟩

/-- The method `Len()`: the number of unread bytes. -/
def Buffer.Len (b : Buffer) : Nat := b.buf.length - b.off

/-- The method `Cap()`: the capacity `cap(b.buf)` of the underlying slice. -/
def Buffer.Cap (b : Buffer) : Nat := b.buf.length + b.spare

/-- The unread portion `b.buf[b.off:]`. -/
def Buffer.unread (b : Buffer) : List Nat := b.buf.drop b.off

/-- The buffer after a read ran into its end: `Read` on the emptied buffer resets it, which
leaves `Len() = 0` and `Cap()` as it was. -/
def Buffer.drained (b : Buffer) : Buffer := { b with off := b.buf.length }

/-- The call `io.ReadFull(b, p)` with `len(p) = n`: the `n` bytes read, or `io.EOF` when
nothing could be read, or `io.ErrUnexpectedEOF` when fewer than `n` bytes were left (those
are consumed). Reading zero bytes always succeeds and calls no `Read`. -/
def Buffer.ReadFull (b : Buffer) (n : Nat) : Except IoError (List Nat) × Buffer :=
  if n = 0 then (.ok [], b)
  else if b.Len = 0 then (.error .EOF, b.drained)
  else if b.Len < n then (.error .ErrUnexpectedEOF, b.drained)
  else (.ok (b.unread.take n), { b with off := b.off + n })

/-- The value `binary.LittleEndian` gives a run of bytes: least significant byte first. -/
def leUint (bs : List Nat) : Nat := bs.foldr (fun x acc => x + 256 * acc) 0

/-- The call `binary.Read(buf, binary.LittleEndian, &x)` for an unsigned integer `x` of
`size` bytes: the value stored in `x`. -/
def Buffer.readUint (b : Buffer) (size : Nat) : Except IoError Nat × Buffer :=
  match b.ReadFull size with
  | (.error e, b) => (.error e, b)
  | (.ok bs, b) => (.ok (leUint bs % 2 ^ (8 * size)), b)

/-- The `n` consecutive little-endian `uint64` values at the head of `bs`. -/
def leUint64s : Nat → List Nat → List Nat
  | 0, _ => []
  | n + 1, bs => leUint (bs.take 8) % 2 ^ 64 :: leUint64s n (bs.drop 8)

/-- The call `binary.Read(buf, binary.LittleEndian, &regs)` for `regs [33]uint64`. -/
def Buffer.readRegs (b : Buffer) : Except IoError (List Nat) × Buffer :=
  match b.ReadFull (33 * 8) with
  | (.error e, b) => (.error e, b)
  | (.ok bs, b) => (.ok (leUint64s 33 bs), b)

/-! ## Package `event` (`user/event/event_context.go`) -/

/-- The struct `UnwindBuf`. -/
structure UnwindBuf where
  Abi : Nat
  Regs : List Nat
  StackSize : Nat
  Data : List Nat
  DynSize : Nat
  deriving DecidableEq, Repr

/-- The value `&UnwindBuf{}`: every field zero, `Regs` thirty-three zeros, `Data` nil. -/
def UnwindBuf.zero : UnwindBuf := ⟨0, List.replicate 33 0, 0, [], 0⟩

/-- The struct `RegsBuf`. -/
structure RegsBuf where
  Abi : Nat
  Regs : List Nat
  deriving DecidableEq, Repr

/-- The zero value of `RegsBuf`. -/
def RegsBuf.zero : RegsBuf := ⟨0, List.replicate 33 0⟩

/-- The method `RegsBuf.ParseContext(buf)`. -/
def RegsBuf.ParseContext (this : RegsBuf) (buf : Buffer) :
    Option IoError × RegsBuf × Buffer :=
  match buf.readUint 8 with
  | (.error e, buf) => (some e, this, buf)
  | (.ok x, buf) =>
  let this := { this with Abi := x }
  match buf.readRegs with
  | (.error e, buf) => (some e, this, buf)
  | (.ok regs, buf) => (none, { this with Regs := regs }, buf)

/-- The struct `UnwindOption`. -/
structure UnwindOption where
  RegMask : Nat
  ShowPC : Bool
  deriving DecidableEq, Repr

/-- The fields of the module configuration `this.mconf` the source reads. -/
structure ModuleConfig where
  BrkKernel : Bool
  KillSignal : Nat
  ManualStack : Bool
  ShowPC : Bool
  RegName : List Char
  deriving DecidableEq, Repr

/-- The fields of `this.record.ExtraOptions` the source reads. -/
structure ExtraOptions where
  UnwindStack : Bool
  ShowRegs : Bool
  deriving DecidableEq, Repr

/-- The fields of the perf record `this.rec` the source reads and writes; `RawSpare` is the
capacity of the slice `RawSample` beyond its length (`cap(RawSample) - len(RawSample)`). -/
structure Record where
  RecordType : Nat
  RawSample : List Nat
  RawSpare : Nat
  SampleSize : Nat
  ExtraOptions : ExtraOptions
  deriving DecidableEq, Repr

/-- The struct `ContextEvent`: what it embeds of `CommonEvent` (`mconf`, `rec` under the name
`record`, `buf`; a nil `buf` is `none`), the fields of `config.ContextFields`, and its own fields (a nil
`UnwindBuffer` is `none`). -/
structure ContextEvent where
  mconf : ModuleConfig
  record : Record
  buf : Option Buffer
  Ts : Nat
  EventId : Nat
  HostTid : Nat
  HostPid : Nat
  Tid : Nat
  Pid : Nat
  Uid : Nat
  Comm : List Nat
  Argnum : Nat
  Padding : List Nat
  Stackinfo : List Char
  RegsBuffer : RegsBuf
  UnwindBuffer : Option UnwindBuf
  deriving DecidableEq, Repr

/-- Modelled from the spec: the widths in bytes of `rec.SampleSize` and of the integer
fields of `config.ContextFields`, declared outside the source shown. The wire format table
gives `SampleSize` 4 bytes, `Ts` 8 bytes, and `EventId`, `HostTid`, `HostPid`, `Tid`, `Pid`,
`Uid` and `Argnum` 4 bytes each. -/
structure FieldWidths where
  SampleSize : Nat := 4
  Ts : Nat := 8
  EventId : Nat := 4
  HostTid : Nat := 4
  HostPid : Nat := 4
  Tid : Nat := 4
  Pid : Nat := 4
  Uid : Nat := 4
  Argnum : Nat := 4
  deriving DecidableEq, Repr

/-- The widths of the wire format table. -/
def widths : FieldWidths := {}

/-- What the source file takes from outside: the lengths of the byte arrays `Comm` and
`Padding` of `config.ContextFields`, the event-id constants, the collaborators
`util.ReadMapsByPid` (a file read), `maps_helper.GetStack` and `ParseStack`, and
`MakeLimit`, the largest `n` for which `make([]byte, n)` returns on the machine: for a
larger `n` the call does not return, it panics with `makeslice: len out of range` (always
so beyond `1 << 48` on 64-bit Linux) or the runtime stops with `out of memory`. -/
structure Env where
  CommLen : Nat
  PaddingLen : Nat
  MakeLimit : Nat
  SYSCALL_ENTER : Nat
  SYSCALL_EXIT : Nat
  UPROBE_ENTER : Nat
  ReadMapsByPid : Nat → Except String (List Char)
  GetStack : Nat → UnwindBuf → Except String (List Char)
  ParseStack : List Char → UnwindOption → UnwindBuf → List Char

/-- The constant `syscall.SIGSTOP` on Linux. -/
def SIGSTOP : Nat := 19

/-- The constant `unix.PERF_RECORD_SAMPLE`. -/
def PERF_RECORD_SAMPLE : Nat := 9

/-- The calls the methods make on shared state and on the logger, in the order made. -/
inductive Effect where
  /-- The call `AddStopped(pid)`. -/
  | AddStopped (pid : Nat)
  /-- The call `maps_helper.UpdatePidList(pid)`. -/
  | UpdatePidList (pid : Nat)
  /-- The call `maps_helper.SetLogger(this.logger)`. -/
  | SetLogger
  /-- The log line `ContextEvent.ParseEvent() unsupported EventId:%d`. -/
  | logUnsupported (EventId : Nat)
  /-- The log line `ContextEvent.ParseEvent() PERF_RECORD_SAMPLE RawSample:` followed by the
  hex dump of the whole raw sample. -/
  | logRawSample (RawSample : List Nat)
  /-- The log line `ContextEvent EventId:%d RawSample:` followed by the hex dump. -/
  | logPaddingFailure (EventId : Nat) (RawSample : List Nat)
  /-- The log line `Error when GetStack:%v`. -/
  | logGetStackError (err : String)
  deriving DecidableEq, Repr

/-- The ways the methods panic. -/
inductive Panic where
  /-- The panic `ContextEvent.ParseContext() err:%v` of `ParseEvent`. -/
  | parseContext (err : IoError)
  /-- The panic `panic(err)` of `ParsePadding`. -/
  | padding (err : IoError)
  /-- The panic `UnwindStack ParseContext failed, err:%v` of `ParseContextStack`. -/
  | unwindStack (err : IoError)
  /-- A method of `bytes.Buffer` called through the nil `this.buf`. -/
  | nilBuffer
  /-- A call of `make` that does not return. -/
  | makeslice
  deriving DecidableEq, Repr

/-- The two ways `UnwindBuf.ParseContext` fails: it returns the error of a read, or its
call of `make` does not return. -/
inductive Failure where
  /-- The statement `return err`. -/
  | returned (err : IoError)
  /-- The call `make([]byte, this.StackSize)` does not return. -/
  | makeslice
  deriving DecidableEq, Repr

/-- The method `UnwindBuf.ParseContext(buf)`: how it ended (`none` for `return nil`), the
receiver and the buffer afterwards. -/
def UnwindBuf.ParseContext (env : Env) (this : UnwindBuf) (buf : Buffer) :
    Option Failure × UnwindBuf × Buffer :=
  match buf.readUint 8 with
  | (.error e, buf) => (some (.returned e), this, buf)
  | (.ok x, buf) =>
  let this := { this with Abi := x }
  match buf.readRegs with
  | (.error e, buf) => (some (.returned e), this, buf)
  | (.ok regs, buf) =>
  let this := { this with Regs := regs }
  match buf.readUint 8 with
  | (.error e, buf) => (some (.returned e), this, buf)
  | (.ok x, buf) =>
  let this := { this with StackSize := x }
  if this.StackSize > env.MakeLimit then (some .makeslice, this, buf) else
  match buf.ReadFull this.StackSize with
  | (.error e, buf) => (some (.returned e), this, buf)
  | (.ok stack_data, buf) =>
  let this := { this with Data := stack_data }
  match buf.readUint 8 with
  | (.error e, buf) => (some (.returned e), this, buf)
  | (.ok x, buf) => (none, { this with DynSize := x }, buf)

/-- The verb `%d` of `Sprintf` on an unsigned integer. -/
def decimal (n : Nat) : List Char := Nat.toDigits 10 n

/-- The method `ContextEvent.ParseContext()`: the returned error, the receiver and the
effects afterwards. -/
def ContextEvent.ParseContext (env : Env) (this : ContextEvent) (w : List Effect) :
    Option IoError × ContextEvent × List Effect :=
  if this.mconf.BrkKernel = true then (none, this, w) else
  match (NewBuffer this.record.RawSample this.record.RawSpare).readUint widths.SampleSize with
  | (.error e, b) => (some e, { this with buf := some b }, w)
  | (.ok x, b) =>
  let this := { this with buf := some b, record := { this.record with SampleSize := x } }
  match b.readUint widths.Ts with
  | (.error e, b) => (some e, { this with buf := some b }, w)
  | (.ok x, b) =>
  let this := { this with buf := some b, Ts := x }
  match b.readUint widths.EventId with
  | (.error e, b) => (some e, { this with buf := some b }, w)
  | (.ok x, b) =>
  let this := { this with buf := some b, EventId := x }
  match b.readUint widths.HostTid with
  | (.error e, b) => (some e, { this with buf := some b }, w)
  | (.ok x, b) =>
  let this := { this with buf := some b, HostTid := x }
  match b.readUint widths.HostPid with
  | (.error e, b) => (some e, { this with buf := some b }, w)
  | (.ok x, b) =>
  let this := { this with buf := some b, HostPid := x }
  match b.readUint widths.Tid with
  | (.error e, b) => (some e, { this with buf := some b }, w)
  | (.ok x, b) =>
  let this := { this with buf := some b, Tid := x }
  match b.readUint widths.Pid with
  | (.error e, b) => (some e, { this with buf := some b }, w)
  | (.ok x, b) =>
  let this := { this with buf := some b, Pid := x }
  let w := if this.mconf.KillSignal = SIGSTOP ∧ this.Pid ≠ 0 then w ++ [.AddStopped this.Pid] else w
  match b.readUint widths.Uid with
  | (.error e, b) => (some e, { this with buf := some b }, w)
  | (.ok x, b) =>
  let this := { this with buf := some b, Uid := x }
  match b.ReadFull env.CommLen with
  | (.error e, b) => (some e, { this with buf := some b }, w)
  | (.ok bs, b) =>
  let this := { this with buf := some b, Comm := bs }
  match b.readUint widths.Argnum with
  | (.error e, b) => (some e, { this with buf := some b }, w)
  | (.ok x, b) =>
  let this := { this with buf := some b, Argnum := x }
  match b.ReadFull env.PaddingLen with
  | (.error e, b) => (some e, { this with buf := some b }, w)
  | (.ok bs, b) =>
  let this := { this with buf := some b, Padding := bs }
  (none, this, w ++ [.UpdatePidList this.Pid])

/-- The value `this.record.SampleSize + 4 - uint32(this.buf.Cap()-this.buf.Len())` of
`ParsePadding`, in `uint32`. -/
def padding_size (SampleSize consumed : Nat) : Nat :=
  (SampleSize + 4 + 2 ^ 32 - consumed % 2 ^ 32) % 2 ^ 32

/-- The method `ContextEvent.ParsePadding()`: `none` when it returns (always `nil`), the
panic otherwise. -/
def ContextEvent.ParsePadding (env : Env) (this : ContextEvent) (w : List Effect) :
    Option Panic × ContextEvent × List Effect :=
  match this.buf with
  | none => (some .nilBuffer, this, w)
  | some b =>
    if padding_size this.record.SampleSize (b.Cap - b.Len) > 0 then
      if padding_size this.record.SampleSize (b.Cap - b.Len) > env.MakeLimit then
        (some .makeslice, this, w)
      else
      match b.ReadFull (padding_size this.record.SampleSize (b.Cap - b.Len)) with
      | (.error e, b) =>
        (some (.padding e), { this with buf := some b },
          w ++ [.logPaddingFailure this.EventId this.record.RawSample])
      | (.ok _, b) => (none, { this with buf := some b }, w)
    else (none, this, w)

/-- What `ParseEvent` does at its end. -/
inductive EventResult where
  /-- The statement `return nil, nil`. -/
  | ok
  /-- The statement `return nil, errors.New(msg)`. -/
  | error (msg : List Char)
  /-- The statement `return this.CommonEvent.ParseEvent()`, for another record type. -/
  | common
  /-- A panic. -/
  | panic (p : Panic)
  deriving DecidableEq, Repr

/-- The method `ContextEvent.ParseEvent()`. -/
def ContextEvent.ParseEvent (env : Env) (this : ContextEvent) (w : List Effect) :
    EventResult × ContextEvent × List Effect :=
  if this.record.RecordType = PERF_RECORD_SAMPLE then
    match this.ParseContext env w with
    | (some err, this, w) => (.panic (.parseContext err), this, w)
    | (none, this, w) =>
      if this.EventId = env.SYSCALL_ENTER ∨ this.EventId = env.SYSCALL_EXIT then (.ok, this, w)
      else if this.EventId = env.UPROBE_ENTER then (.ok, this, w)
      else
        (.error ("PERF_RECORD_SAMPLE EventId is ".toList ++ decimal this.EventId), this,
          w ++ [.logUnsupported this.EventId, .logRawSample this.record.RawSample])
  else (.common, this, w)

/-- The method `ContextEvent.ParseContextStack()`: `none` when it returns (always `nil`),
the panic otherwise. -/
def ContextEvent.ParseContextStack (env : Env) (this : ContextEvent) (w : List Effect) :
    Option Panic × ContextEvent × List Effect :=
  let this := { this with Stackinfo := [] }
  if this.record.ExtraOptions.UnwindStack = true then
    let this := { this with UnwindBuffer := some UnwindBuf.zero }
    match this.buf with
    | none => (some .nilBuffer, this, w)
    | some b =>
    match UnwindBuf.zero.ParseContext env b with
    | (some (.returned err), u, b) =>
      (some (.unwindStack err), { this with UnwindBuffer := some u, buf := some b }, w)
    | (some .makeslice, u, b) =>
      (some .makeslice, { this with UnwindBuffer := some u, buf := some b }, w)
    | (none, u, b) =>
    let this := { this with UnwindBuffer := some u, buf := some b }
    match env.ReadMapsByPid this.Pid, this.mconf.ManualStack with
    | .ok content, false =>
      let opt : UnwindOption := { RegMask := (1 <<< 33) - 1, ShowPC := this.mconf.ShowPC }
      (none, { this with Stackinfo := env.ParseStack content opt u }, w)
    | _, _ =>
      match env.GetStack this.Pid u with
      | .error err => (none, this, w ++ [.SetLogger, .logGetStackError err])
      | .ok info => (none, { this with Stackinfo := info }, w ++ [.SetLogger])
  else if this.record.ExtraOptions.ShowRegs = true then
    match this.buf with
    | none => (some .nilBuffer, this, w)
    | some b =>
    match this.RegsBuffer.ParseContext b with
    | (some err, r, b) =>
      (some (.unwindStack err), { this with RegsBuffer := r, buf := some b }, w)
    | (none, r, b) => (none, { this with RegsBuffer := r, buf := some b }, w)
  else (none, this, w)

end event

/-! ## The wire format, as the specification gives it -/

namespace event

/-- The length of the fixed header on the wire: `SampleSize`, `Ts`, `EventId`, five 32-bit
ids, `Comm`, `Argnum` and `Padding`. -/
def headerSize (env : Env) : Nat := 4 + 8 + 4 + 5 * 4 + env.CommLen + 4 + env.PaddingLen

/-- The unsigned integer of `n` bytes at offset `off` of `raw`, little-endian. -/
def fieldAt (raw : List Nat) (off n : Nat) : Nat := leUint ((raw.drop off).take n) % 2 ^ (8 * n)

/-- The bytes `raw[off : off+n]`. -/
def bytesAt (raw : List Nat) (off n : Nat) : List Nat := (raw.drop off).take n

/-- The event a sample holding a whole header decodes to: every header field read at its
offset in the raw sample, the buffer left just after the header. -/
def decodedHeader (env : Env) (this : ContextEvent) : ContextEvent :=
  { this with
    buf := some ⟨this.record.RawSample, headerSize env, this.record.RawSpare⟩
    record := { this.record with SampleSize := fieldAt this.record.RawSample 0 4 }
    Ts := fieldAt this.record.RawSample 4 8
    EventId := fieldAt this.record.RawSample 12 4
    HostTid := fieldAt this.record.RawSample 16 4
    HostPid := fieldAt this.record.RawSample 20 4
    Tid := fieldAt this.record.RawSample 24 4
    Pid := fieldAt this.record.RawSample 28 4
    Uid := fieldAt this.record.RawSample 32 4
    Comm := bytesAt this.record.RawSample 36 env.CommLen
    Argnum := fieldAt this.record.RawSample (36 + env.CommLen) 4
    Padding := bytesAt this.record.RawSample (40 + env.CommLen) env.PaddingLen }

/-- The effects of a header decode that runs to its end. -/
def headerEffects (this : ContextEvent) : List Effect :=
  (if this.mconf.KillSignal = SIGSTOP ∧ fieldAt this.record.RawSample 28 4 ≠ 0
    then [Effect.AddStopped (fieldAt this.record.RawSample 28 4)] else []) ++
  [Effect.UpdatePidList (fieldAt this.record.RawSample 28 4)]

end event

/-! ## Encoding, as the specification gives it -/

namespace event

/-- The `n` bytes of `x`, least significant first (little-endian encoding). -/
def putUint : Nat → Nat → List Nat
  | 0, _ => []
  | n + 1, x => x % 256 :: putUint n (x / 256)

/-- The header fields of one record. -/
structure Header where
  SampleSize : Nat
  Ts : Nat
  EventId : Nat
  HostTid : Nat
  HostPid : Nat
  Tid : Nat
  Pid : Nat
  Uid : Nat
  Comm : List Nat
  Argnum : Nat
  Padding : List Nat
  deriving DecidableEq, Repr

/-- The header fields are values of their types: integers within their widths, byte
arrays of the declared lengths. -/
def Header.valid (env : Env) (h : Header) : Prop :=
  h.SampleSize < 2 ^ 32 ∧ h.Ts < 2 ^ 64 ∧ h.EventId < 2 ^ 32 ∧ h.HostTid < 2 ^ 32 ∧
  h.HostPid < 2 ^ 32 ∧ h.Tid < 2 ^ 32 ∧ h.Pid < 2 ^ 32 ∧ h.Uid < 2 ^ 32 ∧
  h.Comm.length = env.CommLen ∧ h.Argnum < 2 ^ 32 ∧ h.Padding.length = env.PaddingLen

/-- The header on the wire: the fields little-endian in the order of the wire format. -/
def encodeHeader (h : Header) : List Nat :=
  putUint 4 h.SampleSize ++ (putUint 8 h.Ts ++ (putUint 4 h.EventId ++ (putUint 4 h.HostTid ++
  (putUint 4 h.HostPid ++ (putUint 4 h.Tid ++ (putUint 4 h.Pid ++ (putUint 4 h.Uid ++
  (h.Comm ++ (putUint 4 h.Argnum ++ h.Padding)))))))))

/-- The header fields an event holds. -/
def ContextEvent.header (this : ContextEvent) : Header :=
  { SampleSize := this.record.SampleSize, Ts := this.Ts, EventId := this.EventId,
    HostTid := this.HostTid, HostPid := this.HostPid, Tid := this.Tid, Pid := this.Pid,
    Uid := this.Uid, Comm := this.Comm, Argnum := this.Argnum, Padding := this.Padding }

/-- The registers on the wire: eight bytes each, in slot order. -/
def encodeRegs : List Nat → List Nat
  | [] => []
  | r :: rs => putUint 8 r ++ encodeRegs rs

/-- The thirty-three registers and the ABI tag are 64-bit values. -/
def RegsBuf.valid (r : RegsBuf) : Prop :=
  r.Abi < 2 ^ 64 ∧ r.Regs.length = 33 ∧ ∀ x ∈ r.Regs, x < 2 ^ 64

/-- A `RegsBuf` on the wire: `Abi(8) + Regs[33]×8`. -/
def encodeRegsBuf (r : RegsBuf) : List Nat := putUint 8 r.Abi ++ encodeRegs r.Regs

/-- The fields are 64-bit values, and `len(Data) = StackSize`. -/
def UnwindBuf.valid (u : UnwindBuf) : Prop :=
  u.Abi < 2 ^ 64 ∧ u.Regs.length = 33 ∧ (∀ x ∈ u.Regs, x < 2 ^ 64) ∧ u.StackSize < 2 ^ 64 ∧
  u.Data.length = u.StackSize ∧ u.DynSize < 2 ^ 64

/-- An `UnwindBuf` on the wire: `Abi(8) + Regs[33]×8 + StackSize(8) + Data + DynSize(8)`. -/
def encodeUnwindBuf (u : UnwindBuf) : List Nat :=
  putUint 8 u.Abi ++ (encodeRegs u.Regs ++ (putUint 8 u.StackSize ++ (u.Data ++
  putUint 8 u.DynSize)))

end event

/-! ## Values for the examples -/

namespace event

/-- An environment for the examples: `Comm` of sixteen bytes, `Padding` of four bytes, `make`
returning up to `1 << 48` bytes, three event ids, a maps file that cannot be read and
collaborators that find nothing. -/
def exampleEnv : Env where
  CommLen := 16
  PaddingLen := 4
  MakeLimit := 1 <<< 48
  SYSCALL_ENTER := 456
  SYSCALL_EXIT := 457
  UPROBE_ENTER := 458
  ReadMapsByPid := fun _ => .error "no such process"
  GetStack := fun _ _ => .error "no maps"
  ParseStack := fun _ _ _ => []

/-- A fresh event (`new(ContextEvent)`) given its configuration and its perf record. -/
def newEvent (mconf : ModuleConfig) (record : Record) : ContextEvent :=
  { mconf := mconf, record := record, buf := none, Ts := 0, EventId := 0, HostTid := 0,
    HostPid := 0, Tid := 0, Pid := 0, Uid := 0, Comm := List.replicate 16 0, Argnum := 0,
    Padding := List.replicate 4 0, Stackinfo := [], RegsBuffer := RegsBuf.zero,
    UnwindBuffer := none }

/-- A configuration for the examples, with the `BrkKernel` flag as given. -/
def exampleConf (BrkKernel : Bool) : ModuleConfig :=
  { BrkKernel := BrkKernel, KillSignal := 0, ManualStack := false, ShowPC := false, RegName := [] }

/-- A sample record of type `PERF_RECORD_SAMPLE` over the raw bytes, a slice at full
capacity. -/
def sampleRecord (raw : List Nat) (opts : ExtraOptions) : Record :=
  { RecordType := PERF_RECORD_SAMPLE, RawSample := raw, RawSpare := 0, SampleSize := 0,
    ExtraOptions := opts }

/-- A sample record whose slice has `spare` bytes of capacity beyond its length, as
`make([]byte, len(raw), len(raw) + spare)` gives. -/
def spareRecord (raw : List Nat) (spare : Nat) (opts : ExtraOptions) : Record :=
  { sampleRecord raw opts with RawSpare := spare }

/-- A header for the examples: a `SYSCALL_ENTER` event of the process `sh`. -/
def exampleHeader : Header :=
  { SampleSize := 56, Ts := 1000, EventId := 456, HostTid := 11, HostPid := 10, Tid := 2,
    Pid := 1, Uid := 2000, Comm := [115, 104, 0, 0, 0, 0, 0, 0, 0, 0, 0, 0, 0, 0, 0, 0],
    Argnum := 3, Padding := [0, 0, 0, 0] }

/-- A register snapshot for the examples: slot `i` holds `4096 + i`. -/
def exampleRegs : RegsBuf := ⟨1, (List.range 33).map (fun i => 4096 + i)⟩

/-- An unwind buffer for the examples, with four bytes of captured stack. -/
def exampleUnwind : UnwindBuf :=
  ⟨1, (List.range 33).map (fun i => 4096 + i), 4, [222, 173, 190, 239], 4⟩

/-- A sample for the examples: a header that declares `SampleSize = 60`, then four bytes
of trailing pad. -/
def examplePadSample : List Nat :=
  encodeHeader { exampleHeader with SampleSize := 60 } ++ [0, 0, 0, 0]

/-- The event after `ParseContext` has decoded the header of `examplePadSample`. -/
def examplePadEvent : ContextEvent :=
  ((newEvent (exampleConf false) (sampleRecord examplePadSample ⟨false, false⟩)).ParseContext
    exampleEnv []).2.1

/-- The event after `ParseContext` has decoded the header of `examplePadSample` held in a
slice with two bytes of spare capacity, as `make([]byte, 64, 66)` gives. -/
def spareCapEvent : ContextEvent :=
  ((newEvent (exampleConf false) (spareRecord examplePadSample 2 ⟨false, false⟩)).ParseContext
    exampleEnv []).2.1

/-- A cursor over an unwind buffer cut short: `Abi`, the 33 example registers, a
`StackSize` field that declares `n` bytes, and four bytes of stack. -/
def overdeclaredCursor (n : Nat) : Buffer :=
  ⟨putUint 8 1 ++ (encodeRegs exampleRegs.Regs ++ (putUint 8 n ++ [1, 2, 3, 4])), 0, 0⟩

/-- The example header with an event id that is none of the three plain events. -/
def unsupportedHeader : Header := { exampleHeader with EventId := 999 }

end event


/-! ## Packages `strconv` and `strings`: what `GetStackTrace` calls -/

namespace strconv

/-- The two errors of `ParseUint`. -/
inductive NumError where
  | ErrSyntax
  | ErrRange
  deriving DecidableEq, Repr

/-- The loop of `ParseUint` over the bytes of the string: the value and error returned.
A byte that is no digit of the base gives `0` and a syntax error; a value beyond
`maxVal` gives `maxVal` and a range error. -/
def parseUintLoop (base cutoff maxVal : Nat) : List Char → Nat → Nat × Option NumError
  | [], n => (n, none)
  | c :: cs, n =>
    match digitVal c with
    | none => (0, some .ErrSyntax)
    | some d =>
      if d ≥ base then (0, some .ErrSyntax)
      else if n ≥ cutoff then (maxVal, some .ErrRange)
      else if (n * base + d) % 2 ^ 64 < n * base ∨ (n * base + d) % 2 ^ 64 > maxVal then
        (maxVal, some .ErrRange)
      else parseUintLoop base cutoff maxVal cs ((n * base + d) % 2 ^ 64)

/-- The call `ParseUint(s, base, bitSize)` for a base from 2 to 36 and a bit size from 1 to
64, with both results: callers that drop the error still receive the value. -/
def ParseUintBits (s : List Char) (base bitSize : Nat) : Nat × Option NumError :=
  match s with
  | [] => (0, some .ErrSyntax)
  | _ => parseUintLoop base ((2 ^ 64 - 1) / base + 1) (2 ^ bitSize - 1) s 0

end strconv

namespace strings

/-- The call `strings.HasPrefix(s, pre)`. -/
def HasPrefix (s pre : List Char) : Bool := pre.isPrefixOf s

/-- The call `strings.SplitN(s, sep, 2)` for a separator of one rune: the text before the
first separator and the text after it, or the text alone when it holds no separator. -/
def SplitN2 (sep : Char) (s : List Char) : List (List Char) :=
  match s.span (fun c => c != sep) with
  | (a, []) => [a]
  | (a, _ :: b) => [a, b]

end strings

/-! ## Package `encoding/json`: `Marshal` of a `map[string]string` -/

namespace json

/-- A Go `map[string]string` as the list of its entries, one for each key. -/
abbrev StringMap := List (List Char × List Char)

/-- The assignment `m[k] = v`: the entry of `k` is replaced when there is one. -/
def setKey : StringMap → List Char → List Char → StringMap
  | [], k, v => [(k, v)]
  | (k0, v0) :: m, k, v => if k0 = k then (k, v) :: m else (k0, v0) :: setKey m k v

/-- The order of Go strings, byte by byte (for valid UTF-8 the order of the runes). -/
def strLt : List Char → List Char → Bool
  | [], [] => false
  | [], _ :: _ => true
  | _ :: _, [] => false
  | a :: x, b :: y =>
    if a.toNat < b.toNat then true
    else if b.toNat < a.toNat then false
    else strLt x y

/-- Insert an entry into a list of entries sorted by key. -/
def insertByKey (e : List Char × List Char) : StringMap → StringMap
  | [] => [e]
  | e0 :: m => if strLt e.1 e0.1 = true then e :: e0 :: m else e0 :: insertByKey e m

/-- The entries sorted by key, as the map encoder visits them. -/
def sortByKey : StringMap → StringMap
  | [] => []
  | e :: m => insertByKey e (sortByKey m)

/-- The sixteen digits `hex` of the encoder. -/
def hexDigit (n : Nat) : Char := "0123456789abcdef".toList.getD n '0'

/-- One rune of a string as the encoder writes it inside quotes, with HTML escaping: the
runes of `htmlSafeSet` and the runes beyond ASCII are copied, except the line and paragraph
separators U+2028 and U+2029; the others are written as backslash escapes. -/
def encodeRune (c : Char) : List Char :=
  if c = '"' then ['\\', '"']
  else if c = '\\' then ['\\', '\\']
  else if c.toNat = 8 then ['\\', 'b']
  else if c.toNat = 12 then ['\\', 'f']
  else if c = '\n' then ['\\', 'n']
  else if c = '\r' then ['\\', 'r']
  else if c = '\t' then ['\\', 't']
  else if c.toNat < 0x20 ∨ c = '<' ∨ c = '>' ∨ c = '&' then
    ['\\', 'u', '0', '0', hexDigit (c.toNat / 16), hexDigit (c.toNat % 16)]
  else if c.toNat = 0x2028 ∨ c.toNat = 0x2029 then
    ['\\', 'u', '2', '0', '2', hexDigit (c.toNat % 16)]
  else [c]

/-- A string as a JSON string. -/
def encodeString (s : List Char) : List Char :=
  '"' :: (s.flatMap encodeRune ++ ['"'])

/-- The entries after the first, each behind a comma. -/
def encodeEntries : StringMap → List Char
  | [] => []
  | (k, v) :: m => ',' :: (encodeString k ++ ':' :: (encodeString v ++ encodeEntries m))

/-- The call `json.Marshal(m)` for `m` of type `map[string]string` (it returns no error):
the entries in key order between braces. -/
def Marshal (m : StringMap) : List Char :=
  match sortByKey m with
  | [] => "{}".toList
  | (k, v) :: rest =>
    '{' :: (encodeString k ++ ':' :: (encodeString v ++ (encodeEntries rest ++ ['}'])))

end json

/-! ## `ContextEvent.GetStackTrace` -/

namespace event

/-- Modelled from the spec: the constant `common.REG_ARM64_X29`, declared outside the source
shown. The general-purpose registers occupy slots 0 to 29. -/
def REG_ARM64_X29 : Nat := 29

/-- Modelled from the spec: the constant `common.REG_ARM64_LR`, slot 30. -/
def REG_ARM64_LR : Nat := 30

/-- Modelled from the spec: the constant `common.REG_ARM64_SP`, slot 31. -/
def REG_ARM64_SP : Nat := 31

/-- Modelled from the spec: the constant `common.REG_ARM64_PC`, slot 32. -/
def REG_ARM64_PC : Nat := 32

/-- The array `tmp_regs` of `GetStackTrace`: the registers of the unwind buffer when the
unwind-stack option is set (`none` when `UnwindBuffer` is nil: the dereference panics),
else those of `RegsBuffer`. -/
def ContextEvent.tmp_regs (this : ContextEvent) : Option (List Nat) :=
  if this.record.ExtraOptions.UnwindStack = true then
    match this.UnwindBuffer with
    | none => none
    | some u => some u.Regs
  else some this.RegsBuffer.Regs

/-- The element `tmp_regs[i]` of the register array. -/
def slot (tmp_regs : List Nat) (i : Nat) : Nat := tmp_regs.getD i 0

/-- The block of `GetStackTrace` that sets `has_reg_value` and `regvalue` from the
configured register name: `some regvalue` when `has_reg_value` ends up true. -/
def namedReg (RegName : List Char) (tmp_regs : List Nat) : Option Nat :=
  if strings.HasPrefix RegName ['x'] = true then
    let parts := strings.SplitN2 'x' RegName
    let regno := (strconv.ParseUintBits (parts.getD 1 []) 10 32).1
    if regno ≤ REG_ARM64_X29 then some (slot tmp_regs regno) else none
  else if RegName = "lr".toList then some (slot tmp_regs REG_ARM64_LR)
  else none

/-- The map `regs` that `GetStackTrace` fills in show-registers mode. -/
def regsMap (tmp_regs : List Nat) : json.StringMap :=
  json.setKey
    (json.setKey
      (json.setKey
        ((List.range (REG_ARM64_X29 + 1)).foldl
          (fun m regno =>
            json.setKey m ('x' :: decimal regno) ("0x".toList ++ util.hex (slot tmp_regs regno)))
          [])
        "lr".toList ("0x".toList ++ util.hex (slot tmp_regs REG_ARM64_LR)))
      "sp".toList ("0x".toList ++ util.hex (slot tmp_regs REG_ARM64_SP)))
    "pc".toList ("0x".toList ++ util.hex (slot tmp_regs REG_ARM64_PC))

/-- What a call of `GetStackTrace` produces: the returned string and what `fmt.Printf`
wrote to the standard output. -/
structure TraceOutput where
  s : List Char
  stdout : List Char
  deriving DecidableEq, Repr

/-- The first statement of `GetStackTrace`, the `if` on the register name and on the
show-registers option: the string `s` and the output afterwards, `none` for the panic of
the nil `UnwindBuffer`. -/
def ContextEvent.traceRegs (env : Env) (this : ContextEvent) (s : List Char) :
    Option TraceOutput :=
  if this.mconf.RegName ≠ [] then
    match this.tmp_regs with
    | none => none
    | some tmp_regs =>
      match namedReg this.mconf.RegName tmp_regs with
      | none => some ⟨s, []⟩
      | some regvalue =>
        match util.ParseReg (env.ReadMapsByPid this.Pid) regvalue with
        | (_, some _) =>
          some ⟨s, "ParseReg for ".toList ++ this.mconf.RegName ++ "=0x".toList ++
            util.hex regvalue ++ " failed".toList⟩
        | (info, none) =>
          some ⟨s ++ ", Reg ".toList ++ this.mconf.RegName ++ "(".toList ++ info ++ ")".toList, []⟩
  else if this.record.ExtraOptions.ShowRegs = true then
    match this.tmp_regs with
    | none => none
    | some tmp_regs => some ⟨s ++ ", Regs:\n".toList ++ json.Marshal (regsMap tmp_regs), []⟩
  else some ⟨s, []⟩

/-- The method `ContextEvent.GetStackTrace(s)`: `none` when it panics. -/
def ContextEvent.GetStackTrace (env : Env) (this : ContextEvent) (s : List Char) :
    Option TraceOutput :=
  match this.traceRegs env s with
  | none => none
  | some out =>
    if this.Stackinfo ≠ [] then
      if this.record.ExtraOptions.ShowRegs = true then
        some { out with s := out.s ++ "\nBacktrace:\n".toList ++ this.Stackinfo }
      else some { out with s := out.s ++ ", Backtrace:\n".toList ++ this.Stackinfo }
    else some out

end event

/-! ## Packages `unicode/utf8`, `unicode` and `bytes`: what `B2STrim` calls

Here a string is kept as its bytes (`List Nat`), a rune as its code point. -/

namespace utf8

def RuneError : Nat := 0xFFFD

def RuneSelf : Nat := 0x80

def UTFMax : Nat := 4

/-- The table `first`: information about the first byte of an encoding (`as = 0xF0` for
ASCII, `xx = 0xF1` for an invalid byte, else the size in the low three bits and the index
into `acceptRanges` in the high four). -/
def first (b : Nat) : Nat :=
  if b < 0x80 then 0xF0
  else if b < 0xC2 then 0xF1
  else if b < 0xE0 then 0x02
  else if b = 0xE0 then 0x13
  else if b < 0xED then 0x03
  else if b = 0xED then 0x23
  else if b < 0xF0 then 0x03
  else if b = 0xF0 then 0x34
  else if b < 0xF4 then 0x04
  else if b = 0xF4 then 0x44
  else 0xF1

/-- The table `acceptRanges`: the lowest and highest second byte that is accepted. -/
def acceptRanges (i : Nat) : Nat × Nat :=
  match i with
  | 0 => (0x80, 0xBF)
  | 1 => (0xA0, 0xBF)
  | 2 => (0x80, 0x9F)
  | 3 => (0x90, 0xBF)
  | 4 => (0x80, 0x8F)
  | _ => (0, 0)

/-- The function `DecodeRune(p)`: the rune at the head of `p` and its width in bytes;
`(RuneError, 1)` for an encoding that is invalid, `(RuneError, 0)` for empty `p`. -/
def DecodeRune (p : List Nat) : Nat × Nat :=
  match p with
  | [] => (RuneError, 0)
  | p0 :: _ =>
    if first p0 ≥ 0xF0 then
      if first p0 % 2 = 1 then (RuneError, 1) else (p0, 1)
    else if p.length < first p0 &&& 7 then (RuneError, 1)
    else if p.getD 1 0 < (acceptRanges (first p0 >>> 4)).1 ∨
        (acceptRanges (first p0 >>> 4)).2 < p.getD 1 0 then (RuneError, 1)
    else if first p0 &&& 7 ≤ 2 then (((p0 &&& 0x1F) <<< 6) ||| (p.getD 1 0 &&& 0x3F), 2)
    else if p.getD 2 0 < 0x80 ∨ 0xBF < p.getD 2 0 then (RuneError, 1)
    else if first p0 &&& 7 ≤ 3 then
      (((p0 &&& 0x0F) <<< 12) ||| ((p.getD 1 0 &&& 0x3F) <<< 6) ||| (p.getD 2 0 &&& 0x3F), 3)
    else if p.getD 3 0 < 0x80 ∨ 0xBF < p.getD 3 0 then (RuneError, 1)
    else
      (((p0 &&& 0x07) <<< 18) ||| ((p.getD 1 0 &&& 0x3F) <<< 12) |||
        ((p.getD 2 0 &&& 0x3F) <<< 6) ||| (p.getD 3 0 &&& 0x3F), 4)

/-- The function `RuneStart(b)`: `b` is not a continuation byte. -/
def RuneStart (b : Nat) : Bool := b &&& 0xC0 != 0x80

/-- The loop `for start--; start >= lim; start--` of `DecodeLastRune`, entered with
`start + 1` as argument, followed by `if start < 0 { start = 0 }`: the final `start`. -/
def backToStart (p : List Nat) (lim : Nat) : Nat → Nat
  | 0 => 0
  | s + 1 =>
    if s < lim then s
    else if RuneStart (p.getD s 0) = true then s
    else backToStart p lim s

/-- The function `DecodeLastRune(p)`: the last rune of `p` and its width. -/
def DecodeLastRune (p : List Nat) : Nat × Nat :=
  if p.length = 0 then (RuneError, 0)
  else if p.getD (p.length - 1) 0 < RuneSelf then (p.getD (p.length - 1) 0, 1)
  else
    let start := backToStart p (p.length - UTFMax) (p.length - 1)
    if start + (DecodeRune (p.drop start)).2 ≠ p.length then (RuneError, 1)
    else DecodeRune (p.drop start)

end utf8

namespace unicode

/-- The function `unicode.IsSpace(r)`. -/
def IsSpace (r : Nat) : Bool :=
  if r ≤ 0xFF then
    r == 9 || r == 10 || r == 11 || r == 12 || r == 13 || r == 32 || r == 0x85 || r == 0xA0
  else
    r == 0x1680 || (0x2000 ≤ r && r ≤ 0x200a) || r == 0x2028 || r == 0x2029 || r == 0x202f ||
      r == 0x205f || r == 0x3000

end unicode

namespace bytes

/-- The table `asciiSpace`: tab, line feed, vertical tab, form feed, carriage return, space. -/
def asciiSpace (c : Nat) : Bool :=
  c == 9 || c == 10 || c == 11 || c == 12 || c == 13 || c == 32

/-- The loop of `indexFunc(s, f, truth)` on the bytes from position `pos` on; `skip` bytes
of the rune just decoded are still to be passed. `none` stands for `-1`. -/
def indexFuncLoop (f : Nat → Bool) (truth : Bool) : List Nat → Nat → Nat → Option Nat
  | [], _, _ => none
  | _ :: rest, skip + 1, pos => indexFuncLoop f truth rest skip (pos + 1)
  | b :: rest, 0, pos =>
    if f (if b ≥ utf8.RuneSelf then (utf8.DecodeRune (b :: rest)).1 else b) = truth then some pos
    else
      indexFuncLoop f truth rest
        ((if b ≥ utf8.RuneSelf then (utf8.DecodeRune (b :: rest)).2 else 1) - 1) (pos + 1)

/-- The function `indexFunc(s, f, truth)`. -/
def indexFunc (s : List Nat) (f : Nat → Bool) (truth : Bool) : Option Nat :=
  indexFuncLoop f truth s 0 0

/-- The loop of `lastIndexFunc(s, f, truth)` on the reversed prefix `s[0:i]`; `skip` bytes
of the rune just decoded are still to be passed. `none` stands for `-1`. -/
def lastIndexFuncLoop (f : Nat → Bool) (truth : Bool) : List Nat → Nat → Option Nat
  | [], _ => none
  | _ :: rest, skip + 1 => lastIndexFuncLoop f truth rest skip
  | b :: rest, 0 =>
    if f (if b ≥ utf8.RuneSelf then (utf8.DecodeLastRune (b :: rest).reverse).1 else b) = truth then
      some ((b :: rest).length -
        (if b ≥ utf8.RuneSelf then (utf8.DecodeLastRune (b :: rest).reverse).2 else 1))
    else
      lastIndexFuncLoop f truth rest
        ((if b ≥ utf8.RuneSelf then (utf8.DecodeLastRune (b :: rest).reverse).2 else 1) - 1)

/-- The function `lastIndexFunc(s, f, truth)`. -/
def lastIndexFunc (s : List Nat) (f : Nat → Bool) (truth : Bool) : Option Nat :=
  lastIndexFuncLoop f truth s.reverse 0

/-- The function `TrimLeftFunc(s, f)`. -/
def TrimLeftFunc (s : List Nat) (f : Nat → Bool) : List Nat :=
  match indexFunc s f false with
  | none => []
  | some i => s.drop i

/-- The function `TrimRightFunc(s, f)`. -/
def TrimRightFunc (s : List Nat) (f : Nat → Bool) : List Nat :=
  match lastIndexFunc s f false with
  | some i =>
    if s.getD i 0 ≥ utf8.RuneSelf then s.take (i + (utf8.DecodeRune (s.drop i)).2)
    else s.take (i + 1)
  | none => s.take 0

/-- The function `TrimFunc(s, f)`. -/
def TrimFunc (s : List Nat) (f : Nat → Bool) : List Nat := TrimRightFunc (TrimLeftFunc s f) f

/-- Either loop of the fast path of `TrimSpace`, on the bytes in the order the loop visits
them: the bytes from the one that stopped the loop on, and whether that one is beyond
ASCII. -/
def skipAsciiSpace : List Nat → Bool × List Nat
  | [] => (false, [])
  | c :: rest =>
    if c ≥ utf8.RuneSelf then (true, c :: rest)
    else if asciiSpace c = true then skipAsciiSpace rest
    else (false, c :: rest)

/-- The function `TrimSpace(s)`. -/
def TrimSpace (s : List Nat) : List Nat :=
  match skipAsciiSpace s with
  | (true, t) => TrimFunc t unicode.IsSpace
  | (false, t) =>
    match skipAsciiSpace t.reverse with
    | (true, u) => TrimFunc u.reverse unicode.IsSpace
    | (false, u) => u.reverse

/-- The function `trimRightByte(s, c)`. -/
def trimRightByte (s : List Nat) (c : Nat) : List Nat :=
  (s.reverse.dropWhile (fun b => b == c)).reverse

/-- The function `trimLeftByte(s, c)`. -/
def trimLeftByte (s : List Nat) (c : Nat) : List Nat := s.dropWhile (fun b => b == c)

/-- The call `Trim(s, cutset)` for a cutset of one ASCII byte `c`. -/
def Trim (s : List Nat) (c : Nat) : List Nat := trimLeftByte (trimRightByte s c) c

end bytes

namespace util

/-- The function `B2STrim(src)`: the bytes of the returned string. -/
def B2STrim (src : List Nat) : List Nat := bytes.TrimSpace (bytes.Trim src 0)

end util

/-! ## Values for the examples of the later properties -/

namespace event

/-- The pids that `AddStopped` was called with, in the order of the calls. -/
def stoppedPids : List Effect → List Nat
  | [] => []
  | .AddStopped pid :: w => pid :: stoppedPids w
  | _ :: w => stoppedPids w

/-- A configuration for the examples with the kill signal `SIGSTOP`. -/
def stopConf : ModuleConfig :=
  { BrkKernel := false, KillSignal := SIGSTOP, ManualStack := false, ShowPC := false,
    RegName := [] }

/-- A configuration for the examples with a register name. -/
def regConf (RegName : List Char) : ModuleConfig :=
  { BrkKernel := false, KillSignal := 0, ManualStack := false, ShowPC := false,
    RegName := RegName }

/-- An event for the examples whose cursor stands at the start of `raw`. -/
def payloadEvent (mconf : ModuleConfig) (opts : ExtraOptions) (raw : List Nat) : ContextEvent :=
  { newEvent mconf (sampleRecord raw opts) with buf := some ⟨raw, 0, 0⟩ }

/-- An environment for the examples whose maps file can be read and whose `ParseStack`
reports the mask and the flag it was called with. -/
def liveEnv : Env where
  CommLen := 16
  PaddingLen := 4
  MakeLimit := 1 <<< 48
  SYSCALL_ENTER := 456
  SYSCALL_EXIT := 457
  UPROBE_ENTER := 458
  ReadMapsByPid := fun _ => .ok "1000-2000 r-xp 0 fd:00 7 /system/lib64/libc.so".toList
  GetStack := fun _ _ => .ok "archive".toList
  ParseStack := fun _ opt _ =>
    decimal opt.RegMask ++ (if opt.ShowPC = true then " pc".toList else [])

end event

/-! ## The register map, as the specification gives it -/

namespace event

/-- The register names in the order of their slots: `x0` to `x29`, then `lr`, `sp`, `pc`. -/
def regNames : List (List Char) :=
  (List.range 30).map (fun N => 'x' :: decimal N) ++ ["lr".toList, "sp".toList, "pc".toList]

/-- The member of the JSON object for slot `i`: the name of the slot and `0x` followed by
the lowercase hexadecimal digits of its value, both between quotes. -/
def jsonMember (regs : List Nat) (i : Nat) : List Char :=
  "\"".toList ++ regNames.getD i [] ++ "\":\"0x".toList ++ util.hex (slot regs i) ++ "\"".toList

/-- The 33 slots in the order in which their names sort as strings: `lr`, `pc`, `sp`,
`x0`, `x1`, `x10` to `x19`, `x2`, `x20` to `x29`, `x3` to `x9`. -/
def sortedSlots : List Nat :=
  [30, 32, 31, 0, 1, 10, 11, 12, 13, 14, 15, 16, 17, 18, 19, 2, 20, 21, 22, 23, 24, 25, 26, 27,
    28, 29, 3, 4, 5, 6, 7, 8, 9]

/-- The JSON object of a register snapshot: the 33 members between braces, separated by
commas. -/
def regsJson (regs : List Nat) : List Char :=
  "\x7b".toList ++ ",".toList.intercalate (sortedSlots.map (jsonMember regs)) ++ "\x7d".toList

/-- An event for the examples in registers-only mode, holding the example registers, with
the register name as given. -/
def regsEvent (RegName : List Char) : ContextEvent :=
  { newEvent (regConf RegName) (sampleRecord [] ⟨false, true⟩) with RegsBuffer := exampleRegs }

end event

/-! ## `FindIns` and what it calls -/

namespace bytes

/-- The search behind `Index`, on the bytes from position `pos` on: the first position at
which `sep` is a prefix of what is left, `-1` when there is none. -/
def indexLoop (sep : List Nat) : List Nat → Nat → Int
  | [], pos => if sep.isPrefixOf [] = true then pos else -1
  | b :: rest, pos =>
    if sep.isPrefixOf (b :: rest) = true then pos else indexLoop sep rest (pos + 1)

/-- The call `bytes.Index(s, sep)`: the index of the first instance of `sep` in `s`, or
`-1` if `sep` is not present in `s` (the contract of the library routine, as a plain
search from the left). -/
def Index (s sep : List Nat) : Int := indexLoop sep s 0

end bytes

namespace util

/-- The sum of two `int64` values as the machine computes it, wrapped into
`[-2^63, 2^63)`. -/
def wrapInt64 (x : Int) : Int := (x + 2 ^ 63) % 2 ^ 64 - 2 ^ 63

/-- The verb `%x` of `Sprintf` on a signed integer: a minus sign for a negative value, then
the lowercase hexadecimal digits of its magnitude. -/
def hexInt (x : Int) : List Char :=
  if x < 0 then '-' :: hex (-x).toNat else hex x.toNat

/-- The loop `for ret_offset > 0` of `FindIns`, entered with the current `result`,
`sym_data` and `ret_offset`; `fuel` bounds the number of times the condition is tested,
`none` when it runs out. -/
def FindInsLoop (sym_offset : Int) (ins : List Nat) :
    Nat → List (List Char) → List Nat → Int → Option (List (List Char))
  | 0, _, _, _ => none
  | fuel + 1, result, sym_data, ret_offset =>
    if ret_offset > 0 then
      FindInsLoop sym_offset ins fuel
        (result ++ ["0x".toList ++ hexInt (wrapInt64 (sym_offset + ret_offset))])
        (sym_data.drop ret_offset.toNat)
        (bytes.Index (sym_data.drop ret_offset.toNat) ins)
    else some result

/-- The function `FindIns(sym_offset, sym_data, ins)`, with the fuel of its loop: the
string returned, `none` when the fuel runs out. -/
def FindIns (fuel : Nat) (sym_offset : Int) (sym_data ins : List Nat) : Option (List Char) :=
  (FindInsLoop sym_offset ins fuel [] sym_data (bytes.Index sym_data ins)).map (Join ',')

/-- The instruction `RET` of arm64 that `FindRet` looks for. -/
def retIns : List Nat := [0xC0, 0x03, 0x5F, 0xD6]

end util

namespace util

/-- Values for the examples: what the seven variables may hold after earlier lines. -/
def staleVars : SegVars :=
  ⟨0x1000, 0x2000, "r-xp".toList, 0x999, "fd:00".toList, 9, "/lib/stale.so".toList⟩

/-- A line for the examples that is given up after its fourth field. -/
def partLine : List Char := "1000-2000 r-xp 999".toList

/-- A line for the examples: a segment that holds the address `0x1500`. -/
def firstLine : List Char := "1400-3000 r-xp 10 fd:00 7 /lib/a.so".toList

/-- A line for the examples: another segment that holds the address `0x1500`. -/
def laterLine : List Char := "1000-2000 r-xp 0 fd:00 8 /lib/b.so".toList

end util

/-! ## The resolver: lemmas -/

namespace util

theorem scanHead_eq (line : List Char) (v : SegVars) :
    scanHead line v = retarget v (scanHead line SegVars.zero) := by
  unfold scanHead
  simp only []
  repeat' split
  all_goals simp [overlay, retarget]

theorem scanHead_error (line : List Char) (v : SegVars) : headFailsEarly (scanHead line v) := by
  unfold scanHead
  simp only []
  repeat' split
  all_goals simp [headFailsEarly]

theorem Fscanf_eq (line : List Char) (v : SegVars) :
    Fscanf line v =
      ⟨(Fscanf line SegVars.zero).n, (Fscanf line SegVars.zero).err,
        overlay (Fscanf line SegVars.zero).n (Fscanf line SegVars.zero).vars v⟩ := by
  unfold Fscanf
  rw [scanHead_eq line v]
  cases scanHead line SegVars.zero with
  | error r => simp [retarget]
  | ok p =>
    obtain ⟨x, s⟩ := p
    simp only [retarget]
    repeat' split
    all_goals simp_all [overlay, SegVars.zero]

theorem Fscanf_err_iff (line : List Char) (v : SegVars) :
    (Fscanf line v).err = none ↔ (Fscanf line v).n = 7 := by
  have h := scanHead_error line v
  unfold Fscanf
  revert h
  cases scanHead line v with
  | error r =>
    intro h
    simp only [headFailsEarly] at h
    constructor
    · intro h1
      exact absurd h1 h.1
    · intro h1
      have := h.2
      simp only [] at h1
      omega
  | ok p =>
    intro _
    obtain ⟨x, s⟩ := p
    simp only []
    repeat' split
    all_goals simp

/-- What one iteration of the loop of `ParseReg` sees of a line does not depend on the
values the variables held before: the line is accepted exactly when `parseLine` yields a
segment, and the variables then hold that segment. -/
theorem Fscanf_accept (line : List Char) (v : SegVars) :
    ((Fscanf line v).err = none ∧ (Fscanf line v).n = 7) ↔
      ∃ seg, parseLine line = some seg ∧ (Fscanf line v).vars = seg := by
  have h := Fscanf_eq line v
  unfold parseLine
  constructor
  · rintro ⟨h1, h2⟩
    rw [h] at h1 h2
    simp only [] at h1 h2
    refine ⟨(Fscanf line SegVars.zero).vars, ?_, ?_⟩
    · simp [h1, h2]
    · rw [h]
      simp [overlay, h2]
  · rintro ⟨seg, h1, _⟩
    simp only [] at h1
    split at h1
    · rename_i h3
      rw [h]
      exact h3
    · exact absurd h1 (by simp)

theorem ParseRegLoop_eq (value : Nat) (lines : List (List Char)) (v : SegVars) :
    ParseRegLoop value lines v = scanLines value lines := by
  induction lines generalizing v with
  | nil => rfl
  | cons line rest ih =>
    have h := Fscanf_accept line v
    unfold ParseRegLoop scanLines
    simp only []
    by_cases hacc : (Fscanf line v).err = none ∧ (Fscanf line v).n = 7
    · obtain ⟨seg, hseg, hv⟩ := h.mp hacc
      rw [if_pos hacc, hseg, hv]
      simp only [SegVars.covers, ge_iff_le, ih]
    · rw [if_neg hacc]
      have hnone : parseLine line = none := by
        cases hp : parseLine line with
        | none => rfl
        | some seg =>
          exfalso
          apply hacc
          have := Fscanf_eq line v
          unfold parseLine at hp
          simp only [] at hp
          split at hp
          · rename_i h3
            rw [this]
            exact h3
          · exact absurd hp (by simp)
      rw [hnone]
      exact ih _

theorem resolve_eq (content : List Char) (value : Nat) :
    resolve content value = scanLines value (Split '\n' content) :=
  ParseRegLoop_eq value _ _

theorem scanLines_append_hit (value : Nat) (pre post : List (List Char)) (line : List Char)
    (seg : SegVars) (hpre : ∀ l ∈ pre, ∀ s, parseLine l = some s → ¬ s.covers value)
    (hline : parseLine line = some seg) (hcov : seg.covers value) :
    scanLines value (pre ++ line :: post) = segSymbol seg value := by
  induction pre with
  | nil => simp [scanLines, hline, hcov]
  | cons l rest ih =>
    have ih2 := ih (fun l2 hl2 => hpre l2 (List.mem_cons_of_mem _ hl2))
    simp only [List.cons_append, scanLines]
    cases hl : parseLine l with
    | none => simpa using ih2
    | some s =>
      have := hpre l (List.mem_cons_self _ _) s hl
      simp [this, ih2]

theorem scanLines_miss (value : Nat) (lines : List (List Char))
    (h : ∀ l ∈ lines, ∀ s, parseLine l = some s → ¬ s.covers value) :
    scanLines value lines = UNKNOWN := by
  induction lines with
  | nil => rfl
  | cons l rest ih =>
    have ih2 := ih (fun l2 hl2 => h l2 (List.mem_cons_of_mem _ hl2))
    simp only [scanLines]
    cases hl : parseLine l with
    | none => simpa using ih2
    | some s =>
      have := h l (List.mem_cons_self _ _) s hl
      simp [this, ih2]

theorem scanLines_filter (value : Nat) (lines : List (List Char)) :
    scanLines value (lines.filter (fun l => (parseLine l).isSome)) = scanLines value lines := by
  induction lines with
  | nil => rfl
  | cons l rest ih =>
    cases hl : parseLine l with
    | none => simp [List.filter, hl, scanLines, ih]
    | some s => simp [List.filter, hl, scanLines, ih]

end util

namespace util

theorem Split_ne_nil (sep : Char) (s : List Char) : Split sep s ≠ [] := by
  induction s with
  | nil => simp [Split]
  | cons c cs ih =>
    unfold Split
    split
    · simp
    · split <;> simp

theorem Join_Split (sep : Char) (s : List Char) : Join sep (Split sep s) = s := by
  induction s with
  | nil => rfl
  | cons c cs ih =>
    unfold Split
    split
    · rename_i h
      cases hs : Split sep cs with
      | nil => exact absurd hs (Split_ne_nil sep cs)
      | cons p ps =>
        rw [hs] at ih
        simp [Join, ih, h]
    · cases hs : Split sep cs with
      | nil => exact absurd hs (Split_ne_nil sep cs)
      | cons p ps =>
        rw [hs] at ih
        cases ps with
        | nil =>
          simp only [Join] at ih ⊢
          rw [ih]
        | cons q qs =>
          simp only [Join] at ih ⊢
          rw [← ih]
          rfl

theorem mem_Split_no_sep (sep : Char) (s : List Char) :
    ∀ l ∈ Split sep s, sep ∉ l := by
  induction s with
  | nil => simp [Split]
  | cons c cs ih =>
    unfold Split
    split
    · intro l hl
      rcases List.mem_cons.mp hl with h | h
      · simp [h]
      · exact ih l h
    · rename_i hc
      cases hs : Split sep cs with
      | nil => exact absurd hs (Split_ne_nil sep cs)
      | cons p ps =>
        rw [hs] at ih
        intro l hl
        rcases List.mem_cons.mp hl with h | h
        · subst h
          intro hmem
          rcases List.mem_cons.mp hmem with h2 | h2
          · exact hc h2.symm
          · exact ih p (List.mem_cons_self _ _) h2
        · exact ih l (List.mem_cons_of_mem _ h)

theorem Split_no_sep (sep : Char) (l : List Char) (h : sep ∉ l) : Split sep l = [l] := by
  induction l with
  | nil => rfl
  | cons c cs ih =>
    have hc : ¬ c = sep := fun e => h (by simp [e])
    have hcs : sep ∉ cs := fun e => h (List.mem_cons_of_mem _ e)
    simp only [Split, if_neg hc, ih hcs]

theorem Split_append_sep (sep : Char) (l rest : List Char) (h : sep ∉ l) :
    Split sep (l ++ sep :: rest) = l :: Split sep rest := by
  induction l with
  | nil => simp [Split]
  | cons c cs ih =>
    have hc : ¬ c = sep := fun e => h (by simp [e])
    have hcs : sep ∉ cs := fun e => h (List.mem_cons_of_mem _ e)
    have e : Split sep (c :: (cs ++ sep :: rest)) = (c :: cs) :: Split sep rest := by
      simp only [Split, if_neg hc, ih hcs]
    exact e

theorem Split_Join (sep : Char) (ls : List (List Char)) (hne : ls ≠ [])
    (h : ∀ l ∈ ls, sep ∉ l) : Split sep (Join sep ls) = ls := by
  induction ls with
  | nil => exact absurd rfl hne
  | cons p ps ih =>
    cases ps with
    | nil => exact Split_no_sep sep p (h p (List.mem_cons_self _ _))
    | cons q qs =>
      simp only [Join]
      rw [Split_append_sep sep p _ (h p (List.mem_cons_self _ _))]
      rw [ih (by simp) (fun l hl => h l (List.mem_cons_of_mem _ hl))]

end util

/-! ### Lines whose path field is blank -/

namespace util

open fmt

theorem getRune_eq_none_iff (s : ss) : s.getRune = none ↔ (hugeWid ≤ s.count ∨ s.rs = []) := by
  obtain ⟨rs, n⟩ := s
  unfold ss.getRune
  cases rs <;> simp

theorem skipSpaceLoop_blank (rs : List Char) (h : ∀ c ∈ rs, isSpace c = true) (n : Nat) :
    ∀ s, skipSpaceLoop rs n = .ok s → s.getRune = none := by
  induction rs generalizing n with
  | nil =>
    intro s hs
    simp only [skipSpaceLoop, Except.ok.injEq] at hs
    subst hs
    simp [ss.getRune]
  | cons r rest ih =>
    have hr : isSpace r = true := h r (List.mem_cons_self _ _)
    have hrest : ∀ c ∈ rest, isSpace c = true := fun c hc => h c (List.mem_cons_of_mem _ hc)
    intro s hs
    unfold skipSpaceLoop at hs
    split_ifs at hs with h1 h2 h3 h4
    · simp only [Except.ok.injEq] at hs
      subst hs
      simp [ss.getRune, h1]
    · exact ih hrest _ s hs
    · rw [hr] at h4
      exact absurd h4 (by simp)
    · exact ih hrest _ s hs

theorem SkipSpace_eof (s : ss) (h : s.getRune = none) : s.SkipSpace = .ok s := by
  obtain ⟨rs, n⟩ := s
  rcases (getRune_eq_none_iff _).mp h with h1 | h1
  · cases rs with
    | nil => rfl
    | cons r rest =>
      simp only at h1
      simp [ss.SkipSpace, skipSpaceLoop, h1]
  · simp only at h1
    subst h1
    rfl

theorem verbString_blank (s : ss) (h : ∀ c ∈ s.rs, isSpace c = true) :
    ∃ e, s.verbString = .error e := by
  unfold ss.verbString
  cases h1 : s.SkipSpace with
  | error e => exact ⟨e, rfl⟩
  | ok s1 =>
    have heof : s1.getRune = none := skipSpaceLoop_blank s.rs h s.count s1 h1
    simp only [ss.convertString, SkipSpace_eof s1 heof, ss.notEOF, heof]
    exact ⟨_, rfl⟩

theorem advanceSpaceLoop_blank (rs : List Char) (h : ∀ c ∈ rs, isSpace c = true) (n : Nat) :
    ∀ c ∈ (advanceSpaceLoop rs n).rs, isSpace c = true := by
  induction rs generalizing n with
  | nil => simp [advanceSpaceLoop]
  | cons r rest ih =>
    have hrest : ∀ c ∈ rest, isSpace c = true := fun c hc => h c (List.mem_cons_of_mem _ hc)
    unfold advanceSpaceLoop
    split_ifs
    · exact h
    · exact ih hrest _
    · exact h

theorem advanceSpace_blank (s : ss) (h : ∀ c ∈ s.rs, isSpace c = true) :
    ∀ s2, s.advanceSpace = .ok s2 → ∀ c ∈ s2.rs, isSpace c = true := by
  obtain ⟨rs, n⟩ := s
  intro s2 hs
  unfold ss.advanceSpace ss.getRune at hs
  simp only at hs h
  split_ifs at hs with h1
  · simp only [Except.ok.injEq] at hs
    subst hs
    exact h
  · cases rs with
    | nil =>
      simp only [Except.ok.injEq] at hs
      subst hs
      exact h
    | cons r rest =>
      simp only at hs
      split_ifs at hs
      simp only [Except.ok.injEq] at hs
      subst hs
      exact advanceSpaceLoop_blank rest (fun c hc => h c (List.mem_cons_of_mem _ hc)) _

/-- A line on which the first six fields scan and nothing but space runes follows the
inode is not accepted: `Fscanf` stores six operands and reports an error. -/
theorem blank_path_rejected (line : List Char) (w v : SegVars) (s : ss)
    (hhead : scanHead line w = .ok (v, s)) (hblank : ∀ c ∈ s.rs, isSpace c = true) :
    (Fscanf line w).n = 6 ∧ (Fscanf line w).err ≠ none := by
  unfold Fscanf
  rw [hhead]
  simp only
  cases h1 : s.advanceSpace with
  | error e => simp
  | ok s2 =>
    obtain ⟨e, he⟩ := verbString_blank s2 (advanceSpace_blank s hblank s2 h1)
    simp [he]

theorem parseLine_blank_path (line : List Char) (v : SegVars) (s : ss)
    (hhead : scanHead line SegVars.zero = .ok (v, s)) (hblank : ∀ c ∈ s.rs, isSpace c = true) :
    parseLine line = none := by
  have h := blank_path_rejected line SegVars.zero v s hhead hblank
  unfold parseLine
  simp only
  rw [if_neg]
  intro hc
  exact h.2 hc.1

end util

/-! ### The resolver: statements -/

namespace util

open fmt

theorem parseLine_nil : parseLine [] = none := by decide

theorem scanLines_Split_Join (value : Nat) (ls : List (List Char))
    (h : ∀ l ∈ ls, '\n' ∉ l) :
    scanLines value (Split '\n' (Join '\n' ls)) = scanLines value ls := by
  cases ls with
  | nil => simp [Join, Split, scanLines, parseLine_nil]
  | cons p ps => rw [Split_Join '\n' (p :: ps) (by simp) h]

/-- C1: for every maps text and every address, when a line of the text is accepted by
the scan as the seven fields `start-end perms offset device inode path` with
`start <= address < end`, and no earlier line is accepted with a range that holds the
address, the resolver returns the last `/`-component of that line's path, then `" + 0x"`,
then the lowercase hexadecimal of `offset + (address - start)` (computed in `uint64`);
the snapshot `1000-2000 r-xp 0 00:00 0 /lib/libc.so` at `0x1500` gives `libc.so + 0x500`. -/
theorem resolve_first_covering_line (content : List Char) (value : Nat)
    (pre post : List (List Char)) (line : List Char) (seg : SegVars)
    (hsplit : Split '\n' content = pre ++ line :: post)
    (hpre : ∀ l ∈ pre, ∀ s, parseLine l = some s → ¬ (s.seg_start ≤ value ∧ value < s.seg_end))
    (hline : parseLine line = some seg)
    (hcov : seg.seg_start ≤ value ∧ value < seg.seg_end) :
    resolve content value =
        (Split '/' seg.seg_path).getLastD [] ++ " + 0x".toList ++
          Nat.toDigits 16 ((seg.seg_offset + (value - seg.seg_start)) % 2 ^ 64) ∧
      resolve "1000-2000 r-xp 0 00:00 0 /lib/libc.so".toList 0x1500 =
        "libc.so + 0x500".toList := by
  refine ⟨?_, by decide⟩
  rw [resolve_eq, hsplit, scanLines_append_hit value pre post line seg hpre hline hcov]
  rfl

/-- Witness of C1: a text of two segments, the address in the second. -/
theorem resolve_first_covering_line_witness :
    resolve "0-1000 r--p 0 00:00 0 /system/bin/linker64\n1000-2000 r-xp 20 fd:00 77 /lib/libc.so".toList
      0x1500 = "libc.so + 0x520".toList := by
  have h := (resolve_first_covering_line
    "0-1000 r--p 0 00:00 0 /system/bin/linker64\n1000-2000 r-xp 20 fd:00 77 /lib/libc.so".toList
    0x1500 ["0-1000 r--p 0 00:00 0 /system/bin/linker64".toList] []
    "1000-2000 r-xp 20 fd:00 77 /lib/libc.so".toList
    ⟨0x1000, 0x2000, "r-xp".toList, 0x20, "fd:00".toList, 77, "/lib/libc.so".toList⟩
    (by decide)
    (by
      intro l hl s hs
      simp only [List.mem_singleton] at hl
      subst hl
      have e : parseLine "0-1000 r--p 0 00:00 0 /system/bin/linker64".toList =
          some ⟨0, 0x1000, "r--p".toList, 0, "00:00".toList, 0,
            "/system/bin/linker64".toList⟩ := by decide
      rw [e] at hs
      injection hs with hs
      subst hs
      decide)
    (by decide) (by decide)).1
  exact h.trans (by decide)

/-- C2: for every maps text and every address, the resolver returns the literal
`UNKNOWN` when every line of the text either has a blank path field (its first six
fields scan and only space runes follow) or is not accepted with a range
`start <= address < end`; an address equal to the end of a segment is outside it. -/
theorem resolve_unknown (content : List Char) (value : Nat)
    (h : ∀ line ∈ Split '\n' content,
      (∃ v s, scanHead line SegVars.zero = .ok (v, s) ∧ ∀ c ∈ s.rs, isSpace c = true) ∨
      (∀ seg, parseLine line = some seg → ¬ (seg.seg_start ≤ value ∧ value < seg.seg_end))) :
    resolve content value = "UNKNOWN".toList := by
  rw [resolve_eq]
  apply scanLines_miss
  intro l hl s hs
  rcases h l hl with ⟨v, st, hhead, hblank⟩ | hmiss
  · rw [parseLine_blank_path l v st hhead hblank] at hs
    exact absurd hs (by simp)
  · exact hmiss s hs

/-- Witness of C2: the address is the end of the first segment and lies inside the
second, whose path field is blank. -/
theorem resolve_unknown_witness :
    resolve "1000-2000 r-xp 0 00:00 0 /lib/libc.so\n2000-3000 rw-p 0 00:00 0 ".toList 0x2000 =
      "UNKNOWN".toList := by
  apply resolve_unknown
  intro line hl
  have e : Split '\n'
      "1000-2000 r-xp 0 00:00 0 /lib/libc.so\n2000-3000 rw-p 0 00:00 0 ".toList =
      ["1000-2000 r-xp 0 00:00 0 /lib/libc.so".toList, "2000-3000 rw-p 0 00:00 0 ".toList] := by
    decide
  rw [e] at hl
  simp only [List.mem_cons, List.mem_singleton, List.not_mem_nil, or_false] at hl
  rcases hl with hl | hl
  · subst hl
    right
    intro seg hs
    have e1 : parseLine "1000-2000 r-xp 0 00:00 0 /lib/libc.so".toList =
        some ⟨0x1000, 0x2000, "r-xp".toList, 0, "00:00".toList, 0, "/lib/libc.so".toList⟩ := by
      decide
    rw [e1] at hs
    injection hs with hs
    subst hs
    decide
  · subst hl
    left
    exact ⟨⟨0x2000, 0x3000, "rw-p".toList, 0, "00:00".toList, 0, []⟩, ⟨[' '], 24⟩,
      rfl, by decide⟩

/-- C3: for every maps text and every address, the resolver answers the same on the text
and on the text with every line that is not accepted as a seven-field segment removed,
and `ParseReg` returns no error on a text that was read, whatever its lines. -/
theorem malformed_lines_ignored (content : List Char) (value : Nat) :
    resolve content value =
        resolve (Join '\n' ((Split '\n' content).filter (fun l => (parseLine l).isSome))) value ∧
      (ParseReg (.ok content) value).2 = none := by
  refine ⟨?_, rfl⟩
  rw [resolve_eq, resolve_eq, scanLines_Split_Join, scanLines_filter]
  intro l hl
  exact mem_Split_no_sep '\n' content l (List.mem_of_mem_filter hl)

end util

/-! ## The decoder: reading from the buffer -/

namespace event

theorem ReadFull_mk_ok (raw : List Nat) (off n sp : Nat) (h : off + n ≤ raw.length) :
    (Buffer.mk raw off sp).ReadFull n = (.ok (bytesAt raw off n), ⟨raw, off + n, sp⟩) := by
  unfold Buffer.ReadFull Buffer.Len Buffer.unread bytesAt
  by_cases hn : n = 0
  · subst hn
    simp
  · simp only [hn, if_false]
    rw [if_neg (by omega), if_neg (by omega)]

theorem ReadFull_mk_err (raw : List Nat) (off n sp : Nat) (h : raw.length < off + n)
    (hoff : off ≤ raw.length) :
    ∃ e, (Buffer.mk raw off sp).ReadFull n = (.error e, ⟨raw, raw.length, sp⟩) := by
  unfold Buffer.ReadFull Buffer.Len Buffer.drained
  have hn : ¬ n = 0 := by omega
  simp only [hn, if_false]
  by_cases h0 : raw.length - off = 0
  · exact ⟨_, by rw [if_pos h0]⟩
  · rw [if_neg h0, if_pos (by omega)]
    exact ⟨_, rfl⟩

theorem readUint_mk_ok (raw : List Nat) (off n sp : Nat) (h : off + n ≤ raw.length) :
    (Buffer.mk raw off sp).readUint n = (.ok (fieldAt raw off n), ⟨raw, off + n, sp⟩) := by
  unfold Buffer.readUint
  rw [ReadFull_mk_ok raw off n sp h]
  rfl

theorem readUint_mk_err (raw : List Nat) (off n sp : Nat) (h : raw.length < off + n)
    (hoff : off ≤ raw.length) :
    ∃ e, (Buffer.mk raw off sp).readUint n = (.error e, ⟨raw, raw.length, sp⟩) := by
  unfold Buffer.readUint
  obtain ⟨e, he⟩ := ReadFull_mk_err raw off n sp h hoff
  rw [he]
  exact ⟨e, rfl⟩

/-- A sample that holds a whole header decodes without error to `decodedHeader`. -/
theorem ParseContext_ok (env : Env) (this : ContextEvent) (w : List Effect)
    (hbrk : this.mconf.BrkKernel = false)
    (hlen : headerSize env ≤ this.record.RawSample.length) :
    this.ParseContext env w = (none, decodedHeader env this, w ++ headerEffects this) := by
  unfold headerSize at hlen
  unfold ContextEvent.ParseContext
  simp (disch := omega) only [hbrk, NewBuffer, widths, readUint_mk_ok, ReadFull_mk_ok]
  have e1 : 0 + 4 + 8 + 4 + 4 + 4 + 4 + 4 + 4 + env.CommLen + 4 + env.PaddingLen =
      4 + 8 + 4 + 5 * 4 + env.CommLen + 4 + env.PaddingLen := by omega
  have e2 : 0 + 4 + 8 + 4 + 4 + 4 + 4 + 4 + 4 + env.CommLen = 36 + env.CommLen := by omega
  have e3 : 0 + 4 + 8 + 4 + 4 + 4 + 4 + 4 + 4 + env.CommLen + 4 = 40 + env.CommLen := by omega
  rw [e1, e2, e3]
  simp only [Bool.false_eq_true, if_false, decodedHeader, headerEffects, headerSize, Nat.zero_add,
    Nat.reduceAdd]
  split_ifs <;> simp <;> omega

/-- A read of `n > 0` bytes that succeeds found them: the cursor advances by `n` within the
bytes. -/
theorem readUint_ok_inv (b b2 : Buffer) (n x : Nat) (hn : 0 < n)
    (h : b.readUint n = (.ok x, b2)) :
    b2.buf.length = b.buf.length ∧ b2.off = b.off + n ∧ b.off + n ≤ b.buf.length := by
  unfold Buffer.readUint Buffer.ReadFull at h
  rw [if_neg (by omega)] at h
  by_cases h1 : b.Len = 0
  · rw [if_pos h1] at h
    simp at h
  · rw [if_neg h1] at h
    by_cases h2 : b.Len < n
    · rw [if_pos h2] at h
      simp at h
    · rw [if_neg h2] at h
      simp only [Prod.mk.injEq] at h
      obtain ⟨-, hb⟩ := h
      subst hb
      unfold Buffer.Len at h2
      exact ⟨rfl, rfl, by omega⟩

/-- A read of `n` bytes that succeeds advances the cursor by `n`, within the bytes unless
`n` is zero. -/
theorem ReadFull_ok_inv (b b2 : Buffer) (n : Nat) (bs : List Nat)
    (h : b.ReadFull n = (.ok bs, b2)) :
    b2.buf.length = b.buf.length ∧ b2.off = b.off + n ∧ (n = 0 ∨ b.off + n ≤ b.buf.length) := by
  unfold Buffer.ReadFull at h
  by_cases h0 : n = 0
  · rw [if_pos h0] at h
    simp only [Prod.mk.injEq] at h
    obtain ⟨-, hb⟩ := h
    subst hb
    exact ⟨rfl, by omega, Or.inl h0⟩
  · rw [if_neg h0] at h
    by_cases h1 : b.Len = 0
    · rw [if_pos h1] at h
      simp at h
    · rw [if_neg h1] at h
      by_cases h2 : b.Len < n
      · rw [if_pos h2] at h
        simp at h
      · rw [if_neg h2] at h
        simp only [Prod.mk.injEq] at h
        obtain ⟨-, hb⟩ := h
        subst hb
        unfold Buffer.Len at h2
        exact ⟨rfl, rfl, Or.inr (by omega)⟩

/-- A sample shorter than the header makes one of the reads fail. -/
theorem ParseContext_short (env : Env) (this : ContextEvent) (w : List Effect)
    (hbrk : this.mconf.BrkKernel = false)
    (hlen : this.record.RawSample.length < headerSize env) :
    ∃ e, (this.ParseContext env w).1 = some e := by
  have key : (this.ParseContext env w).1 ≠ none := by
    unfold headerSize at hlen
    unfold ContextEvent.ParseContext
    rw [if_neg (by rw [hbrk]; decide)]
    split
    · exact Option.some_ne_none _
    rename_i x1 b1 h1
    have i1 := readUint_ok_inv _ _ _ _ (by decide) h1
    split
    · exact Option.some_ne_none _
    rename_i x2 b2 h2
    have i2 := readUint_ok_inv _ _ _ _ (by decide) h2
    split
    · exact Option.some_ne_none _
    rename_i x3 b3 h3
    have i3 := readUint_ok_inv _ _ _ _ (by decide) h3
    split
    · exact Option.some_ne_none _
    rename_i x4 b4 h4
    have i4 := readUint_ok_inv _ _ _ _ (by decide) h4
    split
    · exact Option.some_ne_none _
    rename_i x5 b5 h5
    have i5 := readUint_ok_inv _ _ _ _ (by decide) h5
    split
    · exact Option.some_ne_none _
    rename_i x6 b6 h6
    have i6 := readUint_ok_inv _ _ _ _ (by decide) h6
    split
    · exact Option.some_ne_none _
    rename_i x7 b7 h7
    have i7 := readUint_ok_inv _ _ _ _ (by decide) h7
    split
    · exact Option.some_ne_none _
    rename_i x8 b8 h8
    have i8 := readUint_ok_inv _ _ _ _ (by decide) h8
    split
    · exact Option.some_ne_none _
    rename_i x9 b9 h9
    have i9 := ReadFull_ok_inv _ _ _ _ h9
    split
    · exact Option.some_ne_none _
    rename_i x10 b10 h10
    have i10 := readUint_ok_inv _ _ _ _ (by decide) h10
    split
    · exact Option.some_ne_none _
    rename_i x11 b11 h11
    have i11 := ReadFull_ok_inv _ _ _ _ h11
    simp only [NewBuffer, widths] at i1 i2 i3 i4 i5 i6 i7 i8 i9 i10 i11
    omega
  cases h : (this.ParseContext env w).1 with
  | none => exact absurd h key
  | some e => exact ⟨e, rfl⟩

end event

/-! ## The decoder: payloads -/

namespace event

theorem ReadFull_mk_err_pos (raw : List Nat) (off n sp : Nat) (h : raw.length < off + n)
    (hn : 0 < n) :
    ∃ e, (Buffer.mk raw off sp).ReadFull n = (.error e, ⟨raw, raw.length, sp⟩) := by
  unfold Buffer.ReadFull Buffer.Len Buffer.drained
  have hn0 : ¬ n = 0 := by omega
  simp only [hn0, if_false]
  by_cases h0 : raw.length - off = 0
  · exact ⟨_, by rw [if_pos h0]⟩
  · rw [if_neg h0, if_pos (by omega)]
    exact ⟨_, rfl⟩

theorem readUint_mk_err_pos (raw : List Nat) (off n sp : Nat) (h : raw.length < off + n)
    (hn : 0 < n) :
    ∃ e, (Buffer.mk raw off sp).readUint n = (.error e, ⟨raw, raw.length, sp⟩) := by
  unfold Buffer.readUint
  obtain ⟨e, he⟩ := ReadFull_mk_err_pos raw off n sp h hn
  rw [he]
  exact ⟨e, rfl⟩

theorem readRegs_mk_ok (raw : List Nat) (off sp : Nat) (h : off + 264 ≤ raw.length) :
    (Buffer.mk raw off sp).readRegs =
      (.ok (leUint64s 33 (bytesAt raw off 264)), ⟨raw, off + 264, sp⟩) := by
  unfold Buffer.readRegs
  rw [ReadFull_mk_ok raw off (33 * 8) sp h]

theorem readRegs_mk_err (raw : List Nat) (off sp : Nat) (h : raw.length < off + 264) :
    ∃ e, (Buffer.mk raw off sp).readRegs = (.error e, ⟨raw, raw.length, sp⟩) := by
  unfold Buffer.readRegs
  obtain ⟨e, he⟩ := ReadFull_mk_err_pos raw off (33 * 8) sp h (by omega)
  rw [he]
  exact ⟨e, rfl⟩

/-- The register snapshot the 272 bytes at `off` decode to. -/
theorem RegsBuf_ParseContext_ok (this : RegsBuf) (raw : List Nat) (off sp : Nat)
    (h : off + 272 ≤ raw.length) :
    this.ParseContext ⟨raw, off, sp⟩ =
      (none, ⟨fieldAt raw off 8, leUint64s 33 (bytesAt raw (off + 8) 264)⟩,
        ⟨raw, off + 272, sp⟩) := by
  unfold RegsBuf.ParseContext
  simp (disch := omega) only [readUint_mk_ok, readRegs_mk_ok]

theorem RegsBuf_ParseContext_short (this : RegsBuf) (raw : List Nat) (off sp : Nat)
    (h : raw.length < off + 272) :
    ∃ e, (this.ParseContext ⟨raw, off, sp⟩).1 = some e := by
  unfold RegsBuf.ParseContext
  by_cases h0 : off + 8 ≤ raw.length
  swap
  · obtain ⟨e, he⟩ := readUint_mk_err_pos raw off 8 sp (by omega) (by omega)
    simp only [he]
    exact ⟨e, rfl⟩
  simp (disch := omega) only [readUint_mk_ok]
  obtain ⟨e, he⟩ := readRegs_mk_err raw (off + 8) sp (by omega)
  simp only [he]
  exact ⟨e, rfl⟩

/-- The unwind buffer the bytes at `off` decode to when all of them are there and `make`
returns the stack bytes. -/
theorem UnwindBuf_ParseContext_ok (env : Env) (this : UnwindBuf) (raw : List Nat) (off sp : Nat)
    (h1 : off + 280 ≤ raw.length)
    (hm : fieldAt raw (off + 272) 8 ≤ env.MakeLimit)
    (h2 : off + 280 + fieldAt raw (off + 272) 8 + 8 ≤ raw.length) :
    this.ParseContext env ⟨raw, off, sp⟩ =
      (none,
        ⟨fieldAt raw off 8, leUint64s 33 (bytesAt raw (off + 8) 264),
          fieldAt raw (off + 272) 8,
          bytesAt raw (off + 280) (fieldAt raw (off + 272) 8),
          fieldAt raw (off + 280 + fieldAt raw (off + 272) 8) 8⟩,
        ⟨raw, off + 280 + fieldAt raw (off + 272) 8 + 8, sp⟩) := by
  unfold UnwindBuf.ParseContext
  have e1 : off + 8 + 264 = off + 272 := by omega
  have e2 : off + 272 + 8 = off + 280 := by omega
  simp (disch := omega) only [readUint_mk_ok, readRegs_mk_ok, e1, e2]
  rw [if_neg (by omega)]
  simp (disch := omega) only [readUint_mk_ok, ReadFull_mk_ok]

/-- A declared `StackSize` that `make` does not allocate stops the decode right after the
`StackSize` field: nothing is returned and no byte of the stack is read. -/
theorem UnwindBuf_ParseContext_makeslice (env : Env) (this : UnwindBuf) (raw : List Nat)
    (off sp : Nat) (h1 : off + 280 ≤ raw.length)
    (hm : env.MakeLimit < fieldAt raw (off + 272) 8) :
    this.ParseContext env ⟨raw, off, sp⟩ =
      (some .makeslice,
        ⟨fieldAt raw off 8, leUint64s 33 (bytesAt raw (off + 8) 264),
          fieldAt raw (off + 272) 8, this.Data, this.DynSize⟩,
        ⟨raw, off + 280, sp⟩) := by
  unfold UnwindBuf.ParseContext
  have e1 : off + 8 + 264 = off + 272 := by omega
  have e2 : off + 272 + 8 = off + 280 := by omega
  simp (disch := omega) only [readUint_mk_ok, readRegs_mk_ok, e1, e2]
  rw [if_pos (by omega)]

/-- Bytes that end before the declared end of the unwind buffer make one of the reads
return an error, when `make` returns the stack bytes. -/
theorem UnwindBuf_ParseContext_short (env : Env) (this : UnwindBuf) (raw : List Nat)
    (off sp : Nat)
    (h : raw.length < off + 280 ∨
      (fieldAt raw (off + 272) 8 ≤ env.MakeLimit ∧
        raw.length < off + 280 + fieldAt raw (off + 272) 8 + 8)) :
    ∃ e, (this.ParseContext env ⟨raw, off, sp⟩).1 = some (.returned e) := by
  unfold UnwindBuf.ParseContext
  have e1 : off + 8 + 264 = off + 272 := by omega
  have e2 : off + 272 + 8 = off + 280 := by omega
  by_cases h0 : off + 8 ≤ raw.length
  swap
  · obtain ⟨e, he⟩ := readUint_mk_err_pos raw off 8 sp (by omega) (by omega)
    simp only [he]
    exact ⟨e, rfl⟩
  simp (disch := omega) only [readUint_mk_ok]
  by_cases h1 : off + 8 + 264 ≤ raw.length
  swap
  · obtain ⟨e, he⟩ := readRegs_mk_err raw (off + 8) sp (by omega)
    simp only [he]
    exact ⟨e, rfl⟩
  simp (disch := omega) only [readRegs_mk_ok, e1]
  by_cases h2 : off + 272 + 8 ≤ raw.length
  swap
  · obtain ⟨e, he⟩ := readUint_mk_err_pos raw (off + 272) 8 sp (by omega) (by omega)
    simp only [he]
    exact ⟨e, rfl⟩
  simp (disch := omega) only [readUint_mk_ok, e2]
  rw [if_neg (by omega)]
  by_cases h3 : off + 280 + fieldAt raw (off + 272) 8 ≤ raw.length
  swap
  · obtain ⟨e, he⟩ := ReadFull_mk_err_pos raw (off + 280) (fieldAt raw (off + 272) 8) sp
      (by omega) (by omega)
    simp only [he]
    exact ⟨e, rfl⟩
  simp (disch := omega) only [ReadFull_mk_ok]
  obtain ⟨e, he⟩ := readUint_mk_err_pos raw (off + 280 + fieldAt raw (off + 272) 8) 8 sp
    (by omega) (by omega)
  simp only [he]
  exact ⟨e, rfl⟩

end event

/-! ## The decoder: encoding lemmas -/

namespace event

theorem length_putUint (n x : Nat) : (putUint n x).length = n := by
  induction n generalizing x with
  | zero => rfl
  | succ n ih => simp [putUint, ih]

theorem leUint_putUint (n x : Nat) : leUint (putUint n x) = x % 256 ^ n := by
  induction n generalizing x with
  | zero => simp [putUint, leUint, Nat.mod_one]
  | succ n ih =>
    have h := ih (x / 256)
    unfold leUint at h ⊢
    simp only [putUint, List.foldr_cons, h]
    rw [pow_succ', Nat.mod_mul]

theorem bytesAt_append_ge (a l : List Nat) (off n : Nat) (h : a.length ≤ off) :
    bytesAt (a ++ l) off n = bytesAt l (off - a.length) n := by
  unfold bytesAt
  rw [List.drop_append_eq_append_drop, List.drop_of_length_le h]
  rfl

theorem bytesAt_zero_append (a l : List Nat) (n : Nat) (h : a.length = n) :
    bytesAt (a ++ l) 0 n = a := by
  unfold bytesAt
  subst h
  simp

theorem bytesAt_zero_self (a : List Nat) (n : Nat) (h : a.length = n) :
    bytesAt a 0 n = a := by
  unfold bytesAt
  subst h
  simp

theorem fieldAt_eq (raw : List Nat) (off n : Nat) :
    fieldAt raw off n = leUint (bytesAt raw off n) % 2 ^ (8 * n) := rfl

theorem fieldAt_append_ge (a l : List Nat) (off n : Nat) (h : a.length ≤ off) :
    fieldAt (a ++ l) off n = fieldAt l (off - a.length) n := by
  rw [fieldAt_eq, fieldAt_eq, bytesAt_append_ge a l off n h]

theorem fieldAt_putUint (n x : Nat) (l : List Nat) (hx : x < 2 ^ (8 * n)) :
    fieldAt (putUint n x ++ l) 0 n = x := by
  rw [fieldAt_eq, bytesAt_zero_append _ _ _ (length_putUint n x), leUint_putUint]
  have e : (256 : Nat) ^ n = 2 ^ (8 * n) := by
    rw [Nat.pow_mul]
  rw [e, Nat.mod_mod, Nat.mod_eq_of_lt hx]

theorem fieldAt_putUint_self (n x : Nat) (hx : x < 2 ^ (8 * n)) :
    fieldAt (putUint n x) 0 n = x := by
  have h := fieldAt_putUint n x [] hx
  simpa using h

theorem length_encodeRegs (regs : List Nat) : (encodeRegs regs).length = 8 * regs.length := by
  induction regs with
  | nil => rfl
  | cons r rs ih =>
    simp only [encodeRegs, List.length_append, length_putUint, ih, List.length_cons]
    omega

theorem leUint64s_encodeRegs (regs l : List Nat) (h : ∀ x ∈ regs, x < 2 ^ 64) :
    leUint64s regs.length (encodeRegs regs ++ l) = regs := by
  induction regs with
  | nil => rfl
  | cons r rs ih =>
    have hr : r < 2 ^ 64 := h r (List.mem_cons_self _ _)
    have hrs : ∀ x ∈ rs, x < 2 ^ 64 := fun x hx => h x (List.mem_cons_of_mem _ hx)
    simp only [encodeRegs, List.length_cons, leUint64s, List.append_assoc]
    have e1 : List.take 8 (putUint 8 r ++ (encodeRegs rs ++ l)) = putUint 8 r := by
      rw [List.take_append_of_le_length (by simp [length_putUint])]
      exact List.take_of_length_le (by simp [length_putUint])
    have e2 : List.drop 8 (putUint 8 r ++ (encodeRegs rs ++ l)) = encodeRegs rs ++ l := by
      rw [List.drop_append_of_le_length (by simp [length_putUint])]
      rw [List.drop_of_length_le (by simp [length_putUint])]
      rfl
    rw [e1, e2, ih hrs, leUint_putUint]
    have e : (256 : Nat) ^ 8 = 2 ^ 64 := by norm_num
    rw [e, Nat.mod_mod, Nat.mod_eq_of_lt hr]

end event

/-! ## The decoder: a header written by `encodeHeader` -/

namespace event

theorem fieldAt_mid (A B : List Nat) (n x : Nat) (hx : x < 2 ^ (8 * n)) :
    fieldAt (A ++ (putUint n x ++ B)) A.length n = x := by
  rw [fieldAt_append_ge A _ _ _ (Nat.le_refl _), Nat.sub_self, fieldAt_putUint n x B hx]

theorem bytesAt_mid (A M B : List Nat) :
    bytesAt (A ++ (M ++ B)) A.length M.length = M := by
  rw [bytesAt_append_ge A _ _ _ (Nat.le_refl _), Nat.sub_self, bytesAt_zero_append M B _ rfl]

theorem length_encodeHeader (env : Env) (h : Header) (hh : h.valid env) :
    (encodeHeader h).length = headerSize env := by
  obtain ⟨_, _, _, _, _, _, _, _, hC, _, hPad⟩ := hh
  simp only [encodeHeader, List.length_append, length_putUint, hC, hPad, headerSize]
  omega

/-- The fields read back at their offsets from a sample that starts with an encoded
header are the fields that were encoded. -/
theorem decode_encodeHeader (env : Env) (h : Header) (tail raw : List Nat)
    (hh : h.valid env) (hraw : raw = encodeHeader h ++ tail) :
    fieldAt raw 0 4 = h.SampleSize ∧ fieldAt raw 4 8 = h.Ts ∧ fieldAt raw 12 4 = h.EventId ∧
    fieldAt raw 16 4 = h.HostTid ∧ fieldAt raw 20 4 = h.HostPid ∧ fieldAt raw 24 4 = h.Tid ∧
    fieldAt raw 28 4 = h.Pid ∧ fieldAt raw 32 4 = h.Uid ∧
    bytesAt raw 36 env.CommLen = h.Comm ∧ fieldAt raw (36 + env.CommLen) 4 = h.Argnum ∧
    bytesAt raw (40 + env.CommLen) env.PaddingLen = h.Padding := by
  obtain ⟨hS, hTs, hE, hHt, hHp, hT, hP, hU, hC, hA, hPad⟩ := hh
  have f0 : fieldAt raw 0 4 = h.SampleSize := by
    have e : raw = (([] : List Nat)) ++ (putUint 4 h.SampleSize ++ (putUint 8 h.Ts ++ (putUint 4 h.EventId ++ (putUint 4 h.HostTid ++ (putUint 4 h.HostPid ++ (putUint 4 h.Tid ++ (putUint 4 h.Pid ++ (putUint 4 h.Uid ++ (h.Comm ++ (putUint 4 h.Argnum ++ (h.Padding ++ tail))))))))))) := by
      rw [hraw]
      simp only [encodeHeader, List.append_assoc, List.nil_append]
    have l : (([] : List Nat)).length = 0 := by
      simp only [List.length_append, length_putUint, List.length_nil, hC]
      try omega
    have m := fieldAt_mid (([] : List Nat)) (putUint 8 h.Ts ++ (putUint 4 h.EventId ++ (putUint 4 h.HostTid ++ (putUint 4 h.HostPid ++ (putUint 4 h.Tid ++ (putUint 4 h.Pid ++ (putUint 4 h.Uid ++ (h.Comm ++ (putUint 4 h.Argnum ++ (h.Padding ++ tail)))))))))) 4 h.SampleSize hS
    rw [← e, l] at m
    exact m
  have f1 : fieldAt raw 4 8 = h.Ts := by
    have e : raw = (([] : List Nat) ++ putUint 4 h.SampleSize) ++ (putUint 8 h.Ts ++ (putUint 4 h.EventId ++ (putUint 4 h.HostTid ++ (putUint 4 h.HostPid ++ (putUint 4 h.Tid ++ (putUint 4 h.Pid ++ (putUint 4 h.Uid ++ (h.Comm ++ (putUint 4 h.Argnum ++ (h.Padding ++ tail)))))))))) := by
      rw [hraw]
      simp only [encodeHeader, List.append_assoc, List.nil_append]
    have l : (([] : List Nat) ++ putUint 4 h.SampleSize).length = 4 := by
      simp only [List.length_append, length_putUint, List.length_nil, hC]
      try omega
    have m := fieldAt_mid (([] : List Nat) ++ putUint 4 h.SampleSize) (putUint 4 h.EventId ++ (putUint 4 h.HostTid ++ (putUint 4 h.HostPid ++ (putUint 4 h.Tid ++ (putUint 4 h.Pid ++ (putUint 4 h.Uid ++ (h.Comm ++ (putUint 4 h.Argnum ++ (h.Padding ++ tail))))))))) 8 h.Ts hTs
    rw [← e, l] at m
    exact m
  have f2 : fieldAt raw 12 4 = h.EventId := by
    have e : raw = (([] : List Nat) ++ putUint 4 h.SampleSize ++ putUint 8 h.Ts) ++ (putUint 4 h.EventId ++ (putUint 4 h.HostTid ++ (putUint 4 h.HostPid ++ (putUint 4 h.Tid ++ (putUint 4 h.Pid ++ (putUint 4 h.Uid ++ (h.Comm ++ (putUint 4 h.Argnum ++ (h.Padding ++ tail))))))))) := by
      rw [hraw]
      simp only [encodeHeader, List.append_assoc, List.nil_append]
    have l : (([] : List Nat) ++ putUint 4 h.SampleSize ++ putUint 8 h.Ts).length = 12 := by
      simp only [List.length_append, length_putUint, List.length_nil, hC]
      try omega
    have m := fieldAt_mid (([] : List Nat) ++ putUint 4 h.SampleSize ++ putUint 8 h.Ts) (putUint 4 h.HostTid ++ (putUint 4 h.HostPid ++ (putUint 4 h.Tid ++ (putUint 4 h.Pid ++ (putUint 4 h.Uid ++ (h.Comm ++ (putUint 4 h.Argnum ++ (h.Padding ++ tail)))))))) 4 h.EventId hE
    rw [← e, l] at m
    exact m
  have f3 : fieldAt raw 16 4 = h.HostTid := by
    have e : raw = (([] : List Nat) ++ putUint 4 h.SampleSize ++ putUint 8 h.Ts ++ putUint 4 h.EventId) ++ (putUint 4 h.HostTid ++ (putUint 4 h.HostPid ++ (putUint 4 h.Tid ++ (putUint 4 h.Pid ++ (putUint 4 h.Uid ++ (h.Comm ++ (putUint 4 h.Argnum ++ (h.Padding ++ tail)))))))) := by
      rw [hraw]
      simp only [encodeHeader, List.append_assoc, List.nil_append]
    have l : (([] : List Nat) ++ putUint 4 h.SampleSize ++ putUint 8 h.Ts ++ putUint 4 h.EventId).length = 16 := by
      simp only [List.length_append, length_putUint, List.length_nil, hC]
      try omega
    have m := fieldAt_mid (([] : List Nat) ++ putUint 4 h.SampleSize ++ putUint 8 h.Ts ++ putUint 4 h.EventId) (putUint 4 h.HostPid ++ (putUint 4 h.Tid ++ (putUint 4 h.Pid ++ (putUint 4 h.Uid ++ (h.Comm ++ (putUint 4 h.Argnum ++ (h.Padding ++ tail))))))) 4 h.HostTid hHt
    rw [← e, l] at m
    exact m
  have f4 : fieldAt raw 20 4 = h.HostPid := by
    have e : raw = (([] : List Nat) ++ putUint 4 h.SampleSize ++ putUint 8 h.Ts ++ putUint 4 h.EventId ++ putUint 4 h.HostTid) ++ (putUint 4 h.HostPid ++ (putUint 4 h.Tid ++ (putUint 4 h.Pid ++ (putUint 4 h.Uid ++ (h.Comm ++ (putUint 4 h.Argnum ++ (h.Padding ++ tail))))))) := by
      rw [hraw]
      simp only [encodeHeader, List.append_assoc, List.nil_append]
    have l : (([] : List Nat) ++ putUint 4 h.SampleSize ++ putUint 8 h.Ts ++ putUint 4 h.EventId ++ putUint 4 h.HostTid).length = 20 := by
      simp only [List.length_append, length_putUint, List.length_nil, hC]
      try omega
    have m := fieldAt_mid (([] : List Nat) ++ putUint 4 h.SampleSize ++ putUint 8 h.Ts ++ putUint 4 h.EventId ++ putUint 4 h.HostTid) (putUint 4 h.Tid ++ (putUint 4 h.Pid ++ (putUint 4 h.Uid ++ (h.Comm ++ (putUint 4 h.Argnum ++ (h.Padding ++ tail)))))) 4 h.HostPid hHp
    rw [← e, l] at m
    exact m
  have f5 : fieldAt raw 24 4 = h.Tid := by
    have e : raw = (([] : List Nat) ++ putUint 4 h.SampleSize ++ putUint 8 h.Ts ++ putUint 4 h.EventId ++ putUint 4 h.HostTid ++ putUint 4 h.HostPid) ++ (putUint 4 h.Tid ++ (putUint 4 h.Pid ++ (putUint 4 h.Uid ++ (h.Comm ++ (putUint 4 h.Argnum ++ (h.Padding ++ tail)))))) := by
      rw [hraw]
      simp only [encodeHeader, List.append_assoc, List.nil_append]
    have l : (([] : List Nat) ++ putUint 4 h.SampleSize ++ putUint 8 h.Ts ++ putUint 4 h.EventId ++ putUint 4 h.HostTid ++ putUint 4 h.HostPid).length = 24 := by
      simp only [List.length_append, length_putUint, List.length_nil, hC]
      try omega
    have m := fieldAt_mid (([] : List Nat) ++ putUint 4 h.SampleSize ++ putUint 8 h.Ts ++ putUint 4 h.EventId ++ putUint 4 h.HostTid ++ putUint 4 h.HostPid) (putUint 4 h.Pid ++ (putUint 4 h.Uid ++ (h.Comm ++ (putUint 4 h.Argnum ++ (h.Padding ++ tail))))) 4 h.Tid hT
    rw [← e, l] at m
    exact m
  have f6 : fieldAt raw 28 4 = h.Pid := by
    have e : raw = (([] : List Nat) ++ putUint 4 h.SampleSize ++ putUint 8 h.Ts ++ putUint 4 h.EventId ++ putUint 4 h.HostTid ++ putUint 4 h.HostPid ++ putUint 4 h.Tid) ++ (putUint 4 h.Pid ++ (putUint 4 h.Uid ++ (h.Comm ++ (putUint 4 h.Argnum ++ (h.Padding ++ tail))))) := by
      rw [hraw]
      simp only [encodeHeader, List.append_assoc, List.nil_append]
    have l : (([] : List Nat) ++ putUint 4 h.SampleSize ++ putUint 8 h.Ts ++ putUint 4 h.EventId ++ putUint 4 h.HostTid ++ putUint 4 h.HostPid ++ putUint 4 h.Tid).length = 28 := by
      simp only [List.length_append, length_putUint, List.length_nil, hC]
      try omega
    have m := fieldAt_mid (([] : List Nat) ++ putUint 4 h.SampleSize ++ putUint 8 h.Ts ++ putUint 4 h.EventId ++ putUint 4 h.HostTid ++ putUint 4 h.HostPid ++ putUint 4 h.Tid) (putUint 4 h.Uid ++ (h.Comm ++ (putUint 4 h.Argnum ++ (h.Padding ++ tail)))) 4 h.Pid hP
    rw [← e, l] at m
    exact m
  have f7 : fieldAt raw 32 4 = h.Uid := by
    have e : raw = (([] : List Nat) ++ putUint 4 h.SampleSize ++ putUint 8 h.Ts ++ putUint 4 h.EventId ++ putUint 4 h.HostTid ++ putUint 4 h.HostPid ++ putUint 4 h.Tid ++ putUint 4 h.Pid) ++ (putUint 4 h.Uid ++ (h.Comm ++ (putUint 4 h.Argnum ++ (h.Padding ++ tail)))) := by
      rw [hraw]
      simp only [encodeHeader, List.append_assoc, List.nil_append]
    have l : (([] : List Nat) ++ putUint 4 h.SampleSize ++ putUint 8 h.Ts ++ putUint 4 h.EventId ++ putUint 4 h.HostTid ++ putUint 4 h.HostPid ++ putUint 4 h.Tid ++ putUint 4 h.Pid).length = 32 := by
      simp only [List.length_append, length_putUint, List.length_nil, hC]
      try omega
    have m := fieldAt_mid (([] : List Nat) ++ putUint 4 h.SampleSize ++ putUint 8 h.Ts ++ putUint 4 h.EventId ++ putUint 4 h.HostTid ++ putUint 4 h.HostPid ++ putUint 4 h.Tid ++ putUint 4 h.Pid) (h.Comm ++ (putUint 4 h.Argnum ++ (h.Padding ++ tail))) 4 h.Uid hU
    rw [← e, l] at m
    exact m
  have f8 : bytesAt raw 36 env.CommLen = h.Comm := by
    have e : raw = (([] : List Nat) ++ putUint 4 h.SampleSize ++ putUint 8 h.Ts ++ putUint 4 h.EventId ++ putUint 4 h.HostTid ++ putUint 4 h.HostPid ++ putUint 4 h.Tid ++ putUint 4 h.Pid ++ putUint 4 h.Uid) ++ (h.Comm ++ (putUint 4 h.Argnum ++ (h.Padding ++ tail))) := by
      rw [hraw]
      simp only [encodeHeader, List.append_assoc, List.nil_append]
    have l : (([] : List Nat) ++ putUint 4 h.SampleSize ++ putUint 8 h.Ts ++ putUint 4 h.EventId ++ putUint 4 h.HostTid ++ putUint 4 h.HostPid ++ putUint 4 h.Tid ++ putUint 4 h.Pid ++ putUint 4 h.Uid).length = 36 := by
      simp only [List.length_append, length_putUint, List.length_nil, hC]
      try omega
    have m := bytesAt_mid (([] : List Nat) ++ putUint 4 h.SampleSize ++ putUint 8 h.Ts ++ putUint 4 h.EventId ++ putUint 4 h.HostTid ++ putUint 4 h.HostPid ++ putUint 4 h.Tid ++ putUint 4 h.Pid ++ putUint 4 h.Uid) (h.Comm) (putUint 4 h.Argnum ++ (h.Padding ++ tail))
    rw [← e, l, hC] at m
    exact m
  have f9 : fieldAt raw (36 + env.CommLen) 4 = h.Argnum := by
    have e : raw = (([] : List Nat) ++ putUint 4 h.SampleSize ++ putUint 8 h.Ts ++ putUint 4 h.EventId ++ putUint 4 h.HostTid ++ putUint 4 h.HostPid ++ putUint 4 h.Tid ++ putUint 4 h.Pid ++ putUint 4 h.Uid ++ h.Comm) ++ (putUint 4 h.Argnum ++ (h.Padding ++ tail)) := by
      rw [hraw]
      simp only [encodeHeader, List.append_assoc, List.nil_append]
    have l : (([] : List Nat) ++ putUint 4 h.SampleSize ++ putUint 8 h.Ts ++ putUint 4 h.EventId ++ putUint 4 h.HostTid ++ putUint 4 h.HostPid ++ putUint 4 h.Tid ++ putUint 4 h.Pid ++ putUint 4 h.Uid ++ h.Comm).length = (36 + env.CommLen) := by
      simp only [List.length_append, length_putUint, List.length_nil, hC]
      try omega
    have m := fieldAt_mid (([] : List Nat) ++ putUint 4 h.SampleSize ++ putUint 8 h.Ts ++ putUint 4 h.EventId ++ putUint 4 h.HostTid ++ putUint 4 h.HostPid ++ putUint 4 h.Tid ++ putUint 4 h.Pid ++ putUint 4 h.Uid ++ h.Comm) (h.Padding ++ tail) 4 h.Argnum hA
    rw [← e, l] at m
    exact m
  have f10 : bytesAt raw (40 + env.CommLen) env.PaddingLen = h.Padding := by
    have e : raw = (([] : List Nat) ++ putUint 4 h.SampleSize ++ putUint 8 h.Ts ++ putUint 4 h.EventId ++ putUint 4 h.HostTid ++ putUint 4 h.HostPid ++ putUint 4 h.Tid ++ putUint 4 h.Pid ++ putUint 4 h.Uid ++ h.Comm ++ putUint 4 h.Argnum) ++ (h.Padding ++ tail) := by
      rw [hraw]
      simp only [encodeHeader, List.append_assoc, List.nil_append]
    have l : (([] : List Nat) ++ putUint 4 h.SampleSize ++ putUint 8 h.Ts ++ putUint 4 h.EventId ++ putUint 4 h.HostTid ++ putUint 4 h.HostPid ++ putUint 4 h.Tid ++ putUint 4 h.Pid ++ putUint 4 h.Uid ++ h.Comm ++ putUint 4 h.Argnum).length = (40 + env.CommLen) := by
      simp only [List.length_append, length_putUint, List.length_nil, hC]
      try omega
    have m := bytesAt_mid (([] : List Nat) ++ putUint 4 h.SampleSize ++ putUint 8 h.Ts ++ putUint 4 h.EventId ++ putUint 4 h.HostTid ++ putUint 4 h.HostPid ++ putUint 4 h.Tid ++ putUint 4 h.Pid ++ putUint 4 h.Uid ++ h.Comm ++ putUint 4 h.Argnum) (h.Padding) tail
    rw [← e, l, hPad] at m
    exact m
  exact ⟨f0, f1, f2, f3, f4, f5, f6, f7, f8, f9, f10⟩

end event

/-! ## The decoder: payloads written by the encoders -/

namespace event

theorem RegsBuf_decode_encode (r0 r : RegsBuf) (A rest : List Nat) (sp : Nat) (hr : r.valid) :
    r0.ParseContext ⟨A ++ (encodeRegsBuf r ++ rest), A.length, sp⟩ =
      (none, r, ⟨A ++ (encodeRegsBuf r ++ rest), A.length + 272, sp⟩) := by
  obtain ⟨hAbi, hlen, hregs⟩ := hr
  have hlenE : (encodeRegs r.Regs).length = 264 := by rw [length_encodeRegs, hlen]
  rw [RegsBuf_ParseContext_ok r0 _ A.length sp
    (by simp only [encodeRegsBuf, List.length_append, length_putUint, hlenE]; omega)]
  have e1 : fieldAt (A ++ (encodeRegsBuf r ++ rest)) A.length 8 = r.Abi := by
    have m := fieldAt_mid A (encodeRegs r.Regs ++ rest) 8 r.Abi hAbi
    simpa only [encodeRegsBuf, List.append_assoc] using m
  have e2 : bytesAt (A ++ (encodeRegsBuf r ++ rest)) (A.length + 8) 264 = encodeRegs r.Regs := by
    have m := bytesAt_mid (A ++ putUint 8 r.Abi) (encodeRegs r.Regs) rest
    simp only [List.length_append, length_putUint, hlenE, List.append_assoc] at m
    simpa only [encodeRegsBuf, List.append_assoc] using m
  have e3 : leUint64s 33 (encodeRegs r.Regs) = r.Regs := by
    have m := leUint64s_encodeRegs r.Regs [] hregs
    rwa [List.append_nil, hlen] at m
  rw [e1, e2, e3]

theorem UnwindBuf_decode_encode (env : Env) (u0 u : UnwindBuf) (A rest : List Nat) (sp : Nat)
    (hu : u.valid) (hm : u.StackSize ≤ env.MakeLimit) :
    u0.ParseContext env ⟨A ++ (encodeUnwindBuf u ++ rest), A.length, sp⟩ =
      (none, u, ⟨A ++ (encodeUnwindBuf u ++ rest), A.length + 280 + u.StackSize + 8, sp⟩) := by
  obtain ⟨hAbi, hlen, hregs, hSS, hData, hDyn⟩ := hu
  have hlenE : (encodeRegs u.Regs).length = 264 := by rw [length_encodeRegs, hlen]
  have e1 : fieldAt (A ++ (encodeUnwindBuf u ++ rest)) A.length 8 = u.Abi := by
    have m := fieldAt_mid A (encodeRegs u.Regs ++ (putUint 8 u.StackSize ++ (u.Data ++
      (putUint 8 u.DynSize ++ rest)))) 8 u.Abi hAbi
    simpa only [encodeUnwindBuf, List.append_assoc] using m
  have e2 : bytesAt (A ++ (encodeUnwindBuf u ++ rest)) (A.length + 8) 264 =
      encodeRegs u.Regs := by
    have m := bytesAt_mid (A ++ putUint 8 u.Abi) (encodeRegs u.Regs)
      (putUint 8 u.StackSize ++ (u.Data ++ (putUint 8 u.DynSize ++ rest)))
    simp only [List.length_append, length_putUint, hlenE, List.append_assoc] at m
    simpa only [encodeUnwindBuf, List.append_assoc] using m
  have e3 : leUint64s 33 (encodeRegs u.Regs) = u.Regs := by
    have m := leUint64s_encodeRegs u.Regs [] hregs
    rwa [List.append_nil, hlen] at m
  have e4 : fieldAt (A ++ (encodeUnwindBuf u ++ rest)) (A.length + 272) 8 = u.StackSize := by
    have m := fieldAt_mid (A ++ putUint 8 u.Abi ++ encodeRegs u.Regs)
      (u.Data ++ (putUint 8 u.DynSize ++ rest)) 8 u.StackSize hSS
    simp only [List.length_append, length_putUint, hlenE, List.append_assoc] at m
    have a : A.length + (8 + 264) = A.length + 272 := by omega
    rw [a] at m
    simpa only [encodeUnwindBuf, List.append_assoc] using m
  have e5 : bytesAt (A ++ (encodeUnwindBuf u ++ rest)) (A.length + 280) u.StackSize =
      u.Data := by
    have m := bytesAt_mid (A ++ putUint 8 u.Abi ++ encodeRegs u.Regs ++ putUint 8 u.StackSize)
      u.Data (putUint 8 u.DynSize ++ rest)
    simp only [List.length_append, length_putUint, hlenE, List.append_assoc, hData] at m
    have a : A.length + (8 + (264 + 8)) = A.length + 280 := by omega
    rw [a] at m
    simpa only [encodeUnwindBuf, List.append_assoc] using m
  have e6 : fieldAt (A ++ (encodeUnwindBuf u ++ rest)) (A.length + 280 + u.StackSize) 8 =
      u.DynSize := by
    have m := fieldAt_mid
      (A ++ putUint 8 u.Abi ++ encodeRegs u.Regs ++ putUint 8 u.StackSize ++ u.Data)
      rest 8 u.DynSize hDyn
    simp only [List.length_append, length_putUint, hlenE, List.append_assoc, hData] at m
    have a : A.length + (8 + (264 + (8 + u.StackSize))) = A.length + 280 + u.StackSize := by
      omega
    rw [a] at m
    simpa only [encodeUnwindBuf, List.append_assoc] using m
  rw [UnwindBuf_ParseContext_ok env u0 _ A.length sp
    (by simp only [encodeUnwindBuf, List.length_append, length_putUint, hlenE]; omega)
    (by rw [e4]; exact hm)
    (by rw [e4]
        simp only [encodeUnwindBuf, List.length_append, length_putUint, hlenE, hData]
        omega)]
  rw [e1, e2, e3, e4, e5, e6]

theorem decodedHeader_header (env : Env) (this : ContextEvent) (h : Header) (tail : List Nat)
    (hh : h.valid env) (hraw : this.record.RawSample = encodeHeader h ++ tail) :
    (decodedHeader env this).header = h := by
  obtain ⟨f0, f1, f2, f3, f4, f5, f6, f7, f8, f9, f10⟩ :=
    decode_encodeHeader env h tail this.record.RawSample hh hraw
  simp only [decodedHeader, ContextEvent.header, f0, f1, f2, f3, f4, f5, f6, f7, f8, f9, f10]

end event
namespace event

/-- C4 (amended): when the `BrkKernel` flag is not set, for every header and every payload
(a `RegsBuf`, or an `UnwindBuf` with `len(Data) = StackSize` whose `StackSize` bytes `make`
allocates) whose fields are values of their types, decoding the little-endian encoding in
wire order with `ContextEvent.ParseContext` and then `RegsBuf.ParseContext` or
`UnwindBuf.ParseContext` returns no error and yields every field as it was encoded, for
every capacity of the raw sample. -/
theorem decode_encode_roundtrip (env : Env) (this : ContextEvent) (w : List Effect)
    (h : Header) (r r0 : RegsBuf) (u u0 : UnwindBuf) (rest : List Nat)
    (hbrk : this.mconf.BrkKernel = false) (hh : h.valid env) :
    (r.valid → this.record.RawSample = encodeHeader h ++ (encodeRegsBuf r ++ rest) →
      ∃ this1 w1 b1 b2, this.ParseContext env w = (none, this1, w1) ∧ this1.header = h ∧
        this1.buf = some b1 ∧ r0.ParseContext b1 = (none, r, b2)) ∧
    (u.valid → u.StackSize ≤ env.MakeLimit →
      this.record.RawSample = encodeHeader h ++ (encodeUnwindBuf u ++ rest) →
      ∃ this1 w1 b1 b2, this.ParseContext env w = (none, this1, w1) ∧ this1.header = h ∧
        this1.buf = some b1 ∧ u0.ParseContext env b1 = (none, u, b2)) := by
  have hH := length_encodeHeader env h hh
  constructor
  · intro hr hraw
    have hlen : headerSize env ≤ this.record.RawSample.length := by
      rw [hraw, List.length_append, hH]
      omega
    have m := RegsBuf_decode_encode r0 r (encodeHeader h) rest this.record.RawSpare hr
    rw [hH, ← hraw] at m
    exact ⟨decodedHeader env this, _,
      ⟨this.record.RawSample, headerSize env, this.record.RawSpare⟩, _,
      ParseContext_ok env this w hbrk hlen, decodedHeader_header env this h _ hh hraw, rfl, m⟩
  · intro hu hm hraw
    have hlen : headerSize env ≤ this.record.RawSample.length := by
      rw [hraw, List.length_append, hH]
      omega
    have m := UnwindBuf_decode_encode env u0 u (encodeHeader h) rest this.record.RawSpare
      hu hm
    rw [hH, ← hraw] at m
    exact ⟨decodedHeader env this, _,
      ⟨this.record.RawSample, headerSize env, this.record.RawSpare⟩, _,
      ParseContext_ok env this w hbrk hlen, decodedHeader_header env this h _ hh hraw, rfl, m⟩

theorem exampleHeader_valid : exampleHeader.valid exampleEnv := by
  simp [Header.valid, exampleHeader, exampleEnv]

theorem exampleRegs_valid : exampleRegs.valid := by
  refine ⟨by decide, by decide, ?_⟩
  decide

theorem exampleUnwind_valid : exampleUnwind.valid := by
  refine ⟨by decide, by decide, ?_, by decide, by decide, by decide⟩
  decide

/-- Witness of C4: the example header followed by the example unwind buffer, in a raw
sample with two bytes of spare capacity. -/
theorem decode_encode_roundtrip_witness :
    ∃ this1 w1 b1 b2,
      (newEvent (exampleConf false)
        (spareRecord (encodeHeader exampleHeader ++ (encodeUnwindBuf exampleUnwind ++ [])) 2
          ⟨true, false⟩)).ParseContext exampleEnv [] = (none, this1, w1) ∧
      this1.header = exampleHeader ∧ this1.buf = some b1 ∧
      UnwindBuf.zero.ParseContext exampleEnv b1 = (none, exampleUnwind, b2) :=
  (decode_encode_roundtrip exampleEnv _ [] exampleHeader exampleRegs RegsBuf.zero
    exampleUnwind UnwindBuf.zero [] rfl exampleHeader_valid).2 exampleUnwind_valid
    (by decide) rfl

/-- Counterexample to C4 as stated: with `BrkKernel` set, `ParseContext` returns no error on
the encoded example header and leaves every field of the event at its old value. -/
theorem roundtrip_counterexample :
    exampleHeader.valid exampleEnv ∧
    ((newEvent (exampleConf true) (sampleRecord (encodeHeader exampleHeader) ⟨false, false⟩)).ParseContext
      exampleEnv []).1 = none ∧
    ((newEvent (exampleConf true) (sampleRecord (encodeHeader exampleHeader) ⟨false, false⟩)).ParseContext
      exampleEnv []).2.1.header ≠ exampleHeader ∧
    ((newEvent (exampleConf true) (sampleRecord (encodeHeader exampleHeader) ⟨false, false⟩)).ParseContext
      exampleEnv []).2.1.Ts = 0 :=
  ⟨exampleHeader_valid, by decide, by decide, by decide⟩

end event
namespace event

theorem ParseContext_none_inv (env : Env) (this : ContextEvent) (w : List Effect)
    (hbrk : this.mconf.BrkKernel = false) (h : (this.ParseContext env w).1 = none) :
    headerSize env ≤ this.record.RawSample.length := by
  by_contra hlt
  obtain ⟨e, he⟩ := ParseContext_short env this w hbrk (by omega)
  rw [he] at h
  exact absurd h (by simp)

theorem UnwindBuf_ParseContext_none_inv (env : Env) (this : UnwindBuf) (raw : List Nat)
    (off sp : Nat) (h : (this.ParseContext env ⟨raw, off, sp⟩).1 = none) :
    off + 280 ≤ raw.length ∧ fieldAt raw (off + 272) 8 ≤ env.MakeLimit ∧
      off + 280 + fieldAt raw (off + 272) 8 + 8 ≤ raw.length := by
  by_cases h1 : off + 280 ≤ raw.length
  swap
  · obtain ⟨e, he⟩ := UnwindBuf_ParseContext_short env this raw off sp (Or.inl (by omega))
    rw [he] at h
    exact absurd h (by simp)
  by_cases hm : fieldAt raw (off + 272) 8 ≤ env.MakeLimit
  swap
  · rw [UnwindBuf_ParseContext_makeslice env this raw off sp h1 (by omega)] at h
    exact absurd h (by simp)
  by_cases h2 : off + 280 + fieldAt raw (off + 272) 8 + 8 ≤ raw.length
  · exact ⟨h1, hm, h2⟩
  · obtain ⟨e, he⟩ := UnwindBuf_ParseContext_short env this raw off sp
      (Or.inr ⟨hm, by omega⟩)
    rw [he] at h
    exact absurd h (by simp)

theorem RegsBuf_ParseContext_none_inv (this : RegsBuf) (raw : List Nat) (off sp : Nat)
    (h : (this.ParseContext ⟨raw, off, sp⟩).1 = none) : off + 272 ≤ raw.length := by
  by_contra hlt
  obtain ⟨e, he⟩ := RegsBuf_ParseContext_short this raw off sp (by omega)
  rw [he] at h
  exact absurd h (by simp)

/-- C6 (amended): for every byte cursor, when `UnwindBuf.ParseContext` returns no error
the declared `StackSize` bytes and the 8-byte `DynSize` were all available,
`len(Data) = StackSize` and `Data` is the `StackSize` bytes that follow the `StackSize`
field; when the declared `StackSize` exceeds the bytes that remain after it, the decode
never succeeds: it returns an error if `make([]byte, StackSize)` returns, and otherwise it
stops in `make`, returning nothing, with the cursor right after the `StackSize` field and
`Data` not assigned. -/
theorem UnwindBuf_ParseContext_exact (env : Env) (this : UnwindBuf) (buf : Buffer) :
    (∀ u b, this.ParseContext env buf = (none, u, b) →
      buf.off + 280 + u.StackSize + 8 ≤ buf.buf.length ∧
      u.StackSize = fieldAt buf.buf (buf.off + 272) 8 ∧
      u.StackSize ≤ env.MakeLimit ∧
      u.Data.length = u.StackSize ∧
      u.Data = (buf.buf.drop (buf.off + 280)).take u.StackSize ∧
      b = ⟨buf.buf, buf.off + 280 + u.StackSize + 8, buf.spare⟩) ∧
    (buf.off + 280 ≤ buf.buf.length →
      buf.buf.length - (buf.off + 280) < fieldAt buf.buf (buf.off + 272) 8 →
      (this.ParseContext env buf).1 ≠ none ∧
      (fieldAt buf.buf (buf.off + 272) 8 ≤ env.MakeLimit →
        ∃ e, (this.ParseContext env buf).1 = some (.returned e)) ∧
      (env.MakeLimit < fieldAt buf.buf (buf.off + 272) 8 →
        (this.ParseContext env buf).1 = some .makeslice ∧
        (this.ParseContext env buf).2.1.Data = this.Data ∧
        (this.ParseContext env buf).2.2 = ⟨buf.buf, buf.off + 280, buf.spare⟩)) := by
  obtain ⟨raw, off, sp⟩ := buf
  constructor
  · intro u b h
    have hn : (this.ParseContext env ⟨raw, off, sp⟩).1 = none := by rw [h]
    obtain ⟨h1, hm, h2⟩ := UnwindBuf_ParseContext_none_inv env this raw off sp hn
    rw [UnwindBuf_ParseContext_ok env this raw off sp h1 hm h2] at h
    simp only [Prod.mk.injEq, true_and] at h
    obtain ⟨hu, hb⟩ := h
    subst hu
    subst hb
    simp only [bytesAt, List.length_take, List.length_drop, and_true, true_and]
    omega
  · intro h1 h2
    dsimp only at h1 h2
    have hret : fieldAt raw (off + 272) 8 ≤ env.MakeLimit →
        ∃ e, (this.ParseContext env ⟨raw, off, sp⟩).1 = some (.returned e) := fun hm =>
      UnwindBuf_ParseContext_short env this raw off sp (Or.inr ⟨hm, by omega⟩)
    have hstop : env.MakeLimit < fieldAt raw (off + 272) 8 →
        (this.ParseContext env ⟨raw, off, sp⟩).1 = some .makeslice ∧
        (this.ParseContext env ⟨raw, off, sp⟩).2.1.Data = this.Data ∧
        (this.ParseContext env ⟨raw, off, sp⟩).2.2 = ⟨raw, off + 280, sp⟩ := fun hm => by
      rw [UnwindBuf_ParseContext_makeslice env this raw off sp h1 hm]
      exact ⟨rfl, rfl, rfl⟩
    refine ⟨?_, hret, hstop⟩
    by_cases hm : fieldAt raw (off + 272) 8 ≤ env.MakeLimit
    · obtain ⟨e, he⟩ := hret hm
      rw [he]
      exact Option.some_ne_none _
    · rw [(hstop (by omega)).1]
      exact Option.some_ne_none _

set_option maxRecDepth 8000 in
/-- Witness of C6: a cursor that declares a stack of 48 bytes and holds 4 of them gets an
error back, the encoded example buffer decodes with `len(Data) = StackSize = 4`, and a
cursor that declares `2^64 - 1` bytes stops in `make` with the cursor after the
`StackSize` field. -/
theorem UnwindBuf_ParseContext_exact_witness :
    (∃ e, (UnwindBuf.zero.ParseContext exampleEnv (overdeclaredCursor 48)).1 =
        some (.returned e)) ∧
    exampleUnwind.Data.length = exampleUnwind.StackSize ∧
    (UnwindBuf.zero.ParseContext exampleEnv (overdeclaredCursor (2 ^ 64 - 1))).2.2 =
      ⟨(overdeclaredCursor (2 ^ 64 - 1)).buf, 280, 0⟩ :=
  ⟨((UnwindBuf_ParseContext_exact exampleEnv UnwindBuf.zero (overdeclaredCursor 48)).2
      (by decide) (by decide)).2.1 (by decide),
    ((UnwindBuf_ParseContext_exact exampleEnv UnwindBuf.zero
      ⟨encodeUnwindBuf exampleUnwind, 0, 0⟩).1
      exampleUnwind ⟨encodeUnwindBuf exampleUnwind, 292, 0⟩ (by decide)).2.2.2.1,
    (((UnwindBuf_ParseContext_exact exampleEnv UnwindBuf.zero
      (overdeclaredCursor (2 ^ 64 - 1))).2 (by decide) (by decide)).2.2 (by decide)).2.2⟩

set_option maxRecDepth 8000 in
/-- Counterexample to C6 as stated: a cursor that holds `Abi`, the 33 registers and a
`StackSize` field of `2^64 - 1` followed by four bytes declares more stack bytes than
remain, yet no error is returned: the decode stops in `make([]byte, StackSize)`, before
the read, and the four bytes stay unread. -/
theorem UnwindBuf_ParseContext_makeslice_counterexample :
    (overdeclaredCursor (2 ^ 64 - 1)).off + 280 ≤ (overdeclaredCursor (2 ^ 64 - 1)).buf.length ∧
    (overdeclaredCursor (2 ^ 64 - 1)).buf.length - ((overdeclaredCursor (2 ^ 64 - 1)).off + 280) <
      fieldAt (overdeclaredCursor (2 ^ 64 - 1)).buf
        ((overdeclaredCursor (2 ^ 64 - 1)).off + 272) 8 ∧
    (∀ e, (UnwindBuf.zero.ParseContext exampleEnv (overdeclaredCursor (2 ^ 64 - 1))).1 ≠
      some (.returned e)) ∧
    (UnwindBuf.zero.ParseContext exampleEnv (overdeclaredCursor (2 ^ 64 - 1))).1 =
      some .makeslice ∧
    (UnwindBuf.zero.ParseContext exampleEnv (overdeclaredCursor (2 ^ 64 - 1))).2.2.Len = 4 := by
  have h : UnwindBuf.zero.ParseContext exampleEnv (overdeclaredCursor (2 ^ 64 - 1)) =
      (some .makeslice,
        ⟨1, exampleRegs.Regs, 2 ^ 64 - 1, [], 0⟩,
        ⟨(overdeclaredCursor (2 ^ 64 - 1)).buf, 280, 0⟩) := by
    decide
  rw [h]
  refine ⟨by decide, by decide, ?_, rfl, by decide⟩
  intro e he
  simp at he

end event
namespace event

/-- C7 (amended): when the `BrkKernel` flag is not set, `ContextEvent.ParseContext` returns
an error for every raw sample shorter than the fixed header
(`4 + 8 + 4 + 5*4 + len(Comm) + 4 + len(Padding)` bytes), and for every raw sample at least
that long it returns no error and has consumed exactly that many bytes. -/
theorem ParseContext_header_length (env : Env) (this : ContextEvent) (w : List Effect)
    (hbrk : this.mconf.BrkKernel = false) :
    (this.record.RawSample.length < 4 + 8 + 4 + 5 * 4 + env.CommLen + 4 + env.PaddingLen →
      ∃ e, (this.ParseContext env w).1 = some e) ∧
    (4 + 8 + 4 + 5 * 4 + env.CommLen + 4 + env.PaddingLen ≤ this.record.RawSample.length →
      (this.ParseContext env w).1 = none ∧
      (this.ParseContext env w).2.1.buf =
        some ⟨this.record.RawSample, 4 + 8 + 4 + 5 * 4 + env.CommLen + 4 + env.PaddingLen,
          this.record.RawSpare⟩) := by
  constructor
  · intro h
    exact ParseContext_short env this w hbrk h
  · intro h
    rw [ParseContext_ok env this w hbrk h]
    exact ⟨rfl, rfl⟩

/-- Witness of C7: the sixty bytes of the encoded example header decode and are all
consumed; cut to thirty bytes they give an error. -/
theorem ParseContext_header_length_witness :
    (∃ e, ((newEvent (exampleConf false)
      (sampleRecord ((encodeHeader exampleHeader).take 30) ⟨false, false⟩)).ParseContext
        exampleEnv []).1 = some e) ∧
    ((newEvent (exampleConf false)
      (sampleRecord (encodeHeader exampleHeader) ⟨false, false⟩)).ParseContext
        exampleEnv []).2.1.buf = some ⟨encodeHeader exampleHeader, 60, 0⟩ :=
  ⟨(ParseContext_header_length exampleEnv
      (newEvent (exampleConf false)
        (sampleRecord ((encodeHeader exampleHeader).take 30) ⟨false, false⟩)) [] rfl).1
      (by decide),
    ((ParseContext_header_length exampleEnv
      (newEvent (exampleConf false)
        (sampleRecord (encodeHeader exampleHeader) ⟨false, false⟩)) [] rfl).2
      (by decide)).2⟩

/-- Counterexample to C7 as stated: with `BrkKernel` set, `ParseContext` returns no error
on the empty sample, which is shorter than the header. -/
theorem ParseContext_short_counterexample :
    ([] : List Nat).length < 4 + 8 + 4 + 5 * 4 + exampleEnv.CommLen + 4 + exampleEnv.PaddingLen ∧
    ((newEvent (exampleConf true) (sampleRecord [] ⟨false, false⟩)).ParseContext
      exampleEnv []).1 = none :=
  ⟨by decide, by decide⟩

theorem padding_size_arith (S c : Nat) (hS : S < 2 ^ 32) (hc : c ≤ S + 4) (h4 : 4 ≤ c) :
    padding_size S c = S + 4 - c := by
  unfold padding_size
  omega

theorem ParsePadding_read (env : Env) (this : ContextEvent) (w : List Effect) (b : Buffer)
    (hbuf : this.buf = some b)
    (hpos : 0 < padding_size this.record.SampleSize (b.Cap - b.Len))
    (hm : padding_size this.record.SampleSize (b.Cap - b.Len) ≤ env.MakeLimit)
    (hle : padding_size this.record.SampleSize (b.Cap - b.Len) ≤ b.Len) :
    this.ParsePadding env w =
      (none, { this with buf := some { b with
        off := b.off + padding_size this.record.SampleSize (b.Cap - b.Len) } }, w) := by
  unfold ContextEvent.ParsePadding
  simp only [hbuf, gt_iff_lt, hpos, if_true]
  rw [if_neg (by omega)]
  unfold Buffer.ReadFull
  rw [if_neg (by omega), if_neg (by omega), if_neg (by omega)]

theorem ParsePadding_zero (env : Env) (this : ContextEvent) (w : List Effect) (b : Buffer)
    (hbuf : this.buf = some b)
    (h0 : padding_size this.record.SampleSize (b.Cap - b.Len) = 0) :
    this.ParsePadding env w = (none, this, w) := by
  unfold ContextEvent.ParsePadding
  simp only [hbuf, h0, gt_iff_lt, Nat.lt_irrefl, if_false]

theorem ParsePadding_short (env : Env) (this : ContextEvent) (w : List Effect) (b : Buffer)
    (hbuf : this.buf = some b)
    (hpos : 0 < padding_size this.record.SampleSize (b.Cap - b.Len))
    (hm : padding_size this.record.SampleSize (b.Cap - b.Len) ≤ env.MakeLimit)
    (hlt : b.Len < padding_size this.record.SampleSize (b.Cap - b.Len)) :
    ∃ err, (this.ParsePadding env w).1 = some (Panic.padding err) := by
  unfold ContextEvent.ParsePadding
  simp only [hbuf, gt_iff_lt, hpos, if_true]
  rw [if_neg (by omega)]
  unfold Buffer.ReadFull
  rw [if_neg (by omega)]
  by_cases h0 : b.Len = 0
  · rw [if_pos h0]
    exact ⟨_, rfl⟩
  · rw [if_neg h0, if_pos hlt]
    exact ⟨_, rfl⟩

theorem ParsePadding_makeslice (env : Env) (this : ContextEvent) (w : List Effect) (b : Buffer)
    (hbuf : this.buf = some b)
    (hm : env.MakeLimit < padding_size this.record.SampleSize (b.Cap - b.Len)) :
    this.ParsePadding env w = (some .makeslice, this, w) := by
  unfold ContextEvent.ParsePadding
  have hpos : 0 < padding_size this.record.SampleSize (b.Cap - b.Len) := by omega
  simp only [hbuf, gt_iff_lt, hpos, if_true]
  rw [if_pos hm]

/-- What `Cap() - Len()` is: the bytes consumed so far plus the spare capacity of the
slice. -/
theorem Cap_sub_Len (b : Buffer) (hoff : b.off ≤ b.buf.length) :
    b.Cap - b.Len = b.off + b.spare := by
  unfold Buffer.Cap Buffer.Len
  omega

/-- C8 (what the code does): `ParsePadding` computes
`pad = SampleSize + 4 - (Cap() - Len())` in `uint32`, and `Cap() - Len()` is the bytes
consumed so far plus the spare capacity of the raw sample, so `pad` is
`SampleSize + 4 - bytesConsumedSoFar` for a slice at full capacity and smaller by the
spare capacity otherwise. With this `pad`: when `pad > 0`, `make` returns the pad bytes
and at least `pad` bytes remain, exactly `pad` bytes are consumed and the later bytes stay
unread; when `pad = 0` nothing is consumed; when `pad > 0` and fewer than `pad` bytes
remain it panics instead of returning; when `make` does not return, nothing is consumed
and `ParsePadding` does not return. -/
theorem ParsePadding_spec (env : Env) (this : ContextEvent) (w : List Effect) (b : Buffer)
    (hbuf : this.buf = some b) (hoff : b.off ≤ b.buf.length) :
    b.Cap - b.Len = b.off + b.spare ∧
    (0 < padding_size this.record.SampleSize (b.Cap - b.Len) →
      padding_size this.record.SampleSize (b.Cap - b.Len) ≤ env.MakeLimit →
      padding_size this.record.SampleSize (b.Cap - b.Len) ≤ b.Len →
      this.ParsePadding env w =
        (none, { this with buf := some { b with
          off := b.off + padding_size this.record.SampleSize (b.Cap - b.Len) } }, w) ∧
      (b.buf.drop (b.off + padding_size this.record.SampleSize (b.Cap - b.Len))) =
        b.unread.drop (padding_size this.record.SampleSize (b.Cap - b.Len))) ∧
    (padding_size this.record.SampleSize (b.Cap - b.Len) = 0 →
      this.ParsePadding env w = (none, this, w)) ∧
    (0 < padding_size this.record.SampleSize (b.Cap - b.Len) →
      padding_size this.record.SampleSize (b.Cap - b.Len) ≤ env.MakeLimit →
      b.Len < padding_size this.record.SampleSize (b.Cap - b.Len) →
      ∃ err, (this.ParsePadding env w).1 = some (Panic.padding err)) ∧
    (env.MakeLimit < padding_size this.record.SampleSize (b.Cap - b.Len) →
      this.ParsePadding env w = (some Panic.makeslice, this, w)) ∧
    (this.record.SampleSize < 2 ^ 32 → 4 ≤ b.off + b.spare →
      b.off + b.spare ≤ this.record.SampleSize + 4 →
      padding_size this.record.SampleSize (b.Cap - b.Len) =
        this.record.SampleSize + 4 - b.off - b.spare) := by
  refine ⟨Cap_sub_Len b hoff, ?_, ?_, ?_, ?_, ?_⟩
  · intro hpos hm hle
    refine ⟨ParsePadding_read env this w b hbuf hpos hm hle, ?_⟩
    unfold Buffer.unread
    rw [List.drop_drop, Nat.add_comm]
  · exact ParsePadding_zero env this w b hbuf
  · exact ParsePadding_short env this w b hbuf
  · exact ParsePadding_makeslice env this w b hbuf
  · intro hS h4 hc
    rw [Cap_sub_Len b hoff, padding_size_arith _ _ hS hc h4]
    omega

/-- Witness of C8: the sixty bytes of a header that declares `SampleSize = 60` and four
more bytes, in a slice of capacity 66. After the header `Cap() - Len()` is 62, two bytes
are consumed and the cursor stands at 62, two bytes before the end of the sample. -/
theorem ParsePadding_spec_witness :
    ∃ this1, spareCapEvent.ParsePadding exampleEnv [] = (none, this1, []) ∧
      this1.buf = some ⟨examplePadSample, 62, 2⟩ :=
  ⟨_, ((ParsePadding_spec exampleEnv spareCapEvent [] ⟨examplePadSample, 60, 2⟩ (by decide)
    (by decide)).2.1 (by decide) (by decide) (by decide)).1, by decide⟩

end event
namespace event

theorem ParseContextStack_buf (env : Env) (this this2 : ContextEvent) (w w2 : List Effect)
    (raw : List Nat) (off sp : Nat) (hbuf : this.buf = some ⟨raw, off, sp⟩)
    (hoff : off ≤ raw.length)
    (h : this.ParseContextStack env w = (none, this2, w2)) :
    ∃ off2, this2.buf = some ⟨raw, off2, sp⟩ ∧ off ≤ off2 ∧ off2 ≤ raw.length ∧
      this2.record = this.record := by
  unfold ContextEvent.ParseContextStack at h
  simp only [hbuf] at h
  by_cases hU : this.record.ExtraOptions.UnwindStack = true
  · simp only [hU, if_true] at h
    rcases hp : UnwindBuf.zero.ParseContext env ⟨raw, off, sp⟩ with ⟨e, u, b⟩
    rw [hp] at h
    cases e with
    | some f => cases f <;> simp at h
    | none =>
      have hn : (UnwindBuf.zero.ParseContext env ⟨raw, off, sp⟩).1 = none := by rw [hp]
      obtain ⟨h1, hm, h2⟩ := UnwindBuf_ParseContext_none_inv env _ raw off sp hn
      rw [UnwindBuf_ParseContext_ok env _ raw off sp h1 hm h2] at hp
      simp only [Prod.mk.injEq, true_and] at hp
      obtain ⟨_, hb⟩ := hp
      subst hb
      simp only at h
      refine ⟨off + 280 + fieldAt raw (off + 272) 8 + 8, ?_, by omega, h2, ?_⟩
      · split at h
        · simp only [Prod.mk.injEq, true_and] at h
          rw [← h.1]
        · split at h
          · simp only [Prod.mk.injEq, true_and] at h
            rw [← h.1]
          · simp only [Prod.mk.injEq, true_and] at h
            rw [← h.1]
      · split at h
        · simp only [Prod.mk.injEq, true_and] at h
          rw [← h.1]
        · split at h
          · simp only [Prod.mk.injEq, true_and] at h
            rw [← h.1]
          · simp only [Prod.mk.injEq, true_and] at h
            rw [← h.1]
  · simp only [hU, if_false, Bool.false_eq_true] at h
    by_cases hR : this.record.ExtraOptions.ShowRegs = true
    · simp only [hR, if_true] at h
      rcases hp : this.RegsBuffer.ParseContext ⟨raw, off, sp⟩ with ⟨e, r, b⟩
      rw [hp] at h
      cases e with
      | some err => simp at h
      | none =>
        have hn : (this.RegsBuffer.ParseContext ⟨raw, off, sp⟩).1 = none := by rw [hp]
        have h1 := RegsBuf_ParseContext_none_inv _ raw off sp hn
        rw [RegsBuf_ParseContext_ok _ raw off sp h1] at hp
        simp only [Prod.mk.injEq, true_and] at hp
        obtain ⟨_, hb⟩ := hp
        subst hb
        simp only [Prod.mk.injEq, true_and] at h
        refine ⟨off + 272, ?_, by omega, h1, ?_⟩
        · rw [← h.1]
        · rw [← h.1]
    · simp only [hR, if_false, Bool.false_eq_true, Prod.mk.injEq, true_and] at h
      refine ⟨off, ?_, Nat.le_refl _, hoff, ?_⟩
      · rw [← h.1]
      · rw [← h.1]

end event
namespace event

theorem fieldAt_lt (raw : List Nat) (off n : Nat) : fieldAt raw off n < 2 ^ (8 * n) :=
  Nat.mod_lt _ (Nat.pow_pos (by decide))

/-- C5 (what the code does): for every record on which the header is decoded (`BrkKernel`
not set) and header decode, optional payload decode and `ParsePadding` all return
normally, the bytes consumed from the record plus the spare capacity of the raw sample
are `SampleSize + 4`, provided the capacity is below `2^32` bytes or the bytes consumed
by header and payload plus the spare capacity do not exceed `SampleSize + 4`. The bytes
consumed are therefore `SampleSize + 4` less the spare capacity: `SampleSize + 4` exactly
for a slice at full capacity, and fewer otherwise. -/
theorem consumed_add_spare_eq_SampleSize_add_four (env : Env)
    (this this1 this2 this3 : ContextEvent) (w w1 w2 w3 : List Effect)
    (hbrk : this.mconf.BrkKernel = false)
    (h1 : this.ParseContext env w = (none, this1, w1))
    (h2 : this1.ParseContextStack env w1 = (none, this2, w2))
    (h3 : this2.ParsePadding env w2 = (none, this3, w3))
    (hsmall : this.record.RawSample.length + this.record.RawSpare < 2 ^ 32 ∨
      ∀ b, this2.buf = some b → b.Cap - b.Len ≤ this2.record.SampleSize + 4) :
    ∃ b, this3.buf = some b ∧ b.buf = this.record.RawSample ∧
      b.spare = this.record.RawSpare ∧
      b.off + this.record.RawSpare = this3.record.SampleSize + 4 ∧
      b.off = this3.record.SampleSize + 4 - this.record.RawSpare ∧
      (b.off = this3.record.SampleSize + 4 ↔ this.record.RawSpare = 0) ∧
      this3.record.SampleSize = fieldAt this.record.RawSample 0 4 := by
  have hlen := ParseContext_none_inv env this w hbrk (by rw [h1])
  rw [ParseContext_ok env this w hbrk hlen] at h1
  simp only [Prod.mk.injEq, true_and] at h1
  obtain ⟨ht1, _⟩ := h1
  have hb1 : this1.buf = some ⟨this.record.RawSample, headerSize env, this.record.RawSpare⟩ := by
    rw [← ht1]; rfl
  have hS1 : this1.record.SampleSize = fieldAt this.record.RawSample 0 4 := by rw [← ht1]; rfl
  obtain ⟨c, hb2, hc1, hc2, hrec⟩ :=
    ParseContextStack_buf env this1 this2 w1 w2 _ _ _ hb1 hlen h2
  have hS2 : this2.record.SampleSize = fieldAt this.record.RawSample 0 4 := by rw [hrec, hS1]
  have hS := fieldAt_lt this.record.RawSample 0 4
  have hH : 40 ≤ headerSize env := by unfold headerSize; omega
  have hcap : (Buffer.mk this.record.RawSample c this.record.RawSpare).Cap -
      (Buffer.mk this.record.RawSample c this.record.RawSpare).Len =
      c + this.record.RawSpare := Cap_sub_Len _ hc2
  have hLen : (Buffer.mk this.record.RawSample c this.record.RawSpare).Len =
      this.record.RawSample.length - c := rfl
  have hB : this.record.RawSample.length + this.record.RawSpare < 2 ^ 32 ∨
      c + this.record.RawSpare ≤ this2.record.SampleSize + 4 := by
    rcases hsmall with h | h
    · exact Or.inl h
    · have := h _ hb2
      rw [hcap] at this
      exact Or.inr this
  by_cases hpos : 0 < padding_size this2.record.SampleSize
      ((Buffer.mk this.record.RawSample c this.record.RawSpare).Cap -
        (Buffer.mk this.record.RawSample c this.record.RawSpare).Len)
  · by_cases hm : padding_size this2.record.SampleSize
        ((Buffer.mk this.record.RawSample c this.record.RawSpare).Cap -
          (Buffer.mk this.record.RawSample c this.record.RawSpare).Len) ≤ env.MakeLimit
    swap
    · rw [ParsePadding_makeslice env this2 w2 _ hb2 (by omega)] at h3
      exact absurd h3 (by simp)
    by_cases hle : padding_size this2.record.SampleSize
        ((Buffer.mk this.record.RawSample c this.record.RawSpare).Cap -
          (Buffer.mk this.record.RawSample c this.record.RawSpare).Len) ≤
        (Buffer.mk this.record.RawSample c this.record.RawSpare).Len
    · rw [ParsePadding_read env this2 w2 _ hb2 hpos hm hle] at h3
      simp only [Prod.mk.injEq, true_and] at h3
      obtain ⟨ht3, _⟩ := h3
      rw [hcap] at hpos hle ht3
      rw [hLen] at hle
      have harith : c + padding_size this2.record.SampleSize (c + this.record.RawSpare) +
          this.record.RawSpare = this2.record.SampleSize + 4 := by
        rw [hS2] at hB ⊢
        unfold padding_size at hle hpos ⊢
        omega
      refine ⟨⟨this.record.RawSample,
        c + padding_size this2.record.SampleSize (c + this.record.RawSpare),
        this.record.RawSpare⟩, ?_, rfl, rfl, ?_, ?_, ?_, ?_⟩
      · rw [← ht3]
      · rw [← ht3]
        exact harith
      · rw [← ht3]
        show c + padding_size this2.record.SampleSize (c + this.record.RawSpare) =
          this2.record.SampleSize + 4 - this.record.RawSpare
        omega
      · rw [← ht3]
        show c + padding_size this2.record.SampleSize (c + this.record.RawSpare) =
          this2.record.SampleSize + 4 ↔ this.record.RawSpare = 0
        omega
      · rw [← ht3]
        exact hS2
    · obtain ⟨err, he⟩ := ParsePadding_short env this2 w2 _ hb2 hpos hm (by omega)
      rw [h3] at he
      exact absurd he (by simp)
  · have h0 : padding_size this2.record.SampleSize
        ((Buffer.mk this.record.RawSample c this.record.RawSpare).Cap -
          (Buffer.mk this.record.RawSample c this.record.RawSpare).Len) = 0 := by
      omega
    rw [ParsePadding_zero env this2 w2 _ hb2 h0] at h3
    simp only [Prod.mk.injEq, true_and] at h3
    obtain ⟨ht3, _⟩ := h3
    rw [hcap] at h0
    have harith : c + this.record.RawSpare = this2.record.SampleSize + 4 := by
      rw [hS2] at hB ⊢
      unfold padding_size at h0
      omega
    refine ⟨⟨this.record.RawSample, c, this.record.RawSpare⟩, ?_, rfl, rfl, ?_, ?_, ?_, ?_⟩
    · rw [← ht3]
      exact hb2
    · rw [← ht3]
      exact harith
    · rw [← ht3]
      show c = this2.record.SampleSize + 4 - this.record.RawSpare
      omega
    · rw [← ht3]
      show c = this2.record.SampleSize + 4 ↔ this.record.RawSpare = 0
      omega
    · rw [← ht3]
      exact hS2

/-- Witness of C5: the example header that declares `SampleSize = 60`, no payload and four
more bytes, in a slice of capacity 66: header decode, payload decode and `ParsePadding`
return normally and 62 bytes have been consumed, two fewer than `SampleSize + 4`. -/
theorem consumed_add_spare_eq_SampleSize_add_four_witness :
    ∃ b, ((spareCapEvent.ParseContextStack exampleEnv
        [Effect.UpdatePidList 1]).2.1.ParsePadding exampleEnv
          [Effect.UpdatePidList 1]).2.1.buf = some b ∧
      b.buf = examplePadSample ∧ b.spare = 2 ∧ b.off + 2 = 60 + 4 ∧ b.off = 62 :=
  (consumed_add_spare_eq_SampleSize_add_four exampleEnv
    (newEvent (exampleConf false) (spareRecord examplePadSample 2 ⟨false, false⟩))
    spareCapEvent
    (spareCapEvent.ParseContextStack exampleEnv [Effect.UpdatePidList 1]).2.1
    ((spareCapEvent.ParseContextStack exampleEnv
      [Effect.UpdatePidList 1]).2.1.ParsePadding exampleEnv [Effect.UpdatePidList 1]).2.1
    [] [Effect.UpdatePidList 1] [Effect.UpdatePidList 1] [Effect.UpdatePidList 1]
    rfl (by decide) (by decide) (by decide) (Or.inl (by decide))).imp
    (fun _ h => ⟨h.1, h.2.1, h.2.2.1, h.2.2.2.1, h.2.2.2.2.1⟩)

end event
namespace event

theorem ParseContext_BrkKernel (env : Env) (this : ContextEvent) (w : List Effect)
    (hbrk : this.mconf.BrkKernel = true) : this.ParseContext env w = (none, this, w) := by
  unfold ContextEvent.ParseContext
  rw [if_pos hbrk]

theorem ParseEvent_plain (env : Env) (this this1 : ContextEvent) (w w1 : List Effect)
    (hrec : this.record.RecordType = PERF_RECORD_SAMPLE)
    (hctx : this.ParseContext env w = (none, this1, w1))
    (hid : this1.EventId = env.SYSCALL_ENTER ∨ this1.EventId = env.SYSCALL_EXIT ∨
      this1.EventId = env.UPROBE_ENTER) :
    this.ParseEvent env w = (EventResult.ok, this1, w1) := by
  unfold ContextEvent.ParseEvent
  rw [if_pos hrec, hctx]
  simp only
  by_cases h12 : this1.EventId = env.SYSCALL_ENTER ∨ this1.EventId = env.SYSCALL_EXIT
  · rw [if_pos h12]
  · rw [if_neg h12]
    have h3 : this1.EventId = env.UPROBE_ENTER := by
      rcases hid with h | h | h
      · exact absurd (Or.inl h) h12
      · exact absurd (Or.inr h) h12
      · exact h
    rw [if_pos h3]

theorem ParseEvent_unsupported (env : Env) (this this1 : ContextEvent) (w w1 : List Effect)
    (hrec : this.record.RecordType = PERF_RECORD_SAMPLE)
    (hctx : this.ParseContext env w = (none, this1, w1))
    (hid : ¬ (this1.EventId = env.SYSCALL_ENTER ∨ this1.EventId = env.SYSCALL_EXIT ∨
      this1.EventId = env.UPROBE_ENTER)) :
    this.ParseEvent env w =
      (EventResult.error ("PERF_RECORD_SAMPLE EventId is ".toList ++ decimal this1.EventId),
        this1,
        w1 ++ [Effect.logUnsupported this1.EventId, Effect.logRawSample this1.record.RawSample]) := by
  unfold ContextEvent.ParseEvent
  rw [if_pos hrec, hctx]
  simp only
  rw [if_neg (fun h => hid (by tauto)), if_neg (fun h => hid (by tauto))]

/-- C9: for every sample record on which `ParseContext` returns no error, `ParseEvent`
returns `nil, nil` exactly when `EventId` is `SYSCALL_ENTER`, `SYSCALL_EXIT` or
`UPROBE_ENTER`, and otherwise returns a non-nil error; in both cases the event and its
buffer are as `ParseContext` left them (nothing more is decoded), and with `BrkKernel`
unset `EventId` is the 32-bit field at offset 12 of the raw sample. -/
theorem ParseEvent_dispatch (env : Env) (this this1 : ContextEvent) (w w1 : List Effect)
    (hrec : this.record.RecordType = PERF_RECORD_SAMPLE)
    (hctx : this.ParseContext env w = (none, this1, w1)) :
    ((this.ParseEvent env w).1 = EventResult.ok ↔
      (this1.EventId = env.SYSCALL_ENTER ∨ this1.EventId = env.SYSCALL_EXIT ∨
        this1.EventId = env.UPROBE_ENTER)) ∧
    (¬ (this1.EventId = env.SYSCALL_ENTER ∨ this1.EventId = env.SYSCALL_EXIT ∨
        this1.EventId = env.UPROBE_ENTER) → ∃ msg, (this.ParseEvent env w).1 = EventResult.error msg) ∧
    (this.ParseEvent env w).2.1 = this1 ∧
    (this.mconf.BrkKernel = false → this1.EventId = fieldAt this.record.RawSample 12 4) := by
  by_cases hid : this1.EventId = env.SYSCALL_ENTER ∨ this1.EventId = env.SYSCALL_EXIT ∨
      this1.EventId = env.UPROBE_ENTER
  · rw [ParseEvent_plain env this this1 w w1 hrec hctx hid]
    refine ⟨⟨fun _ => hid, fun _ => rfl⟩, fun h => absurd hid h, rfl, ?_⟩
    intro hbrk
    have hlen := ParseContext_none_inv env this w hbrk (by rw [hctx])
    rw [ParseContext_ok env this w hbrk hlen] at hctx
    simp only [Prod.mk.injEq, true_and] at hctx
    rw [← hctx.1]
    rfl
  · rw [ParseEvent_unsupported env this this1 w w1 hrec hctx hid]
    refine ⟨⟨fun h => absurd h (by simp), fun h => absurd h hid⟩, fun _ => ⟨_, rfl⟩, rfl, ?_⟩
    intro hbrk
    have hlen := ParseContext_none_inv env this w hbrk (by rw [hctx])
    rw [ParseContext_ok env this w hbrk hlen] at hctx
    simp only [Prod.mk.injEq, true_and] at hctx
    rw [← hctx.1]
    rfl

/-- Witness of C9: the example header is a `SYSCALL_ENTER` event, accepted with the cursor
left at the end of the header; with event id 999 an error is returned. -/
theorem ParseEvent_dispatch_witness :
    ((newEvent (exampleConf false)
      (sampleRecord (encodeHeader exampleHeader) ⟨false, false⟩)).ParseEvent exampleEnv []).1 =
        EventResult.ok ∧
    ∃ msg, ((newEvent (exampleConf false)
      (sampleRecord (encodeHeader unsupportedHeader) ⟨false, false⟩)).ParseEvent
        exampleEnv []).1 = EventResult.error msg :=
  ⟨(ParseEvent_dispatch exampleEnv
      (newEvent (exampleConf false) (sampleRecord (encodeHeader exampleHeader) ⟨false, false⟩))
      _ [] _ rfl rfl).1.mpr (by decide),
    (ParseEvent_dispatch exampleEnv
      (newEvent (exampleConf false) (sampleRecord (encodeHeader unsupportedHeader) ⟨false, false⟩))
      _ [] _ rfl rfl).2.1 (by decide)⟩

/-- C10 (amended): for every sample record with an unrecognized `EventId`, the error
returned by `ParseEvent` is
`errors.New("PERF_RECORD_SAMPLE EventId is <EventId in decimal>")`: it carries the event id
and no byte of the record; the whole raw sample goes to the logger, as a hex dump, before
the return. -/
theorem ParseEvent_error_value (env : Env) (this this1 : ContextEvent) (w w1 : List Effect)
    (hrec : this.record.RecordType = PERF_RECORD_SAMPLE)
    (hctx : this.ParseContext env w = (none, this1, w1))
    (hid : ¬ (this1.EventId = env.SYSCALL_ENTER ∨ this1.EventId = env.SYSCALL_EXIT ∨
      this1.EventId = env.UPROBE_ENTER)) :
    (this.ParseEvent env w).1 =
        EventResult.error ("PERF_RECORD_SAMPLE EventId is ".toList ++ Nat.toDigits 10 this1.EventId) ∧
      (this.ParseEvent env w).2.2 =
        w1 ++ [Effect.logUnsupported this1.EventId, Effect.logRawSample this.record.RawSample] := by
  rw [ParseEvent_unsupported env this this1 w w1 hrec hctx hid]
  refine ⟨rfl, ?_⟩
  simp only
  by_cases hbrk : this.mconf.BrkKernel = true
  · rw [ParseContext_BrkKernel env this w hbrk] at hctx
    simp only [Prod.mk.injEq, true_and] at hctx
    rw [← hctx.1]
  · have hbrk2 : this.mconf.BrkKernel = false := by simpa using hbrk
    have hlen := ParseContext_none_inv env this w hbrk2 (by rw [hctx])
    rw [ParseContext_ok env this w hbrk2 hlen] at hctx
    simp only [Prod.mk.injEq, true_and] at hctx
    rw [← hctx.1]
    rfl

/-- Witness of C10: the header with event id 999 followed by three bytes. -/
theorem ParseEvent_error_value_witness :
    ((newEvent (exampleConf false)
      (sampleRecord (encodeHeader unsupportedHeader ++ [1, 2, 3]) ⟨false, false⟩)).ParseEvent
        exampleEnv []).1 = EventResult.error "PERF_RECORD_SAMPLE EventId is 999".toList :=
  (ParseEvent_error_value exampleEnv
    (newEvent (exampleConf false)
      (sampleRecord (encodeHeader unsupportedHeader ++ [1, 2, 3]) ⟨false, false⟩))
    ((newEvent (exampleConf false)
      (sampleRecord (encodeHeader unsupportedHeader ++ [1, 2, 3]) ⟨false, false⟩)).ParseContext
        exampleEnv []).2.1
    []
    ((newEvent (exampleConf false)
      (sampleRecord (encodeHeader unsupportedHeader ++ [1, 2, 3]) ⟨false, false⟩)).ParseContext
        exampleEnv []).2.2
    rfl (by decide) (by decide)).1.trans (by decide)

/-- Counterexample to C10 as stated: two records with the same unrecognized event id and
different remaining bytes make `ParseEvent` return the same error value, so the bytes
cannot be recovered from it. -/
theorem ParseEvent_error_counterexample :
    ((newEvent (exampleConf false)
      (sampleRecord (encodeHeader unsupportedHeader ++ [1, 2, 3]) ⟨false, false⟩)).ParseEvent
        exampleEnv []).1 =
    ((newEvent (exampleConf false)
      (sampleRecord (encodeHeader unsupportedHeader ++ [4, 5, 6]) ⟨false, false⟩)).ParseEvent
        exampleEnv []).1 ∧
    (∃ msg, ((newEvent (exampleConf false)
      (sampleRecord (encodeHeader unsupportedHeader ++ [1, 2, 3]) ⟨false, false⟩)).ParseEvent
        exampleEnv []).1 = EventResult.error msg) ∧
    (((newEvent (exampleConf false)
      (sampleRecord (encodeHeader unsupportedHeader ++ [1, 2, 3]) ⟨false, false⟩)).ParseEvent
        exampleEnv []).2.1.buf.map Buffer.unread) = some [1, 2, 3] ∧
    (((newEvent (exampleConf false)
      (sampleRecord (encodeHeader unsupportedHeader ++ [4, 5, 6]) ⟨false, false⟩)).ParseEvent
        exampleEnv []).2.1.buf.map Buffer.unread) = some [4, 5, 6] :=
  ⟨by decide, ⟨"PERF_RECORD_SAMPLE EventId is 999".toList, by decide⟩, by decide, by decide⟩

end event

/-! ## Registers, stop marking, payload decoders and the display of `Comm` -/

namespace json

theorem encodeRune_digitChar (d : Nat) (h : d < 16) :
    encodeRune (Nat.digitChar d) = [Nat.digitChar d] := by
  interval_cases d <;> rfl

theorem flatMap_toDigitsCore (fuel n : Nat) (acc : List Char)
    (h : acc.flatMap encodeRune = acc) :
    (Nat.toDigitsCore 16 fuel n acc).flatMap encodeRune = Nat.toDigitsCore 16 fuel n acc := by
  induction fuel generalizing n acc with
  | zero => exact h
  | succ fuel ih =>
    have hd : (Nat.digitChar (n % 16) :: acc).flatMap encodeRune = Nat.digitChar (n % 16) :: acc := by
      rw [List.flatMap_cons, h, encodeRune_digitChar _ (Nat.mod_lt _ (by decide))]
      rfl
    simp only [Nat.toDigitsCore]
    split
    · exact hd
    · exact ih _ _ hd

/-- A value `0x` followed by hexadecimal digits holds no rune that the encoder escapes. -/
theorem encodeString_hex (v : Nat) :
    encodeString ("0x".toList ++ util.hex v) = '"' :: '0' :: 'x' :: (util.hex v ++ ['"']) := by
  have h : (util.hex v).flatMap encodeRune = util.hex v :=
    flatMap_toDigitsCore (v + 1) v [] rfl
  unfold encodeString
  rw [List.flatMap_append, h]
  rfl

/-- Assigning to a key that the map does not hold adds an entry at the end. -/
theorem setKey_new (m : StringMap) (k v : List Char) (h : k ∉ m.map Prod.fst) :
    setKey m k v = m ++ [(k, v)] := by
  induction m with
  | nil => rfl
  | cons e m ih =>
    obtain ⟨k0, v0⟩ := e
    simp only [List.map_cons, List.mem_cons, not_or] at h
    simp only [setKey, if_neg (Ne.symm h.1), ih h.2, List.cons_append]

theorem foldl_setKey (key val : Nat → List Char) (l : List Nat) (m0 : StringMap)
    (h : (m0.map Prod.fst ++ l.map key).Nodup) :
    l.foldl (fun m i => setKey m (key i) (val i)) m0 = m0 ++ l.map (fun i => (key i, val i)) := by
  induction l generalizing m0 with
  | nil => simp
  | cons i l ih =>
    have hi : key i ∉ m0.map Prod.fst := by
      intro hm
      rw [List.nodup_append] at h
      exact h.2.2 hm (List.mem_cons_self _ _)
    rw [List.foldl_cons, setKey_new m0 _ _ hi, ih]
    · simp
    · simpa [List.map_append] using h

/-- The order of the entries depends on the keys only: a change of the values that keeps the
keys commutes with the insertion of an entry. -/
theorem insertByKey_map (h : List Char → List Char → List Char) (e : List Char × List Char)
    (m : StringMap) :
    insertByKey (e.1, h e.1 e.2) (m.map (fun e => (e.1, h e.1 e.2))) =
      (insertByKey e m).map (fun e => (e.1, h e.1 e.2)) := by
  induction m with
  | nil => rfl
  | cons e0 m ih =>
    simp only [List.map_cons, insertByKey]
    split
    · rfl
    · rw [ih]
      rfl

theorem sortByKey_map (h : List Char → List Char → List Char) (m : StringMap) :
    sortByKey (m.map (fun e => (e.1, h e.1 e.2))) =
      (sortByKey m).map (fun e => (e.1, h e.1 e.2)) := by
  induction m with
  | nil => rfl
  | cons e m ih =>
    simp only [List.map_cons, sortByKey]
    rw [ih, insertByKey_map]

end json

namespace event

/-- The map that `GetStackTrace` fills holds the 33 names in the order of their slots. -/
theorem regsMap_eq (regs : List Nat) :
    regsMap regs =
      (List.range 33).map (fun i => (regNames.getD i [], "0x".toList ++ util.hex (slot regs i))) := by
  have hkeys : ∀ l : List Nat,
      (l.map (fun i => ('x' :: decimal i, "0x".toList ++ util.hex (slot regs i)))).map Prod.fst =
        l.map (fun i => 'x' :: decimal i) := by
    intro l
    rw [List.map_map]
    rfl
  unfold regsMap
  rw [json.foldl_setKey (fun regno => 'x' :: decimal regno)
    (fun regno => "0x".toList ++ util.hex (slot regs regno)) _ [] (by decide), List.nil_append]
  rw [json.setKey_new (List.map _ _) "lr".toList _ (by rw [hkeys]; decide)]
  rw [json.setKey_new (_ ++ [_]) "sp".toList _ (by simp only [List.map_append, List.map_cons, List.map_nil, hkeys]; decide)]
  rw [json.setKey_new (_ ++ [_] ++ [_]) "pc".toList _
    (by simp only [List.map_append, List.map_cons, List.map_nil, hkeys]; decide)]
  have e : List.range 33 = List.range (REG_ARM64_X29 + 1) ++ [30, 31, 32] := by decide
  rw [e, List.map_append, List.append_assoc, List.append_assoc]
  congr 1

theorem sortByKey_regsMap (regs : List Nat) :
    json.sortByKey (regsMap regs) =
      sortedSlots.map (fun i => (regNames.getD i [], "0x".toList ++ util.hex (slot regs i))) := by
  have hT : ∀ l : List Nat, (∀ i ∈ l, regNames.indexOf (regNames.getD i []) = i) →
      l.map (fun i => (regNames.getD i [], "0x".toList ++ util.hex (slot regs i))) =
        (l.map (fun i => (regNames.getD i [], ([] : List Char)))).map
          (fun e => (e.1, (fun k _ => "0x".toList ++ util.hex (slot regs (regNames.indexOf k)))
            e.1 e.2)) := by
    intro l hl
    rw [List.map_map]
    apply List.map_congr_left
    intro i hi
    simp only [Function.comp, hl i hi]
  have hs : json.sortByKey ((List.range 33).map (fun i => (regNames.getD i [], ([] : List Char))))
      = sortedSlots.map (fun i => (regNames.getD i [], ([] : List Char))) := by
    decide
  rw [regsMap_eq, hT _ (by decide), hT sortedSlots (by decide)]
  exact (json.sortByKey_map
    (fun k _ => "0x".toList ++ util.hex (slot regs (regNames.indexOf k))) _).trans
      (congrArg _ hs)

theorem intercalate_comma (x : List Char) (xs : List (List Char)) :
    [','].intercalate (x :: xs) = x ++ (xs.map (fun y => ',' :: y)).flatten := by
  induction xs generalizing x with
  | nil => simp [List.intercalate, List.intersperse]
  | cons y ys ih =>
    have h := ih y
    simp only [List.intercalate, List.intersperse, List.flatten, List.map_cons] at h ⊢
    rw [h]
    rfl

/-- One entry of the sorted register map, as the encoder writes it. -/
theorem encodeEntry_slot (regs : List Nat) (i : Nat)
    (hi : json.encodeString (regNames.getD i []) = '"' :: (regNames.getD i [] ++ ['"']))
    (rest : List Char) :
    json.encodeString (regNames.getD i []) ++
      ':' :: (json.encodeString ("0x".toList ++ util.hex (slot regs i)) ++ rest) =
      jsonMember regs i ++ rest := by
  rw [hi, json.encodeString_hex]
  have e1 : "\"".toList = ['"'] := rfl
  have e2 : "\":\"0x".toList = ['"', ':', '"', '0', 'x'] := rfl
  simp only [jsonMember, e1, e2, List.append_assoc, List.cons_append, List.nil_append]

theorem encodeEntries_slots (regs : List Nat) (l : List Nat)
    (hl : ∀ i ∈ l, json.encodeString (regNames.getD i []) = '"' :: (regNames.getD i [] ++ ['"'])) :
    json.encodeEntries
      (l.map (fun i => (regNames.getD i [], "0x".toList ++ util.hex (slot regs i)))) =
      (l.map (fun i => ',' :: jsonMember regs i)).flatten := by
  induction l with
  | nil => rfl
  | cons i l ih =>
    simp only [List.map_cons, json.encodeEntries, List.flatten]
    rw [ih (fun j hj => hl j (List.mem_cons_of_mem _ hj)),
      encodeEntry_slot regs i (hl i (List.mem_cons_self _ _))]
    rfl

/-- The encoder writes the register map as the JSON object of the 33 registers. -/
theorem Marshal_regsMap (regs : List Nat) : json.Marshal (regsMap regs) = regsJson regs := by
  have hl : ∀ i ∈ sortedSlots,
      json.encodeString (regNames.getD i []) = '"' :: (regNames.getD i [] ++ ['"']) := by
    decide
  have hs : sortedSlots = 30 :: sortedSlots.tail := rfl
  unfold json.Marshal
  rw [sortByKey_regsMap]
  unfold regsJson
  rw [hs, List.map_cons, List.map_cons]
  have e := intercalate_comma (jsonMember regs 30) (sortedSlots.tail.map (jsonMember regs))
  have e3 : ",".toList = [','] := rfl
  rw [e3, e]
  dsimp only
  rw [encodeEntries_slots regs _ (fun j hj => hl j (List.mem_of_mem_tail hj)),
    encodeEntry_slot regs 30 (hl 30 (by decide)), List.map_map]
  simp only [List.append_assoc, List.cons_append, List.nil_append]
  rfl

end event

namespace event

/-- C11: what the named-register lookup of `GetStackTrace` does for the 33 register
names: for every register snapshot, `x<N>` with `0 <= N <= 29` selects slot `N` and `lr`
selects slot 30, but `sp` and `pc` select nothing, although the show-registers map of the
same function holds `sp` and `pc` with the values of slots 31 and 32. -/
theorem namedReg_names (regs : List Nat) :
    (∀ N, N ≤ 29 → namedReg ('x' :: decimal N) regs = some (slot regs N)) ∧
    namedReg "lr".toList regs = some (slot regs 30) ∧
    namedReg "sp".toList regs = none ∧
    namedReg "pc".toList regs = none ∧
    ("sp".toList, "0x".toList ++ util.hex (slot regs 31)) ∈ regsMap regs ∧
    ("pc".toList, "0x".toList ++ util.hex (slot regs 32)) ∈ regsMap regs := by
  refine ⟨?_, rfl, rfl, rfl, ?_, ?_⟩
  · intro N hN
    interval_cases N <;> rfl
  · rw [regsMap_eq]
    exact List.mem_map.mpr ⟨31, by decide, rfl⟩
  · rw [regsMap_eq]
    exact List.mem_map.mpr ⟨32, by decide, rfl⟩

/-- Witness of C11: on the example registers `x7` selects the value of slot 7, and with
the name `sp` the description is returned with no `Reg` section. -/
theorem namedReg_names_witness :
    namedReg "x7".toList exampleRegs.Regs = some 4103 ∧
    (regsEvent "sp".toList).GetStackTrace liveEnv "ev".toList = some ⟨"ev".toList, []⟩ :=
  ⟨((namedReg_names exampleRegs.Regs).1 7 (by decide)).trans (by decide), by decide⟩

/-- C12: what the named-register lookup of `GetStackTrace` does for other names: a name
that neither starts with `x` nor is `lr` (as `w0`) and a name `x<N>` with `N` beyond 29 (as
`x30`) select nothing; but `x` followed by text that is no decimal number (as `x` and
`xfoo`) selects slot 0, since the error of `ParseUint` is dropped and the value returned
with it is 0, and a `Reg` section is appended for it. -/
theorem namedReg_other_names (regs : List Nat) :
    (∀ name, strings.HasPrefix name ['x'] = false → name ≠ "lr".toList →
      namedReg name regs = none) ∧
    namedReg "x30".toList regs = none ∧
    namedReg "w0".toList regs = none ∧
    namedReg "x".toList regs = some (slot regs 0) ∧
    namedReg "xfoo".toList regs = some (slot regs 0) ∧
    (strconv.ParseUintBits "foo".toList 10 32 = (0, some .ErrSyntax)) := by
  refine ⟨?_, rfl, rfl, rfl, rfl, rfl⟩
  intro name hx hlr
  unfold namedReg
  rw [if_neg (by rw [hx]; decide), if_neg hlr]

/-- Witness of C12: with the name `xfoo` the description gets a `Reg` section computed
from slot 0 of the example registers; with the name `w0` it gets none. -/
theorem namedReg_other_names_witness :
    (regsEvent "xfoo".toList).GetStackTrace liveEnv "ev".toList =
      some ⟨"ev, Reg xfoo(libc.so + 0x0)".toList, []⟩ ∧
    namedReg "w0".toList exampleRegs.Regs = none :=
  ⟨by decide, (namedReg_other_names exampleRegs.Regs).1 "w0".toList rfl (by decide)⟩

end event

namespace event

theorem stoppedPids_append (a b : List Effect) :
    stoppedPids (a ++ b) = stoppedPids a ++ stoppedPids b := by
  induction a with
  | nil => rfl
  | cons e a ih => cases e <;> simp [stoppedPids, ih]

end event

namespace event

/-- The header decode up to the pid: a sample that ends before the end of the pid field
leaves the trace of effects as it was. -/
theorem ParseContext_effects_short (env : Env) (this : ContextEvent) (w : List Effect)
    (hbrk : this.mconf.BrkKernel = false) (hlen : this.record.RawSample.length < 32) :
    (this.ParseContext env w).2.2 = w := by
  unfold ContextEvent.ParseContext
  rw [if_neg (by rw [hbrk]; decide)]
  split
  · rfl
  rename_i x1 b1 h1
  have i1 := readUint_ok_inv _ _ _ _ (by decide) h1
  split
  · rfl
  rename_i x2 b2 h2
  have i2 := readUint_ok_inv _ _ _ _ (by decide) h2
  split
  · rfl
  rename_i x3 b3 h3
  have i3 := readUint_ok_inv _ _ _ _ (by decide) h3
  split
  · rfl
  rename_i x4 b4 h4
  have i4 := readUint_ok_inv _ _ _ _ (by decide) h4
  split
  · rfl
  rename_i x5 b5 h5
  have i5 := readUint_ok_inv _ _ _ _ (by decide) h5
  split
  · rfl
  rename_i x6 b6 h6
  have i6 := readUint_ok_inv _ _ _ _ (by decide) h6
  split
  · rfl
  rename_i x7 b7 h7
  have i7 := readUint_ok_inv _ _ _ _ (by decide) h7
  simp only [NewBuffer, widths] at i1 i2 i3 i4 i5 i6 i7
  omega

/-- The header decode from the pid on: once the pid field is read, `Pid` and the calls of
`AddStopped` are decided, whatever the later reads give. -/
theorem ParseContext_effects_long (env : Env) (this : ContextEvent) (w : List Effect)
    (hbrk : this.mconf.BrkKernel = false) (hlen : 32 ≤ this.record.RawSample.length) :
    stoppedPids (this.ParseContext env w).2.2 =
      stoppedPids
        (if this.mconf.KillSignal = SIGSTOP ∧ fieldAt this.record.RawSample 28 4 ≠ 0
          then w ++ [.AddStopped (fieldAt this.record.RawSample 28 4)] else w) ∧
    (this.ParseContext env w).2.1.Pid = fieldAt this.record.RawSample 28 4 := by
  unfold ContextEvent.ParseContext
  simp (disch := omega) only [hbrk, NewBuffer, widths, Bool.false_eq_true, if_false,
    readUint_mk_ok]
  simp only [Nat.zero_add, Nat.reduceAdd]
  generalize (if this.mconf.KillSignal = SIGSTOP ∧ fieldAt this.record.RawSample 28 4 ≠ 0
    then w ++ [Effect.AddStopped (fieldAt this.record.RawSample 28 4)] else w) = w2
  repeat' split
  all_goals simp only [stoppedPids_append, stoppedPids, List.append_nil, and_self]

/-- C13: the calls of `AddStopped` that `ParseContext` adds are exactly one call, with the
decoded pid, when the kill signal is `SIGSTOP`, the pid field was decoded (the `BrkKernel`
flag is unset and the sample holds the 32 bytes up to the end of the pid field) and the pid
is not zero; otherwise there is none. When the pid field was decoded, `Pid` is its
little-endian value. -/
theorem ParseContext_stop_marking (env : Env) (this : ContextEvent) (w : List Effect) :
    stoppedPids (this.ParseContext env w).2.2 =
      stoppedPids w ++
        (if this.mconf.KillSignal = SIGSTOP ∧
            (this.mconf.BrkKernel = false ∧ 32 ≤ this.record.RawSample.length) ∧
            fieldAt this.record.RawSample 28 4 ≠ 0
          then [fieldAt this.record.RawSample 28 4] else []) ∧
    (this.mconf.BrkKernel = false → 32 ≤ this.record.RawSample.length →
      (this.ParseContext env w).2.1.Pid = fieldAt this.record.RawSample 28 4) := by
  constructor
  · cases hbrk : this.mconf.BrkKernel with
    | true =>
      rw [ParseContext_BrkKernel env this w hbrk]
      simp
    | false =>
      by_cases hlen : 32 ≤ this.record.RawSample.length
      · rw [(ParseContext_effects_long env this w hbrk hlen).1]
        by_cases hc : this.mconf.KillSignal = SIGSTOP ∧ fieldAt this.record.RawSample 28 4 ≠ 0
        · rw [if_pos hc, if_pos ⟨hc.1, ⟨rfl, hlen⟩, hc.2⟩, stoppedPids_append]
          rfl
        · rw [if_neg hc, if_neg (fun h => hc ⟨h.1, h.2.2⟩), List.append_nil]
      · rw [ParseContext_effects_short env this w hbrk (by omega),
          if_neg (fun h => hlen h.2.1.2), List.append_nil]
  · intro hbrk hlen
    exact (ParseContext_effects_long env this w hbrk hlen).2

set_option maxRecDepth 8000 in
/-- Witness of C13: with the kill signal `SIGSTOP`, the encoded example header (pid 1)
marks pid 1 once; cut before the end of the pid field, or with pid 0, it marks nothing. -/
theorem ParseContext_stop_marking_witness :
    stoppedPids ((newEvent stopConf
      (sampleRecord (encodeHeader exampleHeader) ⟨false, false⟩)).ParseContext exampleEnv []).2.2
        = [1] ∧
    stoppedPids ((newEvent stopConf
      (sampleRecord ((encodeHeader exampleHeader).take 31) ⟨false, false⟩)).ParseContext
        exampleEnv []).2.2 = [] ∧
    stoppedPids ((newEvent stopConf
      (sampleRecord (encodeHeader { exampleHeader with Pid := 0 }) ⟨false, false⟩)).ParseContext
        exampleEnv []).2.2 = [] ∧
    ((newEvent stopConf
      (sampleRecord (encodeHeader exampleHeader) ⟨false, false⟩)).ParseContext exampleEnv
        []).2.1.Pid = 1 :=
  ⟨(ParseContext_stop_marking exampleEnv (newEvent stopConf
      (sampleRecord (encodeHeader exampleHeader) ⟨false, false⟩)) []).1.trans (by decide),
    (ParseContext_stop_marking exampleEnv (newEvent stopConf
      (sampleRecord ((encodeHeader exampleHeader).take 31) ⟨false, false⟩)) []).1.trans
      (by decide),
    (ParseContext_stop_marking exampleEnv (newEvent stopConf
      (sampleRecord (encodeHeader { exampleHeader with Pid := 0 }) ⟨false, false⟩)) []).1.trans
      (by decide),
    ((ParseContext_stop_marking exampleEnv (newEvent stopConf
      (sampleRecord (encodeHeader exampleHeader) ⟨false, false⟩)) []).2 rfl
      (by decide)).trans (by decide)⟩

end event

namespace event

/-- With neither option set `ParseContextStack` only clears `Stackinfo`. -/
theorem ParseContextStack_plain (env : Env) (this : ContextEvent) (w : List Effect)
    (hU : this.record.ExtraOptions.UnwindStack = false)
    (hR : this.record.ExtraOptions.ShowRegs = false) :
    this.ParseContextStack env w = (none, { this with Stackinfo := [] }, w) := by
  unfold ContextEvent.ParseContextStack
  simp only [hU, hR, Bool.false_eq_true, if_false]

/-- C14: when neither the unwind-stack option nor the show-registers option is set,
`ParseContextStack` returns no error, leaves the cursor, `RegsBuffer` and `UnwindBuffer`
as they were, leaves `Stackinfo` empty and has no side effect; `GetStackTrace(s)` on the
resulting event, with no register name configured, returns `s` and prints nothing. -/
theorem ParseContextStack_neither (env : Env) (this : ContextEvent) (w : List Effect)
    (hU : this.record.ExtraOptions.UnwindStack = false)
    (hR : this.record.ExtraOptions.ShowRegs = false) :
    (this.ParseContextStack env w).1 = none ∧
    (this.ParseContextStack env w).2.1.buf = this.buf ∧
    (this.ParseContextStack env w).2.1.RegsBuffer = this.RegsBuffer ∧
    (this.ParseContextStack env w).2.1.UnwindBuffer = this.UnwindBuffer ∧
    (this.ParseContextStack env w).2.1.Stackinfo = [] ∧
    (this.ParseContextStack env w).2.2 = w ∧
    (this.mconf.RegName = [] →
      ∀ s, (this.ParseContextStack env w).2.1.GetStackTrace env s = some ⟨s, []⟩) := by
  rw [ParseContextStack_plain env this w hU hR]
  refine ⟨rfl, rfl, rfl, rfl, rfl, rfl, ?_⟩
  intro hname s
  simp only [ContextEvent.GetStackTrace, ContextEvent.traceRegs, hname, hR, ne_eq,
    not_true_eq_false, if_false, Bool.false_eq_true]

/-- Witness of C14: an event with no option set keeps its cursor where it was, and its
description is returned as it is. -/
theorem ParseContextStack_neither_witness :
    ((payloadEvent (exampleConf false) ⟨false, false⟩ [1, 2, 3]).ParseContextStack
      exampleEnv []).2.1.buf = some ⟨[1, 2, 3], 0, 0⟩ ∧
    ((payloadEvent (exampleConf false) ⟨false, false⟩ [1, 2, 3]).ParseContextStack
      exampleEnv []).2.1.GetStackTrace exampleEnv "event_id:456".toList =
        some ⟨"event_id:456".toList, []⟩ :=
  ⟨(ParseContextStack_neither exampleEnv
      (payloadEvent (exampleConf false) ⟨false, false⟩ [1, 2, 3]) [] rfl rfl).2.1,
    (ParseContextStack_neither exampleEnv
      (payloadEvent (exampleConf false) ⟨false, false⟩ [1, 2, 3]) [] rfl rfl).2.2.2.2.2.2
      rfl "event_id:456".toList⟩

end event

namespace event

theorem leUint64s_length (n : Nat) (bs : List Nat) : (leUint64s n bs).length = n := by
  induction n generalizing bs with
  | zero => rfl
  | succ n ih => simp only [leUint64s, List.length_cons, ih]

theorem leUint64s_getD (n : Nat) (bs : List Nat) (i : Nat) (h : i < n) :
    (leUint64s n bs).getD i 0 = leUint ((bs.drop (8 * i)).take 8) % 2 ^ 64 := by
  induction n generalizing bs i with
  | zero => omega
  | succ n ih =>
    cases i with
    | zero => simp only [leUint64s, List.getD_cons_zero, Nat.mul_zero, List.drop_zero]
    | succ i =>
      simp only [leUint64s, List.getD_cons_succ]
      rw [ih (bs.drop 8) i (by omega), List.drop_drop]
      have e : 8 + 8 * i = 8 * (i + 1) := by omega
      rw [e]

theorem regs_slot (raw : List Nat) (off i : Nat) (hi : i < 33) :
    (leUint64s 33 (bytesAt raw (off + 8) 264)).getD i 0 = fieldAt raw (off + 8 + 8 * i) 8 := by
  rw [leUint64s_getD 33 _ i hi]
  unfold bytesAt fieldAt
  rw [List.drop_take, List.take_take, List.drop_drop]
  have e1 : min 8 (264 - 8 * i) = 8 := by omega
  have e2 : 8 * 8 = 64 := rfl
  rw [e1, e2]

/-- C15: `RegsBuf.ParseContext` on a cursor with at least 272 bytes remaining returns no
error, advances the cursor by exactly 272 bytes, and stores the little-endian 8-byte `Abi`
followed by 33 registers, slot `i` read little-endian from the 8 bytes at offset
`8 + 8*i` behind the cursor; on a cursor with fewer than 272 bytes remaining it returns an
error. -/
theorem RegsBuf_ParseContext_exact (this : RegsBuf) (buf : Buffer) :
    (272 ≤ buf.Len →
      (this.ParseContext buf).1 = none ∧
      (this.ParseContext buf).2.2 = ⟨buf.buf, buf.off + 272, buf.spare⟩ ∧
      (this.ParseContext buf).2.2.Len + 272 = buf.Len ∧
      (this.ParseContext buf).2.1.Abi = fieldAt buf.buf buf.off 8 ∧
      (this.ParseContext buf).2.1.Regs.length = 33 ∧
      ∀ i, i < 33 →
        (this.ParseContext buf).2.1.Regs.getD i 0 = fieldAt buf.buf (buf.off + 8 + 8 * i) 8) ∧
    (buf.Len < 272 → ∃ e, (this.ParseContext buf).1 = some e) := by
  obtain ⟨raw, off, sp⟩ := buf
  constructor
  · intro h
    simp only [Buffer.Len] at h
    rw [RegsBuf_ParseContext_ok this raw off sp (by omega)]
    refine ⟨rfl, rfl, ?_, rfl, leUint64s_length _ _, ?_⟩
    · simp only [Buffer.Len]
      omega
    · intro i hi
      exact regs_slot raw off i hi
  · intro h
    simp only [Buffer.Len] at h
    exact RegsBuf_ParseContext_short this raw off sp (by omega)

set_option maxRecDepth 8000 in
/-- Witness of C15: the 272 bytes of the encoded example registers decode, slot 7 holds
`4103`; cut to 271 bytes they give an error. -/
theorem RegsBuf_ParseContext_exact_witness :
    (RegsBuf.zero.ParseContext ⟨encodeRegsBuf exampleRegs, 0, 0⟩).2.1.Regs.getD 7 0 = 4103 ∧
    (∃ e, (RegsBuf.zero.ParseContext ⟨(encodeRegsBuf exampleRegs).take 271, 0, 0⟩).1 = some e) :=
  ⟨(((RegsBuf_ParseContext_exact RegsBuf.zero ⟨encodeRegsBuf exampleRegs, 0, 0⟩).1
      (by decide)).2.2.2.2.2 7 (by decide)).trans (by decide),
    (RegsBuf_ParseContext_exact RegsBuf.zero ⟨(encodeRegsBuf exampleRegs).take 271, 0, 0⟩).2
      (by decide)⟩

end event

namespace event

/-- C16: `ParseContextStack` runs at most one payload decoder. With the unwind-stack
option set, `UnwindBuffer` holds what `UnwindBuf.ParseContext` decoded at the cursor and
`RegsBuffer` is untouched, whatever the show-registers option; with only the
show-registers option set, `RegsBuffer` holds what `RegsBuf.ParseContext` decoded at the
cursor and `UnwindBuffer` is as it was; with neither, both and the cursor are as they were. -/
theorem ParseContextStack_one_decoder (env : Env) (this : ContextEvent) (w : List Effect)
    (b : Buffer) (hbuf : this.buf = some b) :
    (this.record.ExtraOptions.UnwindStack = true →
      (this.ParseContextStack env w).2.1.UnwindBuffer =
        some (UnwindBuf.zero.ParseContext env b).2.1 ∧
      (this.ParseContextStack env w).2.1.buf = some (UnwindBuf.zero.ParseContext env b).2.2 ∧
      (this.ParseContextStack env w).2.1.RegsBuffer = this.RegsBuffer) ∧
    (this.record.ExtraOptions.UnwindStack = false → this.record.ExtraOptions.ShowRegs = true →
      (this.ParseContextStack env w).2.1.RegsBuffer = (this.RegsBuffer.ParseContext b).2.1 ∧
      (this.ParseContextStack env w).2.1.buf = some (this.RegsBuffer.ParseContext b).2.2 ∧
      (this.ParseContextStack env w).2.1.UnwindBuffer = this.UnwindBuffer) ∧
    (this.record.ExtraOptions.UnwindStack = false → this.record.ExtraOptions.ShowRegs = false →
      (this.ParseContextStack env w).2.1.RegsBuffer = this.RegsBuffer ∧
      (this.ParseContextStack env w).2.1.buf = this.buf ∧
      (this.ParseContextStack env w).2.1.UnwindBuffer = this.UnwindBuffer) := by
  refine ⟨?_, ?_, ?_⟩
  · intro hU
    unfold ContextEvent.ParseContextStack
    simp only [hU, if_true, hbuf]
    rcases hd : UnwindBuf.zero.ParseContext env b with ⟨_ | (err | _), u, b2⟩
    · dsimp only
      split <;> [skip; split] <;> exact ⟨rfl, rfl, rfl⟩
    · exact ⟨rfl, rfl, rfl⟩
    · exact ⟨rfl, rfl, rfl⟩
  · intro hU hR
    unfold ContextEvent.ParseContextStack
    simp only [hU, hR, if_true, Bool.false_eq_true, if_false, hbuf]
    rcases hd : this.RegsBuffer.ParseContext b with ⟨_ | err, r, b2⟩ <;> exact ⟨rfl, rfl, rfl⟩
  · intro hU hR
    rw [ParseContextStack_plain env this w hU hR]
    exact ⟨rfl, rfl, rfl⟩

end event

namespace event

set_option maxRecDepth 8000 in
/-- Witness of C16: with both options set on the encoded example unwind buffer,
`RegsBuffer` stays zero; with only show-registers set on the encoded example registers,
`UnwindBuffer` stays nil. -/
theorem ParseContextStack_one_decoder_witness :
    ((payloadEvent (exampleConf false) ⟨true, true⟩
      (encodeUnwindBuf exampleUnwind)).ParseContextStack exampleEnv []).2.1.RegsBuffer =
        RegsBuf.zero ∧
    ((payloadEvent (exampleConf false) ⟨false, true⟩
      (encodeRegsBuf exampleRegs)).ParseContextStack exampleEnv []).2.1.UnwindBuffer = none :=
  ⟨((ParseContextStack_one_decoder exampleEnv
      (payloadEvent (exampleConf false) ⟨true, true⟩ (encodeUnwindBuf exampleUnwind)) []
      ⟨encodeUnwindBuf exampleUnwind, 0, 0⟩ rfl).1 rfl).2.2,
    ((ParseContextStack_one_decoder exampleEnv
      (payloadEvent (exampleConf false) ⟨false, true⟩ (encodeRegsBuf exampleRegs)) []
      ⟨encodeRegsBuf exampleRegs, 0, 0⟩ rfl).2.1 rfl rfl).2.2⟩

end event

namespace event

/-- In registers-only mode with no register name and an empty `Stackinfo`,
`GetStackTrace(s)` is `s`, the text `, Regs:` and a line feed, and the JSON object. -/
theorem GetStackTrace_regs (env : Env) (this : ContextEvent) (s : List Char)
    (hname : this.mconf.RegName = []) (hU : this.record.ExtraOptions.UnwindStack = false)
    (hR : this.record.ExtraOptions.ShowRegs = true) (hS : this.Stackinfo = []) :
    this.GetStackTrace env s =
      some ⟨s ++ ", Regs:\n".toList ++ regsJson this.RegsBuffer.Regs, []⟩ := by
  simp only [ContextEvent.GetStackTrace, ContextEvent.traceRegs, ContextEvent.tmp_regs, hname,
    hU, hR, hS, ne_eq, not_true_eq_false, if_false, Bool.false_eq_true, if_true,
    Marshal_regsMap]

/-- C17: in registers-only mode (show-registers set, unwind-stack unset, no register name),
`ParseContextStack` leaves `Stackinfo` empty, and on the resulting event `GetStackTrace(s)`
returns `s` followed by `, Regs:`, a line feed and a JSON object, and prints nothing. The
object has one member for each of the 33 slots, `x<N>` for slot `N` up to 29 and `lr`,
`sp`, `pc` for slots 30, 31, 32, each with the value `0x` and the lowercase hexadecimal
digits of the slot, in the order of the names; no `Backtrace:` text follows. -/
theorem GetStackTrace_regs_only (env : Env) (this : ContextEvent) (w : List Effect)
    (s : List Char) (hname : this.mconf.RegName = [])
    (hU : this.record.ExtraOptions.UnwindStack = false)
    (hR : this.record.ExtraOptions.ShowRegs = true) :
    (this.ParseContextStack env w).2.1.Stackinfo = [] ∧
    (this.ParseContextStack env w).2.1.GetStackTrace env s =
      some ⟨s ++ ", Regs:\n".toList ++
        regsJson (this.ParseContextStack env w).2.1.RegsBuffer.Regs, []⟩ ∧
    (this.Stackinfo = [] →
      this.GetStackTrace env s =
        some ⟨s ++ ", Regs:\n".toList ++ regsJson this.RegsBuffer.Regs, []⟩) ∧
    sortedSlots.Perm (List.range 33) ∧
    regNames.length = 33 ∧ regNames.Nodup ∧
    (∀ N, N < 30 → regNames.getD N [] = 'x' :: decimal N) ∧
    regNames.getD 30 [] = "lr".toList ∧ regNames.getD 31 [] = "sp".toList ∧
    regNames.getD 32 [] = "pc".toList := by
  have hinv : (this.ParseContextStack env w).2.1.Stackinfo = [] ∧
      (this.ParseContextStack env w).2.1.mconf = this.mconf ∧
      (this.ParseContextStack env w).2.1.record = this.record := by
    unfold ContextEvent.ParseContextStack
    simp only [hU, hR, Bool.false_eq_true, if_false, if_true]
    repeat' split
    all_goals exact ⟨rfl, rfl, rfl⟩
  refine ⟨hinv.1, ?_, ?_, by decide, by decide, by decide, by decide, rfl, rfl, rfl⟩
  · exact GetStackTrace_regs env _ s (by rw [hinv.2.1]; exact hname)
      (by rw [hinv.2.2]; exact hU) (by rw [hinv.2.2]; exact hR) hinv.1
  · intro hS
    exact GetStackTrace_regs env this s hname hU hR hS

set_option maxRecDepth 8000 in
/-- Witness of C17: the event that decoded the example registers in registers-only mode
describes itself with the 33 registers and no backtrace. -/
theorem GetStackTrace_regs_only_witness :
    ((payloadEvent (exampleConf false) ⟨false, true⟩
      (encodeRegsBuf exampleRegs)).ParseContextStack exampleEnv []).2.1.GetStackTrace exampleEnv
        "ev".toList =
      some ⟨"ev, Regs:\n".toList ++ regsJson exampleRegs.Regs, []⟩ :=
  ((GetStackTrace_regs_only exampleEnv
    (payloadEvent (exampleConf false) ⟨false, true⟩ (encodeRegsBuf exampleRegs)) []
    "ev".toList rfl rfl rfl).2.1).trans (by decide)

end event

namespace utf8

theorem first_cases (b : Nat) :
    first b = 0xF0 ∨ first b = 0xF1 ∨
      (0x80 ≤ b ∧ (first b = 0x02 ∨ first b = 0x13 ∨ first b = 0x03 ∨ first b = 0x23 ∨
        first b = 0x34 ∨ first b = 0x04 ∨ first b = 0x44)) := by
  unfold first
  split_ifs <;> simp <;> omega

theorem DecodeRune_size (p0 : Nat) (rest : List Nat) (r sz : Nat)
    (hd : DecodeRune (p0 :: rest) = (r, sz)) :
    sz = 1 ∨
      (2 ≤ sz ∧ sz ≤ (p0 :: rest).length ∧ 0x80 ≤ p0 ∧ 0x80 ≤ (p0 :: rest).getD (sz - 1) 0) := by
  have a1 : (2 &&& 7 = 2) ∧ (19 &&& 7 = 3) ∧ (3 &&& 7 = 3) ∧ (35 &&& 7 = 3) ∧ (52 &&& 7 = 4) ∧
      (4 &&& 7 = 4) ∧ (68 &&& 7 = 4) := by decide
  have a2 : (2 >>> 4 = 0) ∧ (19 >>> 4 = 1) ∧ (3 >>> 4 = 0) ∧ (35 >>> 4 = 2) ∧ (52 >>> 4 = 3) ∧
      (4 >>> 4 = 0) ∧ (68 >>> 4 = 4) := by decide
  obtain ⟨b1, b2, b3, b4, b5, b6, b7⟩ := a1
  obtain ⟨c1, c2, c3, c4, c5, c6, c7⟩ := a2
  rcases first_cases p0 with h | h | ⟨h80, h | h | h | h | h | h | h⟩ <;>
    simp only [DecodeRune, h, acceptRanges, b1, b2, b3, b4, b5, b6, b7, c1, c2, c3, c4, c5, c6,
      c7, ge_iff_le, Nat.reduceLeDiff, if_true, if_false, Nat.reduceMod, List.length_cons,
      List.getD_cons_succ] at hd <;>
    (try split_ifs at hd) <;>
    obtain ⟨-, rfl⟩ := Prod.mk.inj hd <;>
    first
      | exact Or.inl rfl
      | (right
         simp only [List.length_cons, List.getD_cons_succ, Nat.reduceSub]
         omega)

/-- The width lemma for the call itself. -/
theorem DecodeRune_width (p0 : Nat) (rest : List Nat) :
    (DecodeRune (p0 :: rest)).2 = 1 ∨
      (2 ≤ (DecodeRune (p0 :: rest)).2 ∧ (DecodeRune (p0 :: rest)).2 ≤ (p0 :: rest).length ∧
        0x80 ≤ p0 ∧ 0x80 ≤ (p0 :: rest).getD ((DecodeRune (p0 :: rest)).2 - 1) 0) :=
  DecodeRune_size p0 rest (DecodeRune (p0 :: rest)).1 (DecodeRune (p0 :: rest)).2 rfl

end utf8

namespace utf8

theorem backToStart_le (p : List Nat) (lim k : Nat) : backToStart p lim k ≤ k := by
  induction k with
  | zero => simp [backToStart]
  | succ s ih =>
    simp only [backToStart]
    split_ifs <;> omega

theorem getD_drop (l : List Nat) (n i : Nat) : (l.drop n).getD i 0 = l.getD (n + i) 0 := by
  simp only [List.getD_eq_getElem?_getD, List.getElem?_drop]

/-- The width that `DecodeLastRune` returns when the last byte is beyond ASCII: it lies
within the bytes, and the byte it points back to is beyond ASCII as well. -/
theorem DecodeLastRune_size (p : List Nat) (hne : p ≠ [])
    (hlast : 0x80 ≤ p.getD (p.length - 1) 0) :
    1 ≤ (DecodeLastRune p).2 ∧ (DecodeLastRune p).2 ≤ p.length ∧
      0x80 ≤ p.getD (p.length - (DecodeLastRune p).2) 0 := by
  have hlen : 0 < p.length := List.length_pos.mpr hne
  have hs := backToStart_le p (p.length - UTFMax) (p.length - 1)
  unfold DecodeLastRune
  rw [if_neg (by omega), if_neg (by unfold RuneSelf; omega)]
  dsimp only
  generalize backToStart p (p.length - UTFMax) (p.length - 1) = start at hs ⊢
  by_cases hc : start + (DecodeRune (p.drop start)).2 ≠ p.length
  · rw [if_pos hc]
    exact ⟨Nat.le_refl _, hlen, hlast⟩
  · rw [if_neg hc]
    have hc2 : start + (DecodeRune (p.drop start)).2 = p.length := not_not.mp hc
    cases hq : p.drop start with
    | nil =>
      have := congrArg List.length hq
      simp only [List.length_drop, List.length_nil] at this
      omega
    | cons q0 qs =>
      rw [hq] at hc2
      have h0 : p.getD start 0 = q0 := by
        have := getD_drop p start 0
        rw [hq] at this
        simpa using this.symm
      rcases DecodeRune_width q0 qs with h1 | ⟨h2, _, h80, _⟩
      · rw [h1] at hc2 ⊢
        have e : start = p.length - 1 := by omega
        rw [e] at h0
        exact ⟨Nat.le_refl _, hlen, hlast⟩
      · refine ⟨by omega, by omega, ?_⟩
        have e : p.length - (DecodeRune (q0 :: qs)).2 = start := by omega
        rw [e, h0]
        exact h80

end utf8

namespace bytes

/-- A byte beyond ASCII, or one that `unicode.IsSpace` rejects, is no ASCII white space. -/
theorem asciiSpace_false (c : Nat) (h : 0x80 ≤ c ∨ unicode.IsSpace c = false) :
    asciiSpace c = false := by
  rcases h with h | h
  · simp only [asciiSpace, Bool.or_eq_false_iff, beq_eq_false_iff_ne, ne_eq]
    omega
  · unfold unicode.IsSpace at h
    split at h
    · simp only [Bool.or_eq_false_iff, beq_eq_false_iff_ne, ne_eq] at h
      simp only [asciiSpace, Bool.or_eq_false_iff, beq_eq_false_iff_ne, ne_eq]
      omega
    · simp only [asciiSpace, Bool.or_eq_false_iff, beq_eq_false_iff_ne, ne_eq]
      omega

/-- The index that `indexFunc(s, f, false)` returns is the index of a byte that is beyond
ASCII or that `f` rejects. -/
theorem indexFuncLoop_some (f : Nat → Bool) (l : List Nat) (skip pos i : Nat)
    (h : indexFuncLoop f false l skip pos = some i) :
    ∃ k b rest, i = pos + k ∧ l.drop k = b :: rest ∧ (0x80 ≤ b ∨ f b = false) := by
  induction l generalizing skip pos with
  | nil => simp [indexFuncLoop] at h
  | cons b rest ih =>
    cases skip with
    | succ skip =>
      rw [indexFuncLoop] at h
      obtain ⟨k, b2, rest2, hi, hd, hb⟩ := ih _ _ h
      exact ⟨k + 1, b2, rest2, by omega, hd, hb⟩
    | zero =>
      rw [indexFuncLoop] at h
      by_cases hf : f (if b ≥ utf8.RuneSelf then (utf8.DecodeRune (b :: rest)).1 else b) = false
      · rw [if_pos hf] at h
        simp only [Option.some.injEq] at h
        refine ⟨0, b, rest, by omega, rfl, ?_⟩
        by_cases hb : 0x80 ≤ b
        · exact Or.inl hb
        · right
          have hb2 : ¬ b ≥ utf8.RuneSelf := hb
          rw [if_neg hb2] at hf
          exact hf
      · rw [if_neg hf] at h
        obtain ⟨k, b2, rest2, hi, hd, hb⟩ := ih _ _ h
        exact ⟨k + 1, b2, rest2, by omega, hd, hb⟩

theorem TrimLeftFunc_drop (s : List Nat) (f : Nat → Bool) : ∃ k, TrimLeftFunc s f = s.drop k := by
  unfold TrimLeftFunc
  split
  · exact ⟨s.length, (List.drop_length s).symm⟩
  · exact ⟨_, rfl⟩

theorem TrimLeftFunc_head (s : List Nat) (c : Nat)
    (h : (TrimLeftFunc s unicode.IsSpace).head? = some c) : asciiSpace c = false := by
  unfold TrimLeftFunc at h
  split at h
  · simp at h
  · rename_i i hi
    obtain ⟨k, b, rest, hk, hd, hb⟩ := indexFuncLoop_some _ _ _ _ _ hi
    have e : i = k := by omega
    rw [e, hd] at h
    simp only [List.head?_cons, Option.some.injEq] at h
    rw [← h]
    exact asciiSpace_false b hb

/-- The index that `lastIndexFunc(s, f, false)` returns lies within the bytes and is the
index of a byte that is beyond ASCII or that `f` rejects. -/
theorem lastIndexFuncLoop_some (f : Nat → Bool) (rev : List Nat) (skip i : Nat)
    (h : lastIndexFuncLoop f false rev skip = some i) :
    i < rev.length ∧ (0x80 ≤ rev.reverse.getD i 0 ∨ f (rev.reverse.getD i 0) = false) := by
  induction rev generalizing skip with
  | nil => simp [lastIndexFuncLoop] at h
  | cons b rest ih =>
    have lift : ∀ j, j < rest.length →
        (b :: rest).reverse.getD j 0 = rest.reverse.getD j 0 := by
      intro j hj
      rw [List.reverse_cons, List.getD_append _ _ _ _ (by simpa using hj)]
    cases skip with
    | succ skip =>
      rw [lastIndexFuncLoop] at h
      obtain ⟨h1, h2⟩ := ih _ h
      rw [lift i h1]
      exact ⟨by simp only [List.length_cons]; omega, h2⟩
    | zero =>
      rw [lastIndexFuncLoop] at h
      have hlastb : (b :: rest).reverse.getD ((b :: rest).reverse.length - 1) 0 = b := by
        simp [List.getD_eq_getElem?_getD]
      by_cases hf : f (if b ≥ utf8.RuneSelf then (utf8.DecodeLastRune (b :: rest).reverse).1
          else b) = false
      · rw [if_pos hf] at h
        simp only [Option.some.injEq] at h
        by_cases hb : 0x80 ≤ b
        · have hb2 : b ≥ utf8.RuneSelf := hb
          rw [if_pos hb2] at h
          obtain ⟨s1, s2, s3⟩ := utf8.DecodeLastRune_size (b :: rest).reverse (by simp)
            (by rw [hlastb]; exact hb)
          rw [List.length_reverse] at s2 s3
          rw [← h]
          exact ⟨by omega, Or.inl s3⟩
        · have hb2 : ¬ b ≥ utf8.RuneSelf := hb
          rw [if_neg hb2] at h hf
          have e : i = (b :: rest).reverse.length - 1 := by
            rw [← h]
            simp
          rw [e, hlastb]
          exact ⟨by simp, Or.inr hf⟩
      · rw [if_neg hf] at h
        obtain ⟨h1, h2⟩ := ih _ h
        rw [lift i h1]
        exact ⟨by simp only [List.length_cons]; omega, h2⟩

theorem TrimRightFunc_take (s : List Nat) (f : Nat → Bool) :
    ∃ j, TrimRightFunc s f = s.take j := by
  unfold TrimRightFunc
  split
  · split
    · exact ⟨_, rfl⟩
    · exact ⟨_, rfl⟩
  · exact ⟨_, rfl⟩

theorem getLast?_take (s : List Nat) (n : Nat) (h0 : 0 < n) (hn : n ≤ s.length) :
    (s.take n).getLast? = some (s.getD (n - 1) 0) := by
  rw [List.getLast?_eq_getElem?, List.length_take, Nat.min_eq_left hn, List.getElem?_take,
    if_pos (by omega), List.getD_eq_getElem?_getD]
  have : n - 1 < s.length := by omega
  simp [List.getElem?_eq_getElem this]

theorem TrimRightFunc_last (s : List Nat) (c : Nat)
    (h : (TrimRightFunc s unicode.IsSpace).getLast? = some c) : asciiSpace c = false := by
  unfold TrimRightFunc at h
  split at h
  · rename_i i hi
    obtain ⟨h1, h2⟩ := lastIndexFuncLoop_some _ _ _ _ hi
    rw [List.length_reverse] at h1
    rw [List.reverse_reverse] at h2
    split at h
    · rename_i hge
      have hd : s.drop i = s.getD i 0 :: s.drop (i + 1) := by
        rw [List.getD_eq_getElem?_getD, List.getElem?_eq_getElem h1]
        simp
      rw [hd] at h
      rcases utf8.DecodeRune_width (s.getD i 0) (s.drop (i + 1)) with e1 | ⟨e2, e3, _, e5⟩
      · rw [e1, getLast?_take s (i + 1) (by omega) (by omega)] at h
        simp only [Nat.add_sub_cancel, Option.some.injEq] at h
        rw [← h]
        exact asciiSpace_false _ (Or.inl hge)
      · have hl : (s.getD i 0 :: s.drop (i + 1)).length = s.length - i := by
          rw [← hd, List.length_drop]
        have hg : ∀ j, (s.getD i 0 :: s.drop (i + 1)).getD j 0 = s.getD (i + j) 0 := by
          intro j
          rw [← hd, utf8.getD_drop]
        rw [hl] at e3
        rw [hg] at e5
        rw [getLast?_take s _ (by omega) (by omega)] at h
        simp only [Option.some.injEq] at h
        rw [← h]
        have e : i + (utf8.DecodeRune (s.getD i 0 :: s.drop (i + 1))).2 - 1 =
            i + ((utf8.DecodeRune (s.getD i 0 :: s.drop (i + 1))).2 - 1) := by omega
        rw [e]
        exact asciiSpace_false _ (Or.inl e5)
    · rename_i hlt
      rw [getLast?_take s (i + 1) (by omega) (by omega)] at h
      simp only [Nat.add_sub_cancel, Option.some.injEq] at h
      rw [← h]
      rcases h2 with h2 | h2
      · exact absurd h2 hlt
      · exact asciiSpace_false _ (Or.inr h2)
  · simp at h

end bytes

namespace bytes

theorem head?_take_some (s : List Nat) (j c : Nat) (h : (s.take j).head? = some c) :
    s.head? = some c := by
  cases s with
  | nil => simp at h
  | cons a s =>
    cases j with
    | zero => simp at h
    | succ j => simpa using h

/-- The result of `TrimFunc(s, unicode.IsSpace)` neither begins nor ends with ASCII white
space. -/
theorem TrimFunc_ends (s : List Nat) :
    (∀ c, (TrimFunc s unicode.IsSpace).head? = some c → asciiSpace c = false) ∧
    (∀ c, (TrimFunc s unicode.IsSpace).getLast? = some c → asciiSpace c = false) := by
  constructor
  · intro c h
    unfold TrimFunc at h
    obtain ⟨j, hj⟩ := TrimRightFunc_take (TrimLeftFunc s unicode.IsSpace) unicode.IsSpace
    rw [hj] at h
    exact TrimLeftFunc_head s c (head?_take_some _ _ _ h)
  · intro c h
    exact TrimRightFunc_last _ c h

theorem TrimFunc_subset (s : List Nat) (f : Nat → Bool) : TrimFunc s f ⊆ s := by
  unfold TrimFunc
  obtain ⟨j, hj⟩ := TrimRightFunc_take (TrimLeftFunc s f) f
  obtain ⟨k, hk⟩ := TrimLeftFunc_drop s f
  rw [hj, hk]
  exact (List.take_subset _ _).trans (List.drop_subset _ _)

/-- What a loop of the fast path of `TrimSpace` leaves: a tail of the bytes, which starts
with a byte beyond ASCII when the loop gave up, and with no ASCII white space otherwise. -/
theorem skipAsciiSpace_spec (s : List Nat) :
    (∃ k, (skipAsciiSpace s).2 = s.drop k) ∧
    ((skipAsciiSpace s).1 = false →
      ∀ c, (skipAsciiSpace s).2.head? = some c → c < 0x80 ∧ asciiSpace c = false) := by
  induction s with
  | nil => exact ⟨⟨0, rfl⟩, fun _ c h => by simp [skipAsciiSpace] at h⟩
  | cons c rest ih =>
    rw [skipAsciiSpace]
    by_cases h1 : c ≥ utf8.RuneSelf
    · rw [if_pos h1]
      exact ⟨⟨0, rfl⟩, fun h => by simp at h⟩
    · rw [if_neg h1]
      by_cases h2 : asciiSpace c = true
      · rw [if_pos h2]
        obtain ⟨⟨k, hk⟩, ih2⟩ := ih
        exact ⟨⟨k + 1, hk⟩, ih2⟩
      · rw [if_neg h2]
        refine ⟨⟨0, rfl⟩, fun _ d hd => ?_⟩
        simp only [List.head?_cons, Option.some.injEq] at hd
        rw [← hd]
        exact ⟨Nat.lt_of_not_le h1, by simpa using h2⟩

/-- A loop of the fast path that meets no ASCII white space at the start and no byte
beyond ASCII there stops at once. -/
theorem skipAsciiSpace_id (s : List Nat)
    (h : ∀ c, s.head? = some c → c < 0x80 ∧ asciiSpace c = false) :
    skipAsciiSpace s = (false, s) := by
  cases s with
  | nil => rfl
  | cons c rest =>
    obtain ⟨h1, h2⟩ := h c rfl
    rw [skipAsciiSpace, if_neg (by unfold utf8.RuneSelf; omega), if_neg (by rw [h2]; decide)]

/-- The result of `TrimSpace` neither begins nor ends with ASCII white space. -/
theorem TrimSpace_ends (s : List Nat) :
    (∀ c, (TrimSpace s).head? = some c → asciiSpace c = false) ∧
    (∀ c, (TrimSpace s).getLast? = some c → asciiSpace c = false) := by
  unfold TrimSpace
  obtain ⟨-, h1⟩ := skipAsciiSpace_spec s
  rcases hs : skipAsciiSpace s with ⟨_ | _, t⟩
  · rw [hs] at h1
    dsimp only at h1 ⊢
    obtain ⟨⟨k, hk⟩, h2⟩ := skipAsciiSpace_spec t.reverse
    rcases hu : skipAsciiSpace t.reverse with ⟨_ | _, u⟩
    · rw [hu] at hk h2
      dsimp only at hk h2 ⊢
      constructor
      · intro c hc
        have hr : u.reverse = t.take (t.length - k) := by
          rw [hk, List.reverse_drop, List.reverse_reverse, List.length_reverse]
        rw [hr] at hc
        exact (h1 rfl c (head?_take_some _ _ _ hc)).2
      · intro c hc
        rw [List.getLast?_reverse] at hc
        exact (h2 rfl c hc).2
    · exact TrimFunc_ends _
  · exact TrimFunc_ends _

theorem TrimSpace_subset (s : List Nat) : TrimSpace s ⊆ s := by
  unfold TrimSpace
  obtain ⟨⟨k, hk⟩, -⟩ := skipAsciiSpace_spec s
  rcases hs : skipAsciiSpace s with ⟨_ | _, t⟩
  · rw [hs] at hk
    dsimp only at hk ⊢
    have ht : t ⊆ s := by
      rw [hk]
      exact List.drop_subset _ _
    obtain ⟨⟨k2, hk2⟩, -⟩ := skipAsciiSpace_spec t.reverse
    rcases hu : skipAsciiSpace t.reverse with ⟨_ | _, u⟩
    · rw [hu] at hk2
      dsimp only at hk2 ⊢
      have hu2 : u.reverse ⊆ t := by
        intro x hx
        rw [List.mem_reverse, hk2] at hx
        exact List.mem_reverse.mp (List.drop_subset _ _ hx)
      exact hu2.trans ht
    · rw [hu] at hk2
      dsimp only at hk2 ⊢
      have hu2 : u.reverse ⊆ t := by
        intro x hx
        rw [List.mem_reverse, hk2] at hx
        exact List.mem_reverse.mp (List.drop_subset _ _ hx)
      exact (TrimFunc_subset _ _).trans (hu2.trans ht)
  · rw [hs] at hk
    dsimp only at hk ⊢
    rw [hk]
    exact (TrimFunc_subset _ _).trans (List.drop_subset _ _)

/-- `TrimSpace` returns bytes that have no white space at either end as they are, when
those two bytes are ASCII. -/
theorem TrimSpace_id (s : List Nat)
    (h1 : ∀ c, s.head? = some c → c < 0x80 ∧ asciiSpace c = false)
    (h2 : ∀ c, s.getLast? = some c → c < 0x80 ∧ asciiSpace c = false) :
    TrimSpace s = s := by
  unfold TrimSpace
  rw [skipAsciiSpace_id s h1]
  dsimp only
  rw [skipAsciiSpace_id s.reverse (by rw [List.head?_reverse]; exact h2)]
  exact List.reverse_reverse s

theorem dropWhile_id (p : Nat → Bool) (l : List Nat) (h : ∀ x ∈ l, p x = false) :
    l.dropWhile p = l := by
  cases l with
  | nil => rfl
  | cons a l => rw [List.dropWhile_cons, h a (List.mem_cons_self _ _)]; rfl

theorem dropWhile_replicate_append (k : Nat) (l : List Nat) :
    (List.replicate k 0 ++ l).dropWhile (fun b => b == 0) = l.dropWhile (fun b => b == 0) := by
  induction k with
  | zero => rfl
  | succ k ih => rw [List.replicate_succ, List.cons_append, List.dropWhile_cons]; simp [ih]

/-- Cutting the NUL bytes off a text without NUL bytes that was padded with NUL bytes
gives the text. -/
theorem Trim_padded (body : List Nat) (k : Nat) (h : 0 ∉ body) :
    Trim (body ++ List.replicate k 0) 0 = body := by
  have hb : ∀ x ∈ body, (fun b : Nat => b == 0) x = false := by
    intro x hx
    simp only [beq_eq_false_iff_ne, ne_eq]
    intro hx0
    exact h (hx0 ▸ hx)
  have hr : ∀ x ∈ body.reverse, (fun b : Nat => b == 0) x = false :=
    fun x hx => hb x (List.mem_reverse.mp hx)
  unfold Trim trimLeftByte trimRightByte
  rw [List.reverse_append, List.reverse_replicate, dropWhile_replicate_append,
    dropWhile_id _ _ hr, List.reverse_reverse, dropWhile_id _ _ hb]

theorem Trim_subset (s : List Nat) (c : Nat) : Trim s c ⊆ s := by
  unfold Trim trimLeftByte trimRightByte
  intro x hx
  have h1 := (List.dropWhile_sublist _).subset hx
  rw [List.mem_reverse] at h1
  exact List.mem_reverse.mp ((List.dropWhile_sublist _).subset h1)

end bytes

namespace util

/-- C18 (counterexample): for the bytes space, NUL, `A` the NUL byte is at neither end, so
`bytes.Trim` cuts nothing; `TrimSpace` then cuts the space and the string returned begins
with the NUL byte. -/
theorem B2STrim_leading_NUL :
    B2STrim [32, 0, 65] = [0, 65] ∧ (B2STrim [32, 0, 65]).head? = some 0 := by
  decide

/-- C18 (amended): for every byte array, `B2STrim(src)` neither begins nor ends with ASCII
white space, and each of its bytes is a byte of `src` with the NUL bytes cut off both ends;
so when `src` is a text without NUL bytes followed by NUL padding, the string holds no NUL
byte, and it is that text when the text has ASCII bytes other than white space at both
ends. -/
theorem B2STrim_trimmed (src : List Nat) :
    (∀ c, (B2STrim src).head? = some c → bytes.asciiSpace c = false) ∧
    (∀ c, (B2STrim src).getLast? = some c → bytes.asciiSpace c = false) ∧
    (∀ c, c ∈ B2STrim src → c ∈ bytes.Trim src 0) ∧
    (∀ body k, src = body ++ List.replicate k 0 → 0 ∉ body →
      0 ∉ B2STrim src ∧
      ((∀ c, body.head? = some c → c < 0x80 ∧ bytes.asciiSpace c = false) →
        (∀ c, body.getLast? = some c → c < 0x80 ∧ bytes.asciiSpace c = false) →
        B2STrim src = body)) := by
  refine ⟨(bytes.TrimSpace_ends _).1, (bytes.TrimSpace_ends _).2,
    fun c hc => bytes.TrimSpace_subset _ hc, ?_⟩
  intro body k hsrc h0
  have ht : bytes.Trim src 0 = body := by rw [hsrc, bytes.Trim_padded body k h0]
  constructor
  · intro hmem
    have := bytes.TrimSpace_subset _ hmem
    rw [ht] at this
    exact h0 this
  · intro h1 h2
    unfold B2STrim
    rw [ht, bytes.TrimSpace_id body h1 h2]

/-- Witness of C18 (amended): the name `sh` padded with NUL bytes to sixteen bytes is
displayed as `sh`. -/
theorem B2STrim_trimmed_witness :
    B2STrim [115, 104, 0, 0, 0, 0, 0, 0, 0, 0, 0, 0, 0, 0, 0, 0] = [115, 104] :=
  ((B2STrim_trimmed [115, 104, 0, 0, 0, 0, 0, 0, 0, 0, 0, 0, 0, 0, 0, 0]).2.2.2 [115, 104] 14
    (by decide) (by decide)).2 (by decide) (by decide)

end util

namespace event

/-- C19: in full-unwind mode, once the unwind buffer is decoded: when the live maps read
succeeds and manual mode is not forced, `Stackinfo` is `ParseStack` of the maps content
with `RegMask = (1 << 33) - 1` and `ShowPC` of the configuration, and `GetStack` is not
consulted; when the live read fails or manual mode is forced, `Stackinfo` is what
`GetStack` returns, and when `GetStack` fails `Stackinfo` is empty, the failure is logged
and `ParseContextStack` still returns no error. The mask has exactly the bits 0 to 32. -/
theorem ParseContextStack_unwind_source (env : Env) (this : ContextEvent) (w : List Effect)
    (b b2 : Buffer) (u : UnwindBuf)
    (hU : this.record.ExtraOptions.UnwindStack = true) (hbuf : this.buf = some b)
    (hd : UnwindBuf.zero.ParseContext env b = (none, u, b2)) :
    (∀ content, env.ReadMapsByPid this.Pid = .ok content → this.mconf.ManualStack = false →
      this.ParseContextStack env w =
        (none,
          { this with
            Stackinfo := env.ParseStack content ⟨(1 <<< 33) - 1, this.mconf.ShowPC⟩ u,
            UnwindBuffer := some u, buf := some b2 },
          w)) ∧
    (((∃ e, env.ReadMapsByPid this.Pid = .error e) ∨ this.mconf.ManualStack = true) →
      (∀ info, env.GetStack this.Pid u = .ok info →
        this.ParseContextStack env w =
          (none, { this with Stackinfo := info, UnwindBuffer := some u, buf := some b2 },
            w ++ [.SetLogger])) ∧
      (∀ err, env.GetStack this.Pid u = .error err →
        this.ParseContextStack env w =
          (none, { this with Stackinfo := [], UnwindBuffer := some u, buf := some b2 },
            w ++ [.SetLogger, .logGetStackError err]))) ∧
    (∀ i, ((1 <<< 33) - 1).testBit i = decide (i < 33)) := by
  refine ⟨?_, ?_, ?_⟩
  · intro content hc hm
    unfold ContextEvent.ParseContextStack
    simp only [hU, if_true, hbuf, hd, hc, hm]
  · intro h
    constructor
    · intro info hg
      unfold ContextEvent.ParseContextStack
      simp only [hU, if_true, hbuf, hd]
      rcases h with ⟨e, he⟩ | hm
      · simp only [he, hg]
      · cases hr : env.ReadMapsByPid this.Pid <;> simp only [hm, hg]
    · intro err hg
      unfold ContextEvent.ParseContextStack
      simp only [hU, if_true, hbuf, hd]
      rcases h with ⟨e, he⟩ | hm
      · simp only [he, hg]
      · cases hr : env.ReadMapsByPid this.Pid <;> simp only [hm, hg]
  · intro i
    have e : (1 <<< 33) - 1 = 2 ^ 33 - 1 := by decide
    rw [e, Nat.testBit_two_pow_sub_one]

set_option maxRecDepth 8000 in
/-- Witness of C19: on the encoded example unwind buffer, a readable maps file gives the
backtrace of `ParseStack` called with the mask `8589934591`, and an unreadable one with a
failing archive gives an empty backtrace and no error. -/
theorem ParseContextStack_unwind_source_witness :
    ((payloadEvent (exampleConf false) ⟨true, false⟩
      (encodeUnwindBuf exampleUnwind)).ParseContextStack liveEnv []).2.1.Stackinfo =
        "8589934591".toList ∧
    ((payloadEvent (exampleConf false) ⟨true, false⟩
      (encodeUnwindBuf exampleUnwind)).ParseContextStack exampleEnv []).1 = none ∧
    ((payloadEvent (exampleConf false) ⟨true, false⟩
      (encodeUnwindBuf exampleUnwind)).ParseContextStack exampleEnv []).2.1.Stackinfo = [] :=
  ⟨(congrArg (fun r => r.2.1.Stackinfo)
      ((ParseContextStack_unwind_source liveEnv
        (payloadEvent (exampleConf false) ⟨true, false⟩ (encodeUnwindBuf exampleUnwind)) []
        ⟨encodeUnwindBuf exampleUnwind, 0, 0⟩ ⟨encodeUnwindBuf exampleUnwind, 292, 0⟩ exampleUnwind
        rfl rfl (by decide)).1 _ rfl rfl)).trans (by decide),
    congrArg (fun r => r.1)
      (((ParseContextStack_unwind_source exampleEnv
        (payloadEvent (exampleConf false) ⟨true, false⟩ (encodeUnwindBuf exampleUnwind)) []
        ⟨encodeUnwindBuf exampleUnwind, 0, 0⟩ ⟨encodeUnwindBuf exampleUnwind, 292, 0⟩ exampleUnwind
        rfl rfl (by decide)).2.1 (Or.inl ⟨_, rfl⟩)).2 _ rfl),
    congrArg (fun r => r.2.1.Stackinfo)
      (((ParseContextStack_unwind_source exampleEnv
        (payloadEvent (exampleConf false) ⟨true, false⟩ (encodeUnwindBuf exampleUnwind)) []
        ⟨encodeUnwindBuf exampleUnwind, 0, 0⟩ ⟨encodeUnwindBuf exampleUnwind, 292, 0⟩ exampleUnwind
        rfl rfl (by decide)).2.1 (Or.inl ⟨_, rfl⟩)).2 _ rfl)⟩

end event

namespace event

/-- C20: when the `BrkKernel` flag is set, `ContextEvent.ParseContext` returns no error
for every raw sample, and the event (cursor, header fields and `SampleSize`) and the trace
of side effects are what they were before the call. -/
theorem ParseContext_BrkKernel_inert (env : Env) (this : ContextEvent) (w : List Effect)
    (hbrk : this.mconf.BrkKernel = true) :
    (this.ParseContext env w).1 = none ∧ (this.ParseContext env w).2.1 = this ∧
      (this.ParseContext env w).2.2 = w := by
  rw [ParseContext_BrkKernel env this w hbrk]
  exact ⟨rfl, rfl, rfl⟩

/-- Witness of C20: with the flag set, an empty sample and a sample of three bytes are
accepted and nothing is read or marked. -/
theorem ParseContext_BrkKernel_inert_witness :
    ((newEvent (exampleConf true) (sampleRecord [] ⟨false, false⟩)).ParseContext exampleEnv []).1
      = none ∧
    ((newEvent { stopConf with BrkKernel := true }
      (sampleRecord [1, 2, 3] ⟨false, false⟩)).ParseContext exampleEnv []).2 =
      (newEvent { stopConf with BrkKernel := true } (sampleRecord [1, 2, 3] ⟨false, false⟩), []) :=
  ⟨(ParseContext_BrkKernel_inert exampleEnv
      (newEvent (exampleConf true) (sampleRecord [] ⟨false, false⟩)) [] rfl).1,
    Prod.ext
      (ParseContext_BrkKernel_inert exampleEnv
        (newEvent { stopConf with BrkKernel := true } (sampleRecord [1, 2, 3] ⟨false, false⟩))
        [] rfl).2.1
      (ParseContext_BrkKernel_inert exampleEnv
        (newEvent { stopConf with BrkKernel := true } (sampleRecord [1, 2, 3] ⟨false, false⟩))
        [] rfl).2.2⟩

end event

namespace bytes

/-- What the search returns: `-1` when `sep` is a prefix at no position of the bytes, else
the first position at which it is one. -/
theorem indexLoop_spec (sep s : List Nat) (pos : Nat) :
    (indexLoop sep s pos = -1 ∧ ∀ j, j ≤ s.length → sep.isPrefixOf (s.drop j) = false) ∨
    (∃ k, k ≤ s.length ∧ indexLoop sep s pos = ((pos + k : Nat) : Int) ∧
      sep.isPrefixOf (s.drop k) = true ∧ ∀ j, j < k → sep.isPrefixOf (s.drop j) = false) := by
  induction s generalizing pos with
  | nil =>
    unfold indexLoop
    by_cases h : sep.isPrefixOf [] = true
    · right
      exact ⟨0, Nat.le_refl _, by rw [if_pos h]; rfl, h, fun j hj => absurd hj (Nat.not_lt_zero j)⟩
    · left
      refine ⟨by rw [if_neg h], fun j _ => ?_⟩
      rw [List.drop_nil]
      exact Bool.eq_false_iff.mpr h
  | cons b rest ih =>
    unfold indexLoop
    by_cases h : sep.isPrefixOf (b :: rest) = true
    · right
      exact ⟨0, Nat.zero_le _, by rw [if_pos h]; rfl, h, fun j hj => absurd hj (Nat.not_lt_zero j)⟩
    · rw [if_neg h]
      have hf : sep.isPrefixOf (b :: rest) = false := Bool.eq_false_iff.mpr h
      rcases ih (pos + 1) with ⟨h1, h2⟩ | ⟨k, hk, h1, h2, h3⟩
      · left
        refine ⟨h1, fun j hj => ?_⟩
        cases j with
        | zero => exact hf
        | succ j => exact h2 j (by simpa using hj)
      · right
        refine ⟨k + 1, by simpa using hk, ?_, h2, fun j hj => ?_⟩
        · rw [h1]
          congr 1
          omega
        · cases j with
          | zero => exact hf
          | succ j => exact h3 j (by omega)

/-- The bytes from the first instance of `sep` on start with `sep`: searching them again
gives index 0. -/
theorem Index_drop (s sep : List Nat) (i : Nat) (h : Index s sep = (i : Int)) :
    Index (s.drop i) sep = 0 := by
  have hp : sep.isPrefixOf (s.drop i) = true := by
    rcases indexLoop_spec sep s 0 with ⟨h1, _⟩ | ⟨k, _, h1, h2, _⟩
    · unfold Index at h
      rw [h1] at h
      omega
    · unfold Index at h
      rw [h1] at h
      have e : k = i := by omega
      rw [← e]
      exact h2
  unfold Index
  cases hd : s.drop i with
  | nil =>
    rw [hd] at hp
    unfold indexLoop
    rw [if_pos hp]
    rfl
  | cons b rest =>
    rw [hd] at hp
    unfold indexLoop
    rw [if_pos hp]
    rfl

end bytes

namespace util

/-- The loop of `FindIns` runs its body at most once: after one pass `sym_data` starts with
the pattern, `bytes.Index` gives 0 and the loop ends. -/
theorem FindInsLoop_eq (sym_offset : Int) (ins sym_data : List Nat) (fuel : Nat)
    (hfuel : 2 ≤ fuel) :
    FindInsLoop sym_offset ins fuel [] sym_data (bytes.Index sym_data ins) =
      some (if bytes.Index sym_data ins > 0
        then ["0x".toList ++ hexInt (wrapInt64 (sym_offset + bytes.Index sym_data ins))]
        else []) := by
  obtain ⟨f, rfl⟩ : ∃ f, fuel = f + 2 := ⟨fuel - 2, by omega⟩
  by_cases h : bytes.Index sym_data ins > 0
  · have hi : bytes.Index sym_data ins = ((bytes.Index sym_data ins).toNat : Int) := by omega
    have h0 := bytes.Index_drop sym_data ins _ hi
    rw [FindInsLoop, if_pos h, h0, FindInsLoop, if_neg (by decide), if_pos h]
    rfl
  · rw [FindInsLoop, if_neg h, if_neg h]

/-- C21: for every `sym_offset`, `sym_data` and pattern, `FindIns` returns once its loop
may test its condition twice, and it reports at most one offset: the empty string when
`bytes.Index` finds no instance of the pattern or finds the first one at index 0, and
otherwise `0x` followed by the `%x` form of `sym_offset + i` (an `int64` sum), `i` being the
index of the first instance; no later instance is listed. `bytes.Index` is `-1` exactly
when the pattern is a prefix at no position, and else the first position at which it is
one; the `int64` sum is the sum when that lies in the range of `int64`. -/
theorem FindIns_first_only (fuel : Nat) (hfuel : 2 ≤ fuel) (sym_offset : Int)
    (sym_data ins : List Nat) :
    FindIns fuel sym_offset sym_data ins =
      some (if bytes.Index sym_data ins ≤ 0 then []
        else "0x".toList ++ hexInt (wrapInt64 (sym_offset + bytes.Index sym_data ins))) ∧
    (bytes.Index sym_data ins = -1 ↔
      ∀ j, j ≤ sym_data.length → ¬ ins <+: sym_data.drop j) ∧
    (∀ i : Nat, bytes.Index sym_data ins = (i : Int) ↔
      (i ≤ sym_data.length ∧ ins <+: sym_data.drop i ∧
        ∀ j, j < i → ¬ ins <+: sym_data.drop j)) ∧
    (-(2 : Int) ^ 63 ≤ sym_offset + bytes.Index sym_data ins →
      sym_offset + bytes.Index sym_data ins < 2 ^ 63 →
      wrapInt64 (sym_offset + bytes.Index sym_data ins) =
        sym_offset + bytes.Index sym_data ins) := by
  have hpre : ∀ l : List Nat, (ins.isPrefixOf l = true ↔ ins <+: l) :=
    fun l => List.isPrefixOf_iff_prefix
  have hnpre : ∀ l : List Nat, (ins.isPrefixOf l = false ↔ ¬ ins <+: l) :=
    fun l => Bool.eq_false_iff.trans (not_congr (hpre l))
  refine ⟨?_, ?_, ?_, ?_⟩
  · unfold FindIns
    rw [FindInsLoop_eq sym_offset ins sym_data fuel hfuel]
    by_cases h : bytes.Index sym_data ins > 0
    · rw [if_pos h, if_neg (by omega)]
      rfl
    · rw [if_neg h, if_pos (by omega)]
      rfl
  · unfold bytes.Index
    rcases bytes.indexLoop_spec ins sym_data 0 with ⟨h1, h2⟩ | ⟨k, hk, h1, h2, _⟩
    · rw [h1]
      exact ⟨fun _ j hj => (hnpre _).mp (h2 j hj), fun _ => rfl⟩
    · rw [h1]
      constructor
      · intro h
        omega
      · intro h
        exact absurd ((hpre _).mp h2) (h k hk)
  · intro i
    unfold bytes.Index
    rcases bytes.indexLoop_spec ins sym_data 0 with ⟨h1, h2⟩ | ⟨k, hk, h1, h2, h3⟩
    · rw [h1]
      constructor
      · intro h
        omega
      · rintro ⟨hi, hp, _⟩
        exact absurd hp ((hnpre _).mp (h2 i hi))
    · rw [h1]
      constructor
      · intro h
        have e : k = i := by omega
        subst e
        exact ⟨hk, (hpre _).mp h2, fun j hj => (hnpre _).mp (h3 j hj)⟩
      · rintro ⟨hi, hp, hfirst⟩
        have e : k = i := by
          rcases Nat.lt_trichotomy k i with hlt | heq | hgt
          · exact absurd ((hpre _).mp h2) (hfirst k hlt)
          · exact heq
          · exact absurd hp ((hnpre _).mp (h3 i hgt))
        rw [e]
        simp
  · intro hlo hhi
    unfold wrapInt64
    have h1 : (0 : Int) ≤ sym_offset + bytes.Index sym_data ins + 2 ^ 63 := by omega
    rw [Int.emod_eq_of_lt h1 (by omega)]
    omega

/-- Witness of C21: in a body of three instructions with `RET` at bytes 4 and 8, only the
first is reported; with `RET` at byte 0 nothing is reported. -/
theorem FindIns_first_only_witness :
    FindIns 2 0x1000
      [0x1f, 0x20, 0x03, 0xd5, 0xC0, 0x03, 0x5F, 0xD6, 0xC0, 0x03, 0x5F, 0xD6] retIns =
        some "0x1004".toList ∧
    FindIns 2 0x1000 [0xC0, 0x03, 0x5F, 0xD6, 0x1f, 0x20, 0x03, 0xd5] retIns = some [] :=
  ⟨((FindIns_first_only 2 (Nat.le_refl 2) 0x1000
      [0x1f, 0x20, 0x03, 0xd5, 0xC0, 0x03, 0x5F, 0xD6, 0xC0, 0x03, 0x5F, 0xD6] retIns).1).trans
      (by decide),
    ((FindIns_first_only 2 (Nat.le_refl 2) 0x1000
      [0xC0, 0x03, 0x5F, 0xD6, 0x1f, 0x20, 0x03, 0xd5] retIns).1).trans (by decide)⟩

end util

namespace util

/-- An accepted line leaves its own segment in the seven variables, whatever they held. -/
theorem Fscanf_vars (line : List Char) (v seg : SegVars) (h : parseLine line = some seg) :
    (Fscanf line v).err = none ∧ (Fscanf line v).n = 7 ∧ (Fscanf line v).vars = seg := by
  have h0 : (Fscanf line SegVars.zero).err = none ∧ (Fscanf line SegVars.zero).n = 7 := by
    unfold parseLine at h
    by_cases hc : (Fscanf line SegVars.zero).err = none ∧ (Fscanf line SegVars.zero).n = 7
    · exact hc
    · simp only [if_neg hc] at h
      exact absurd h (by simp)
  have hv : (Fscanf line v).err = none ∧ (Fscanf line v).n = 7 := by
    rw [Fscanf_eq line v]
    exact h0
  obtain ⟨seg2, h1, h2⟩ := (Fscanf_accept line v).mp hv
  rw [h] at h1
  injection h1 with h1
  exact ⟨hv.1, hv.2, by rw [h2, h1]⟩

/-- C22: when a line of the maps text is accepted with a range that holds the address and
no earlier line is, the loop of `ParseReg` returns the symbol computed from that line
alone, whatever lines follow it (further segments that hold the address included),
whatever lines precede it (lines given up after some fields included) and whatever the
seven variables held when the loop reached it: the scan of the line stores all seven
again. -/
theorem ParseRegLoop_first_hit (value : Nat) (pre post : List (List Char))
    (line : List Char) (seg v : SegVars)
    (hpre : ∀ l ∈ pre, ∀ s, parseLine l = some s → ¬ s.covers value)
    (hline : parseLine line = some seg) (hcov : seg.covers value) :
    ParseRegLoop value (pre ++ line :: post) v = segSymbol seg value ∧
    ParseRegLoop value (pre ++ line :: post) v = ParseRegLoop value [line] SegVars.zero ∧
    (Fscanf line v).vars = seg ∧
    (∀ content, Split '\n' content = pre ++ line :: post →
      resolve content value = segSymbol seg value ∧
      ParseReg (.ok content) value = (segSymbol seg value, none)) := by
  have h1 : ∀ v2, ParseRegLoop value (pre ++ line :: post) v2 = segSymbol seg value := by
    intro v2
    rw [ParseRegLoop_eq, scanLines_append_hit value pre post line seg hpre hline hcov]
  have h2 : ParseRegLoop value [line] SegVars.zero = segSymbol seg value := by
    rw [ParseRegLoop_eq]
    exact scanLines_append_hit value [] [] line seg (fun l hl => absurd hl (List.not_mem_nil l))
      hline hcov
  refine ⟨h1 v, (h1 v).trans h2.symm, (Fscanf_vars line v seg hline).2.2, ?_⟩
  intro content hsplit
  have h3 : resolve content value = segSymbol seg value := by
    unfold resolve
    rw [hsplit]
    exact h1 SegVars.zero
  exact ⟨h3, by unfold ParseReg; simp only [h3]⟩

/-- Witness of C22: after a line given up at its fourth field, of two segments that hold
`0x1500` the first gives the symbol, and the stale values of the variables are not seen. -/
theorem ParseRegLoop_first_hit_witness :
    ParseRegLoop 0x1500 [partLine, firstLine, laterLine, firstLine] staleVars =
      "a.so + 0x110".toList ∧
    (Fscanf partLine staleVars).n = 4 :=
  ⟨((ParseRegLoop_first_hit 0x1500 [partLine] [laterLine, firstLine] firstLine
      ⟨0x1400, 0x3000, "r-xp".toList, 0x10, "fd:00".toList, 7, "/lib/a.so".toList⟩ staleVars
      (fun l hl s hs => by
        rw [List.mem_singleton.mp hl, show parseLine partLine = none by decide] at hs
        exact absurd hs (by simp))
      (by decide) (by decide)).1).trans (by decide),
    by decide⟩

end util
